import Mathlib

/-!
# Spherical geometry regions (`src/core/StelSphereGeometry.cpp`)

A shallow embedding of the region algebra of `StelSphereGeometry.cpp`.

* `double` is modelled by an arbitrary linearly ordered commutative ring / field `K`
  (exact arithmetic); the trigonometric functions, the square root, the GLU tesselator and
  the Qt string conversions are external to the file and are taken as parameters.
* `Q_ASSERT` is modelled by `qAssert`: with assertions compiled in a failed assertion aborts
  the computation (`Fault.assertion`), with assertions compiled out it is a no-op.
* `throw std::runtime_error(msg)` is modelled by `Except.error (Fault.runtimeError _)`.
-/

namespace StelSphereGeometry

/-! ## Vectors -/

/-- Three component vector, the `Vec3d` of the sources, over the scalar type `K`. -/
structure Vec3 (K : Type) where
  x : K
  y : K
  z : K
deriving DecidableEq

section Geometry

variable {K : Type} [LinearOrderedCommRing K]

/-- Cross product, `Vec3d::operator^`. -/
def Vec3.cross (a b : Vec3 K) : Vec3 K :=
  ⟨a.y * b.z - a.z * b.y, a.z * b.x - a.x * b.z, a.x * b.y - a.y * b.x⟩

/-- Dot product, `Vec3d::operator*`. -/
def Vec3.dot (a b : Vec3 K) : K :=
  a.x * b.x + a.y * b.y + a.z * b.z

/-- The default constructed vector, used as the value of an out of range read. -/
def Vec3.zero : Vec3 K := ⟨0, 0, 0⟩

/-- Element access `QVector::at(i)` / `operator[]`. -/
def vAt (v : List (Vec3 K)) (i : Nat) : Vec3 K := v.getD i Vec3.zero

/-- The accessor `QVector::first()`. -/
def vFirst (v : List (Vec3 K)) : Vec3 K := vAt v 0

/-- The accessor `QVector::last()`. -/
def vLast (v : List (Vec3 K)) : Vec3 K := vAt v (v.length - 1)

/-- Modelled from the spec: the inline helper `sideHalfSpaceContains(v1, v2, p)` of the header
`StelSphereGeometry.hpp`, which is not part of the available sources. It tells whether the
half space of normal `v1 ^ v2` contains the point `p`, that is `(v1 ^ v2) * p >= 0`. -/
def sideHalfSpaceContains (v1 v2 p : Vec3 K) : Bool :=
  decide (0 ≤ (v1.cross v2).dot p)

/-! ## SphericalConvexPolygon -/

/-- One pass of `for (int p=0; p<n; ++p) res &= f(p);` starting from the accumulator `res`. -/
def andLoop (n : Nat) (f : Nat → Bool) (res : Bool) : Bool :=
  (List.range n).foldl (fun res p => res && f p) res

/-- The validity test `SphericalConvexPolygon::checkValidContour(contour)`. -/
def SphericalConvexPolygon.checkValidContour (contour : List (Vec3 K)) : Bool :=
  if contour.length < 3 then false
  else
    let res := (List.range (contour.length - 1)).foldl
      (fun res i =>
        andLoop (contour.length - 2)
          (fun p => sideHalfSpaceContains (vAt contour (i + 1)) (vAt contour i)
            (vAt contour ((p + i + 2) % contour.length))) res)
      true
    andLoop (contour.length - 2)
      (fun p => sideHalfSpaceContains (vFirst contour) (vLast contour)
        (vAt contour ((p + contour.length + 1) % contour.length))) res

/-- The point test `SphericalConvexPolygon::contains(const Vec3d& p)`: the loop returns `false`
at the first edge whose half space misses `p`, then the closing edge decides. -/
def SphericalConvexPolygon.contains (contour : List (Vec3 K)) (p : Vec3 K) : Bool :=
  if (List.range (contour.length - 1)).any
      (fun i => !sideHalfSpaceContains (vAt contour (i + 1)) (vAt contour i) p) then false
  else sideHalfSpaceContains (vFirst contour) (vLast contour) p

/-- The loop `for (j=0; j<nbPoints && allOutside==true; ++j) allOutside = allOutside && !...`
of `areAllPointsOutsideOneSide`, for the edge `(a, b)` and the remaining points. -/
def allOutsideLoop (a b : Vec3 K) : List (Vec3 K) → Bool → Bool
  | [], allOutside => allOutside
  | p :: ps, allOutside =>
    if allOutside then allOutsideLoop a b ps (allOutside && !sideHalfSpaceContains a b p)
    else allOutside

/-- The static test `SphericalConvexPolygon::areAllPointsOutsideOneSide(thisContour,
nbThisContour, points, nbPoints)`; the two (pointer, count) pairs are the two lists. -/
def SphericalConvexPolygon.areAllPointsOutsideOneSide
    (thisContour : List (Vec3 K)) (points : List (Vec3 K)) : Bool :=
  if (List.range (thisContour.length - 1)).any
      (fun i => allOutsideLoop (vAt thisContour (i + 1)) (vAt thisContour i) points true) then true
  else if allOutsideLoop (vAt thisContour 0) (vAt thisContour (thisContour.length - 1)) points true
    then true
  else false

/-- The slice `vArray.constData()+i*3` of length 3: the `i`-th triangle of a vertex array. -/
def triangleAt (vArray : List (Vec3 K)) (i : Nat) : List (Vec3 K) :=
  (vArray.drop (i * 3)).take 3

/-- The two sorts of `SphericalPolygonBase` that `dynamic_cast<const SphericalConvexPolygon*>`
tells apart: a convex polygon with its contour, or any other polygon with the vertices of
its triangle mesh (`getVertexArray().vertex`). -/
inductive SphericalPolygonBase (K : Type)
  | convex (contour : List (Vec3 K))
  | general (vArray : List (Vec3 K))

/-- The test `SphericalConvexPolygon::intersects(const SphericalPolygonBase& polyBase)` of the
convex polygon of contour `contour`. The one argument overload
`areAllPointsOutsideOneSide(points)` of the header passes the contour of its receiver and
`points` to the static test. -/
def SphericalConvexPolygon.intersects (contour : List (Vec3 K)) :
    SphericalPolygonBase K → Bool
  | .convex cvx =>
    !SphericalConvexPolygon.areAllPointsOutsideOneSide contour cvx &&
      !SphericalConvexPolygon.areAllPointsOutsideOneSide cvx contour
  | .general vArray =>
    (List.range (vArray.length / 3)).any (fun i =>
      !SphericalConvexPolygon.areAllPointsOutsideOneSide contour (triangleAt vArray i) &&
        !SphericalConvexPolygon.areAllPointsOutsideOneSide (triangleAt vArray i) contour)

/-- Some edge of `a`, the closing edge from the last vertex to the first included, has every
vertex of `b` strictly outside its half space. -/
def HasSeparatingEdge (a b : List (Vec3 K)) : Prop :=
  (∃ i, i < a.length - 1 ∧
    ∀ v, v ∈ b → sideHalfSpaceContains (vAt a (i + 1)) (vAt a i) v = false) ∨
  (∀ v, v ∈ b → sideHalfSpaceContains (vAt a 0) (vAt a (a.length - 1)) v = false)

end Geometry

/-! ## Build configuration, faults and external collaborators -/

/-- Reasons of the `std::runtime_error` exceptions thrown while loading a region. -/
inductive ParseError
  /-- "invalid Ra,Dec pair" -/
  | invalidRaDecPair
  /-- "missing sky contours description required for Spherical Geometry elements." -/
  | missingContours
  /-- "the number of sky contours does not match the number of texture space contours" -/
  | contourCountMismatch
  /-- "invalid contour definition" -/
  | invalidContour
  /-- "invalid CAP description" -/
  | invalidCap
  /-- "invalid aperture angle" -/
  | invalidAperture
  /-- "a polygon contour must have at least 3 vertices" -/
  | tooFewVertices
  /-- "texture coordinate and vertices number mismatch for contour" -/
  | texCoordCountMismatch
  /-- "invalid texture coordinate pair" -/
  | invalidTexCoordPair
deriving DecidableEq

/-- Abnormal ends of a computation: a failed `Q_ASSERT` or a thrown `std::runtime_error`. -/
inductive Fault
  | assertion
  | runtimeError (e : ParseError)
deriving DecidableEq

/-- The winding rules `SphericalPolygonBase::PolyWindingRule`. -/
inductive PolyWindingRule
  | WindingPositive
  | WindingAbsGeqTwo
deriving DecidableEq

/-- The winding rules `OctahedronContour::TessWindingRule`. -/
inductive TessWindingRule
  | WindingPositive
  | WindingAbsGeqTwo
deriving DecidableEq

/-- A vertex with its texture coordinates, `SphericalTexturedPolygon::TextureVertex`. -/
structure TextureVertex (K : Type) where
  vertex : Vec3 K
  texCoord : K × K

/-- What the file takes from outside: the build configuration, the math library, `StelUtils`,
`VecMath`, the GLU tesselator and the Qt string conversions. -/
structure Env (K : Type) where
  /-- The build has its assertions compiled in (neither `NDEBUG` nor `QT_NO_DEBUG`). -/
  assertions : Bool
  /-- The compiler evaluates the arguments of a call from left to right (otherwise from right
  to left). -/
  argsLeftToRight : Bool
  /-- The constant `M_PI`. -/
  pi : K
  cos : K → K
  sin : K → K
  acos : K → K
  sqrt : K → K
  /-- The conversion `StelUtils::rectToSphe`, giving `(ra, dec)`. -/
  rectToSphe : Vec3 K → K × K
  /-- The rotation `v.transfo4d(Mat4d::rotation(axis, angle))` as `rotate axis angle v`. -/
  rotate : Vec3 K → K → Vec3 K → Vec3 K
  /-- The GLU tesselator in triangle mode: the sequence of vertex callbacks, each with the
  edge flag current at that callback. -/
  tesselate : PolyWindingRule → List (List (Vec3 K)) → List (Vec3 K × Bool)
  /-- The GLU tesselator in triangle mode on textured vertices. -/
  tesselateTextured : PolyWindingRule → List (List (TextureVertex K)) →
    List (TextureVertex K × Bool)
  /-- The GLU tesselator in boundary-only mode with the positive winding rule. -/
  tesselateBoundary : List (List (Vec3 K)) → List (List (Vec3 K))
  /-- The GLU tesselator as set up by `OctahedronContour::tesselate` (normal `(0,0,1)`, the
  callbacks `octVertexCallback`, `octEdgeFlagCallback`, `octCombineCallback`) on the contours
  of one side: the sequence of vertex callbacks, each with the edge flag current at that
  callback. -/
  tesselateOct : TessWindingRule → List (List (Vec3 K)) → List (Vec3 K × Bool)
  /-- The conversion `QString::toDouble`, `none` when the text is not a number. -/
  stringToDouble : String → Option K
  /-- The text of a number, as given by `QVariant(double).toString()`. -/
  doubleToString : K → String

/-- The macro `Q_ASSERT(cond)`: aborts when assertions are compiled in and `cond` fails. -/
def qAssert {K : Type} (env : Env K) (cond : Bool) : Except Fault Unit :=
  if env.assertions && !cond then .error Fault.assertion else .ok ()

/-! ## Regions -/

/-- The caps `SphericalCap`: the points `p` with `p * n >= d`. -/
structure SphericalCap (K : Type) where
  n : Vec3 K
  d : K

/-- The general polygons `SphericalPolygon`: a triangle mesh with its edge flags. -/
structure SphericalPolygon (K : Type) where
  triangleVertices : List (Vec3 K)
  edgeFlags : List Bool

/-- The type tags `SphericalRegion::SphericalRegionType`. -/
inductive SphericalRegionType
  | Point
  | Cap
  | AllSky
  | Polygon
  | ConvexPolygon
  | Empty
deriving DecidableEq

/-- The regions behind a `SphericalRegionP`, one constructor per concrete class. -/
inductive SphericalRegion (K : Type)
  /-- An `EmptySphericalRegion`. -/
  | Empty
  /-- A `SphericalPoint`. -/
  | Point (n : Vec3 K)
  /-- A `SphericalCap`. -/
  | Cap (cap : SphericalCap K)
  /-- A `SphericalPolygon`. -/
  | Polygon (poly : SphericalPolygon K)
  /-- A `SphericalTexturedPolygon`: a polygon with one texture coordinate per vertex. -/
  | TexturedPolygon (poly : SphericalPolygon K) (textureCoords : List (K × K))
  /-- A `SphericalConvexPolygon`. -/
  | ConvexPolygon (contour : List (Vec3 K))
  /-- An `AllSkySphericalRegion`. -/
  | AllSky

/-- The virtual method `getType()`. -/
def SphericalRegion.getType {K : Type} : SphericalRegion K → SphericalRegionType
  | .Empty => .Empty
  | .Point _ => .Point
  | .Cap _ => .Cap
  | .Polygon _ => .Polygon
  | .TexturedPolygon _ _ => .Polygon
  | .ConvexPolygon _ => .ConvexPolygon
  | .AllSky => .AllSky

section Polygons

variable {K : Type} [LinearOrderedField K]

/-- The squared norm `Vec3d::lengthSquared()`. -/
def Vec3.lengthSquared (v : Vec3 K) : K := v.x * v.x + v.y * v.y + v.z * v.z

/-- The norm `Vec3d::length()`. -/
def Vec3.length (env : Env K) (v : Vec3 K) : K := env.sqrt (v.x * v.x + v.y * v.y + v.z * v.z)

/-- The sum `Vec3d::operator+`. -/
def Vec3.add (a b : Vec3 K) : Vec3 K := ⟨a.x + b.x, a.y + b.y, a.z + b.z⟩

/-- Modelled from the spec: `Vec3d::normalize()` of `VecMath.hpp`, which is not part of the
available sources; it rescales the vector onto the unit sphere. -/
def Vec3.normalize (env : Env K) (v : Vec3 K) : Vec3 K :=
  ⟨v.x / Vec3.length env v, v.y / Vec3.length env v, v.z / Vec3.length env v⟩

/-- The default constructor `SphericalPolygon()`: no triangle. -/
def SphericalPolygon.empty : SphericalPolygon K := ⟨[], []⟩

/-- The orientation test of the triangle `i` done by `setContours` and `getContours`:
`(v[i*3+1] ^ v[i*3]) * v[i*3+2] >= 0`. -/
def triangleOriented (v : List (Vec3 K)) (i : Nat) : Bool :=
  decide (0 ≤ ((vAt v (i * 3 + 1)).cross (vAt v (i * 3))).dot (vAt v (i * 3 + 2)))

/-- The check `std::fabs(v.lengthSquared()-1.)<0.000001`. -/
def isNormalized (v : Vec3 K) : Bool :=
  decide (|Vec3.lengthSquared v - 1| < 1 / 1000000)

/-- The method `SphericalPolygon::setContours(contours, windingRule)`, giving the new state of
the polygon. The vertex callback asserts that each vertex has length 1; after the tesselation
the sizes are asserted and, in a build with `NDEBUG` unset only, the vertices are asserted to
be normalized and a triangle of negative orientation empties the polygon. -/
def SphericalPolygon.setContours (env : Env K) (contours : List (List (Vec3 K)))
    (windingRule : PolyWindingRule) : Except Fault (SphericalPolygon K) := do
  let out := env.tesselate windingRule contours
  qAssert env (out.all (fun cb => decide (|Vec3.length env cb.1 - 1| < 1 / 1000000)))
  let triangleVertices := out.map Prod.fst
  let edgeFlags := out.map Prod.snd
  qAssert env (triangleVertices.length == edgeFlags.length)
  qAssert env (triangleVertices.length % 3 == 0)
  if env.assertions then
    qAssert env (triangleVertices.all isNormalized)
    if (List.range (triangleVertices.length / 3)).any
        (fun i => !triangleOriented triangleVertices i) then
      pure ⟨[], []⟩
    else pure ⟨triangleVertices, edgeFlags⟩
  else pure ⟨triangleVertices, edgeFlags⟩

/-- Modelled from the spec: the constructor `SphericalPolygon(contours)` of the header, which
runs `setContours` with the default winding rule `WindingPositive`. -/
def SphericalPolygon.ofContours (env : Env K) (contours : List (List (Vec3 K))) :
    Except Fault (SphericalPolygon K) :=
  SphericalPolygon.setContours env contours .WindingPositive

/-- The method `SphericalPolygon::setContour(contour)`, behind the constructor
`SphericalPolygon(contour)`. -/
def SphericalPolygon.setContour (env : Env K) (contour : List (Vec3 K)) :
    Except Fault (SphericalPolygon K) :=
  SphericalPolygon.setContours env [contour] .WindingPositive

/-- The method `SphericalPolygon::getContours()`: one contour per triangle of the mesh. -/
def SphericalPolygon.getContours (env : Env K) (p : SphericalPolygon K) :
    Except Fault (List (List (Vec3 K))) := do
  qAssert env (p.triangleVertices.length % 3 == 0)
  let res := (List.range (p.triangleVertices.length / 3)).map
    (fun i => (p.triangleVertices.drop (i * 3)).take 3)
  if env.assertions then
    qAssert env (res.all (fun l => decide (0 ≤ ((vAt l 1).cross (vAt l 0)).dot (vAt l 2))))
  pure res

/-- The method `SphericalPolygonBase::getSimplifiedContours()`: the triangles of the mesh go
through the tesselator in boundary-only mode. -/
def SphericalPolygon.getSimplifiedContours (env : Env K) (p : SphericalPolygon K) :
    Except Fault (List (List (Vec3 K))) := do
  let triangles := (List.range (p.triangleVertices.length / 3)).map
    (fun c => [vAt p.triangleVertices (c * 3), vAt p.triangleVertices (c * 3 + 1),
      vAt p.triangleVertices (c * 3 + 2)])
  let resultContours := env.tesselateBoundary triangles
  if env.assertions then
    qAssert env (resultContours.all (fun c => c.all isNormalized))
  pure resultContours

/-- The body of the two nested `foreach` of `getBoundingCap`: the state is `(p1, p2, maxDist)`. -/
def boundingCapStep (st : Vec3 K × Vec3 K × K) (v1 v2 : Vec3 K) : Vec3 K × Vec3 K × K :=
  if v1.dot v2 < st.2.2 then (v1, v2, v1.dot v2) else st

/-- The method `SphericalPolygonBase::getBoundingCap()` on a mesh. -/
def SphericalPolygon.getBoundingCap (env : Env K) (p : SphericalPolygon K) : SphericalCap K :=
  let st := p.triangleVertices.foldl
    (fun st v1 => p.triangleVertices.foldl (fun st v2 => boundingCapStep st v1 v2) st)
    ((⟨1, 0, 0⟩ : Vec3 K), (⟨1, 0, 0⟩ : Vec3 K), (1 : K))
  let res := Vec3.normalize env (Vec3.add st.1 st.2.1)
  ⟨res, res.dot st.1⟩

/-- Modelled from the spec: `SphericalCap::intersects(cap)` of the header, which is not part of
the available sources: true iff the angular distance between the centers is at most the sum
of the angular radii. -/
def SphericalCap.intersects (env : Env K) (c h : SphericalCap K) : Bool :=
  decide (env.acos (c.n.dot h.n) ≤ env.acos c.d + env.acos h.d)

/-- The method `SphericalPolygonBase::getIntersection(mpoly)`. -/
def SphericalPolygon.getIntersection (env : Env K) (p mpoly : SphericalPolygon K) :
    Except Fault (SphericalPolygon K) := do
  if !SphericalCap.intersects env (p.getBoundingCap env) (mpoly.getBoundingCap env) then
    pure SphericalPolygon.empty
  else
    let c1 ← p.getSimplifiedContours env
    let c2 ← mpoly.getSimplifiedContours env
    SphericalPolygon.setContours env (c1 ++ c2) .WindingAbsGeqTwo

/-- The method `SphericalPolygonBase::getUnion(mpoly)`. -/
def SphericalPolygon.getUnion (env : Env K) (p mpoly : SphericalPolygon K) :
    Except Fault (SphericalPolygon K) := do
  let c1 ← p.getContours env
  let c2 ← mpoly.getContours env
  SphericalPolygon.ofContours env (c1 ++ c2)

/-- The method `SphericalPolygonBase::getSubtraction(mpoly)`: the contours of `mpoly` are
appended in order, each with its vertices from last to first. -/
def SphericalPolygon.getSubtraction (env : Env K) (p mpoly : SphericalPolygon K) :
    Except Fault (SphericalPolygon K) := do
  let allContours ← p.getContours env
  let cs ← mpoly.getContours env
  SphericalPolygon.ofContours env
    (cs.foldl (fun allContours c => allContours ++ [c.reverse]) allContours)

/-- The method `SphericalPolygonBase::intersects(mpoly)`. -/
def SphericalPolygon.intersects (env : Env K) (p mpoly : SphericalPolygon K) :
    Except Fault Bool := do
  if !SphericalCap.intersects env (p.getBoundingCap env) (mpoly.getBoundingCap env) then
    pure false
  else
    let r ← p.getIntersection env mpoly
    pure (!r.triangleVertices.isEmpty)

/-- The method `SphericalCap::toSphericalConvexPolygon()`: the contour of the 40 points got by
turning a point of the boundary around the axis of the cap. -/
def SphericalCap.toSphericalConvexPolygon (env : Env K) (cap : SphericalCap K) :
    List (Vec3 K) :=
  let axis0 := cap.n.cross ⟨1, 0, 0⟩
  let axis := if Vec3.lengthSquared axis0 < 1 / 10 then cap.n.cross ⟨0, 1, 0⟩ else axis0
  let p0 := env.rotate axis (env.acos cap.d) cap.n
  ((List.range 40).foldl
    (fun (st : List (Vec3 K) × Vec3 K) _ =>
      (st.1 ++ [st.2], env.rotate cap.n (-2 * env.pi / 40) st.2))
    ([], p0)).1

/-- The virtual method `toSphericalPolygon()` of each class. Those of `EmptySphericalRegion`
and `SphericalPolygon` are inline in the header: the empty polygon and the polygon itself. -/
def SphericalRegion.toSphericalPolygon (env : Env K) :
    SphericalRegion K → Except Fault (SphericalPolygon K)
  | .Empty => pure SphericalPolygon.empty
  | .Point n => SphericalPolygon.setContour env [n, n, n]
  | .Cap cap => SphericalPolygon.setContour env (cap.toSphericalConvexPolygon env)
  | .Polygon poly => pure poly
  | .TexturedPolygon poly _ => pure poly
  | .ConvexPolygon contour => SphericalPolygon.setContour env contour
  | .AllSky => do
    qAssert env false
    pure SphericalPolygon.empty

/-! ## The static combinators of `SphericalRegionP` -/

/-- The combinator `SphericalRegionP::getIntersection(reg1, reg2)`. -/
def SphericalRegionP.getIntersection (env : Env K) (reg1 reg2 : SphericalRegion K) :
    Except Fault (SphericalRegion K) :=
  if reg1.getType = .AllSky then
    if reg2.getType = .AllSky then pure .AllSky
    else do
      let p ← reg2.toSphericalPolygon env
      pure (.Polygon p)
  else if reg2.getType = .AllSky then do
    let p ← reg1.toSphericalPolygon env
    pure (.Polygon p)
  else do
    let p1 ← reg1.toSphericalPolygon env
    let p2 ← reg2.toSphericalPolygon env
    let r ← p1.getIntersection env p2
    pure (.Polygon r)

/-- The combinator `SphericalRegionP::getUnion(reg1, reg2)`. -/
def SphericalRegionP.getUnion (env : Env K) (reg1 reg2 : SphericalRegion K) :
    Except Fault (SphericalRegion K) :=
  if reg1.getType = .AllSky || reg2.getType ≠ .AllSky then pure .AllSky
  else do
    let p1 ← reg1.toSphericalPolygon env
    let p2 ← reg2.toSphericalPolygon env
    let r ← p1.getUnion env p2
    pure (.Polygon r)

/-- The combinator `SphericalRegionP::getSubtraction(reg1, reg2)`. -/
def SphericalRegionP.getSubtraction (env : Env K) (reg1 reg2 : SphericalRegion K) :
    Except Fault (SphericalRegion K) := do
  let p1 ← reg1.toSphericalPolygon env
  let p2 ← reg2.toSphericalPolygon env
  let r ← p1.getSubtraction env p2
  pure (.Polygon r)

end Polygons

/-! ## Serialization through `QVariant` -/

/-- The values of a parsed JSON tree, as held by a `QVariant`. -/
inductive QVariant (K : Type)
  /-- The invalid variant `QVariant()`, also the value of a missing key. -/
  | invalid
  | bool (b : Bool)
  | int (i : Int)
  | double (x : K)
  | string (s : String)
  | list (l : List (QVariant K))
  | map (m : List (String × QVariant K))

/-- A `QVariantMap`, as the list of its entries; the first entry of a key is its value. -/
abbrev QVariantMap (K : Type) := List (String × QVariant K)

/-- The lookup `QVariantMap::value(key)`: the invalid variant when the key is missing. -/
def QVariantMap.value {K : Type} (m : QVariantMap K) (key : String) : QVariant K :=
  match m.lookup key with
  | some v => v
  | none => .invalid

/-- The update `QVariantMap::insert(key, value)`, which replaces the value of the key. -/
def QVariantMap.insert {K : Type} (m : QVariantMap K) (key : String) (v : QVariant K) :
    QVariantMap K :=
  (key, v) :: m.filter (fun e => e.1 != key)

/-- The conversion `QVariant::toList()`: empty unless the variant holds a list. -/
def QVariant.toList {K : Type} : QVariant K → List (QVariant K)
  | .list l => l
  | _ => []

/-- The conversion `QVariant::toMap()`: empty unless the variant holds a map. -/
def QVariant.toMap {K : Type} : QVariant K → QVariantMap K
  | .map m => m
  | _ => []

section Serialization

variable {K : Type} [LinearOrderedField K]

/-- The conversion `QVariant::toDouble(&ok)`, giving the value and the flag `ok`. -/
def QVariant.toDouble (env : Env K) : QVariant K → K × Bool
  | .double x => (x, true)
  | .int i => ((i : K), true)
  | .bool b => (if b then 1 else 0, true)
  | .string s =>
    match env.stringToDouble s with
    | some x => (x, true)
    | none => (0, false)
  | _ => (0, false)

/-- The conversion `QVariant::toString()`: empty for the invalid variant, lists and maps. -/
def QVariant.toString (env : Env K) : QVariant K → String
  | .string s => s
  | .double x => env.doubleToString x
  | .int i => ToString.toString i
  | .bool b => if b then "true" else "false"
  | _ => ""

/-- Modelled from the spec: `StelUtils::spheToRect(lng, lat, v)`, which is not part of the
available sources: `v = (cos lng * cos lat, sin lng * cos lat, sin lat)`. -/
def spheToRect (cos sin : K → K) (lng lat : K) : Vec3 K :=
  ⟨cos lng * cos lat, sin lng * cos lat, sin lat⟩

/-- The helper `parseRaDec(vRaDec, v)`, giving `v`. Both `toDouble(&ok)` calls write the same
flag `ok`, so the flag tested afterwards is the one written by the call evaluated last. -/
def parseRaDec (env : Env K) (vRaDec : QVariant K) : Except Fault (Vec3 K) :=
  let vl := vRaDec.toList
  if vl.length ≠ 2 then .error (.runtimeError .invalidRaDecPair)
  else
    let r0 := (vl.getD 0 .invalid).toDouble env
    let r1 := (vl.getD 1 .invalid).toDouble env
    let ok := if env.argsLeftToRight then r1.2 else r0.2
    let v := spheToRect env.cos env.sin (r0.1 * env.pi / 180) (r1.1 * env.pi / 180)
    if !ok then .error (.runtimeError .invalidRaDecPair) else .ok v

/-- The loop `foreach (const QVariant& vRaDec, list) { parseRaDec(vRaDec, v);
vertices.append(v); }` of `loadFromQVariant`. -/
def parseVertices (env : Env K) : List (QVariant K) → Except Fault (List (Vec3 K))
  | [] => .ok []
  | vRaDec :: rest => do
    let v ← parseRaDec env vRaDec
    let vs ← parseVertices env rest
    pure (v :: vs)

/-- The body of the loop of `loadFromQVariant` without texture coordinates: the contour read
from one element of the contour list. -/
def loadContour (env : Env K) (contour : QVariant K) : Except Fault (List (Vec3 K)) :=
  let contourToList := contour.toList
  if contourToList.length < 1 then .error (.runtimeError .invalidContour)
  else if (contourToList.getD 0 .invalid).toString env = "CAP" then
    if contourToList.length ≠ 3 then .error (.runtimeError .invalidCap)
    else do
      let v ← parseRaDec env (contourToList.getD 1 .invalid)
      let r := (contourToList.getD 2 .invalid).toDouble env
      let d := r.1 * env.pi / 180
      if !r.2 then .error (.runtimeError .invalidAperture)
      else pure (SphericalCap.toSphericalConvexPolygon env ⟨v, env.cos d⟩)
  else if contourToList.length < 3 then .error (.runtimeError .tooFewVertices)
  else do
    let vertices ← parseVertices env contourToList
    qAssert env (decide (vertices.length > 2))
    pure vertices

/-- The loop over the contour list of `loadFromQVariant` without texture coordinates. -/
def loadContours (env : Env K) : List (QVariant K) → Except Fault (List (List (Vec3 K)))
  | [] => .ok []
  | c :: rest => do
    let vertices ← loadContour env c
    let contours ← loadContours env rest
    pure (vertices :: contours)

/-- The loop `for (int n=0; n<polyXYToList.size(); ++n)` of `loadFromQVariant`, which sets the
texture coordinates of the vertices one by one, from the index `n` on. A pair with no vertex
left would be the out of range access `vertices[n]`; the loop is entered with the two sizes
equal, so this is not reached. -/
def setTexCoords (env : Env K) :
    List (QVariant K) → List (TextureVertex K) → Except Fault (List (TextureVertex K))
  | [], vertices => .ok vertices
  | xy :: rest, vertices =>
    let vl := xy.toList
    if vl.length ≠ 2 then .error (.runtimeError .invalidTexCoordPair)
    else
      let r0 := (vl.getD 0 .invalid).toDouble env
      let r1 := (vl.getD 1 .invalid).toDouble env
      let ok := if env.argsLeftToRight then r1.2 else r0.2
      if !ok then .error (.runtimeError .invalidTexCoordPair)
      else
        match vertices with
        | [] => .error .assertion
        | v :: vs => do
          let vs' ← setTexCoords env rest vs
          pure ({ v with texCoord := (r0.1, r1.1) } :: vs')

/-- The body of the loop of `loadFromQVariant` with texture coordinates: the contour read from
one element of the contour list and the matching element of the texture list. -/
def loadTexturedContour (env : Env K) (contour texCoords : QVariant K) :
    Except Fault (List (TextureVertex K)) :=
  let polyRaDecToList := contour.toList
  if polyRaDecToList.length < 3 then .error (.runtimeError .tooFewVertices)
  else do
    let vs ← parseVertices env polyRaDecToList
    let vertices : List (TextureVertex K) := vs.map (fun v => ⟨v, (0, 0)⟩)
    qAssert env (decide (vertices.length > 2))
    let polyXYToList := texCoords.toList
    if polyXYToList.length ≠ vertices.length then
      .error (.runtimeError .texCoordCountMismatch)
    else setTexCoords env polyXYToList vertices

/-- The loop over the contour list of `loadFromQVariant` with texture coordinates; the two
lists have the same length. -/
def loadTexturedContours (env : Env K) :
    List (QVariant K) → List (QVariant K) → Except Fault (List (List (TextureVertex K)))
  | [], _ => .ok []
  | c :: rest, texs => do
    let vertices ← loadTexturedContour env c (texs.headD .invalid)
    let contours ← loadTexturedContours env rest texs.tail
    pure (vertices :: contours)

/-- The method `SphericalTexturedPolygon::setContours(contours, windingRule)`, behind the
constructor `SphericalTexturedPolygon(contours)`. -/
def SphericalTexturedPolygon.setContours (env : Env K)
    (contours : List (List (TextureVertex K))) (windingRule : PolyWindingRule) :
    Except Fault (SphericalRegion K) := do
  let out := env.tesselateTextured windingRule contours
  let triangleVertices := out.map (fun cb => cb.1.vertex)
  let textureCoords := out.map (fun cb => cb.1.texCoord)
  let edgeFlags := out.map Prod.snd
  qAssert env (triangleVertices.length == edgeFlags.length)
  qAssert env (triangleVertices.length == textureCoords.length)
  qAssert env (triangleVertices.length == edgeFlags.length)
  if env.assertions then
    qAssert env (triangleVertices.all isNormalized)
    qAssert env ((List.range (triangleVertices.length / 3)).all
      (fun i => triangleOriented triangleVertices i))
  pure (.TexturedPolygon ⟨triangleVertices, edgeFlags⟩ textureCoords)

/-- The contour list read by `loadFromQVariant`: the value of `skyConvexPolygons`, or the
value of `worldCoords` when the former is missing or empty. -/
def contoursListOf (map : QVariantMap K) : List (QVariant K) :=
  let contoursList := (map.value "skyConvexPolygons").toList
  if contoursList.isEmpty then (map.value "worldCoords").toList else contoursList

/-- The loader `SphericalRegion::loadFromQVariant(map)`. -/
def SphericalRegion.loadFromQVariant (env : Env K) (map : QVariantMap K) :
    Except Fault (SphericalRegion K) :=
  let contoursList := contoursListOf map
  if contoursList.isEmpty then .error (.runtimeError .missingContours)
  else
    let texCoordList := (map.value "textureCoords").toList
    if !texCoordList.isEmpty && contoursList.length != texCoordList.length then
      .error (.runtimeError .contourCountMismatch)
    else if texCoordList.isEmpty then do
      let contours ← loadContours env contoursList
      let p ← SphericalPolygon.ofContours env contours
      pure (.Polygon p)
    else do
      let contours ← loadTexturedContours env contoursList texCoordList
      SphericalTexturedPolygon.setContours env contours .WindingPositive

/-- The two element list `[ra*180./M_PI, dec*180./M_PI]` written for the vector `v`. -/
def raDecToQVariant (env : Env K) (v : Vec3 K) : QVariant K :=
  let rd := env.rectToSphe v
  .list [.double (rd.1 * 180 / env.pi), .double (rd.2 * 180 / env.pi)]

/-- The method `SphericalCap::toQVariant()`. -/
def SphericalCap.toQVariant (env : Env K) (cap : SphericalCap K) : QVariantMap K :=
  let res : QVariantMap K := []
  let res := res.insert "type" (.string "CAP")
  let res := res.insert "center" (raDecToQVariant env cap.n)
  res.insert "radius" (.double (env.acos cap.d * 180 / env.pi))

/-- The method `SphericalConvexPolygon::toQVariant()`. -/
def SphericalConvexPolygon.toQVariant (env : Env K) (contour : List (Vec3 K)) :
    QVariantMap K :=
  let res : QVariantMap K := []
  let res := res.insert "type" (.string "CVXPOLYGON")
  let cv := contour.map (fun v => raDecToQVariant env v)
  res.insert "worldCoords" (.list cv)

/-! ## Scenario data and the parse failures named by the specification -/

/-- The vertex of coordinates `(ra, dec)` given in degrees, converted to radians as
`parseRaDec` does and then through `spheToRect`. -/
def raDecDegrees (cos sin : K → K) (pi ra dec : K) : Vec3 K :=
  spheToRect cos sin (ra * pi / 180) (dec * pi / 180)

/-- The square contour of the scenario: `(-5,-5), (5,-5), (5,5), (-5,5)` degrees, in this
order. -/
def squareContour (cos sin : K → K) (pi : K) : List (Vec3 K) :=
  [raDecDegrees cos sin pi (-5) (-5), raDecDegrees cos sin pi 5 (-5),
    raDecDegrees cos sin pi 5 5, raDecDegrees cos sin pi (-5) 5]

/-- The first element of the contour description `c` is the text "CAP". -/
def startsWithCap (env : Env K) (c : QVariant K) : Prop :=
  ∃ first rest, c.toList = first :: rest ∧ first.toString env = "CAP"

/-- The structural parse failures of a map, in the words of the specification: no contour
description; a non-empty `textureCoords` whose length is not the number of contours, or one
of whose lists has not the length of its contour; a contour that is not a CAP token and has
fewer than 3 entries; a CAP token that has not exactly 3 elements. -/
def StructuralParseFailure (env : Env K) (map : QVariantMap K) : Prop :=
  ((map.value "skyConvexPolygons").toList = [] ∧ (map.value "worldCoords").toList = []) ∨
  ((map.value "textureCoords").toList ≠ [] ∧
    (map.value "textureCoords").toList.length ≠ (contoursListOf map).length) ∨
  ((map.value "textureCoords").toList ≠ [] ∧
    ∃ i, i < (contoursListOf map).length ∧
      (((map.value "textureCoords").toList.getD i .invalid).toList.length
        ≠ ((contoursListOf map).getD i .invalid).toList.length)) ∨
  (∃ c, c ∈ contoursListOf map ∧ ¬ startsWithCap env c ∧ c.toList.length < 3) ∨
  (∃ c, c ∈ contoursListOf map ∧ startsWithCap env c ∧ c.toList.length ≠ 3)

end Serialization

/-- An environment over the rationals for evaluating the definitions on examples: a debug
build with left to right evaluation, the library functions tabulated at the arguments the
examples use (`M_PI` is the approximation 355/113), and a tesselator that emits nothing. -/
def sampleEnv : Env ℚ where
  assertions := true
  argsLeftToRight := true
  pi := 355 / 113
  cos := fun x => if x = 0 then 1 else 0
  sin := fun x => if x = 0 then 0 else 1
  acos := fun x => if x = 1 then 0 else 355 / 226
  sqrt := fun x => x
  rectToSphe := fun v =>
    if v = ⟨0, 1, 0⟩ then (355 / 226, 0)
    else if v = ⟨0, 0, 1⟩ then (0, 355 / 226)
    else (0, 0)
  rotate := fun _ _ v => v
  tesselate := fun _ _ => []
  tesselateTextured := fun _ _ => []
  tesselateBoundary := fun _ => []
  tesselateOct := fun _ _ => []
  stringToDouble := fun s => if s = "10" then some 10 else none
  doubleToString := fun x => if x = 0 then "0" else if x = 90 then "90" else "10"

/-! ## Further methods of the regions -/

section MoreRegions

variable {K : Type} [LinearOrderedField K]

/-- The method `SphericalRegion::getEnlarged(margin)`; `cap` is the value of the virtual
method `getBoundingCap()` of the region. -/
def SphericalRegion.getEnlarged (env : Env K) (cap : SphericalCap K) (margin : K) :
    Except Fault (SphericalRegion K) := do
  qAssert env (decide (margin ≥ 0))
  if margin ≥ env.pi then pure .AllSky
  else
    let newRadius := env.acos cap.d + margin
    if newRadius ≥ env.pi then pure .AllSky
    else pure (.Cap ⟨cap.n, env.cos newRadius⟩)

/-- Modelled from the spec: `SphericalCap::contains(const Vec3d& v)` of the header, which is
not part of the available sources: `contains(point)` is `point * n >= d`. -/
def SphericalCap.contains (cap : SphericalCap K) (v : Vec3 K) : Bool :=
  decide (cap.d ≤ v.dot cap.n)

/-- The method `SphericalCap::contains(const SphericalPolygonBase& polyBase)`: every vertex
of a convex polygon is tested; any other polygon reaches `Q_ASSERT(0)` and then
`return false`. -/
def SphericalCap.containsPolygon (env : Env K) (cap : SphericalCap K) :
    SphericalPolygonBase K → Except Fault Bool
  | .convex contour => pure (!contour.any (fun v => !cap.contains v))
  | .general _ => do
    qAssert env false
    pure false

/-- The method `SphericalTexturedPolygon::toQVariant()`: `Q_ASSERT(0)` and then
`return QVariantMap()`. -/
def SphericalTexturedPolygon.toQVariant (env : Env K) : Except Fault (QVariantMap K) := do
  qAssert env false
  pure []

/-- The vertex arrays `StelVertexArray`: the vertices and their edge flags. -/
structure StelVertexArray (K : Type) where
  vertex : List (Vec3 K)
  edgeFlags : List Bool

/-- The method `SphericalConvexPolygon::getVertexArray()`: the fan of the triangles
`(c0, c1, c2)`, then `(c0, ci, ci+1)` for `i` from 2 while `i < size-2`, then the last
triangle `(c0, c[size-2], last)`. -/
def SphericalConvexPolygon.getVertexArray (contour : List (Vec3 K)) : StelVertexArray K :=
  let ar : StelVertexArray K :=
    ⟨[vAt contour 0, vAt contour 1, vAt contour 2], [true, true, false]⟩
  let ar := (List.range (contour.length - 2 - 2)).foldl
    (fun (ar : StelVertexArray K) k =>
      ⟨ar.vertex ++ [vAt contour 0, vAt contour (k + 2), vAt contour (k + 2 + 1)],
        ar.edgeFlags ++ [false, true, false]⟩)
    ar
  ⟨ar.vertex ++ [vAt contour 0, vAt contour (contour.length - 2), vLast contour],
    ar.edgeFlags ++ [false, true, true]⟩

/-- The mesh invariant of the data model: the number of vertices is a multiple of 3 and
every triangle `(a, b, c)` has `(b x a) . c >= 0`; it is what `getContours` asserts. -/
def meshInvariant (vertex : List (Vec3 K)) : Prop :=
  vertex.length % 3 = 0 ∧ ∀ i, i < vertex.length / 3 → triangleOriented vertex i = true

/-- Modelled from the spec: the crossing of the half-line going right from `q` by the edge
from `a` to `b`, in the plane the tesselator projects the contours on, as a winding number
counts it: `1` for an edge going up that has `q` on its left, `-1` for an edge going down
that has `q` on its right, `0` otherwise. -/
def edgeWinding (a b q : K × K) : Int :=
  if a.2 ≤ q.2 ∧ q.2 < b.2 ∧ 0 < (b.1 - a.1) * (q.2 - a.2) - (q.1 - a.1) * (b.2 - a.2) then 1
  else if b.2 ≤ q.2 ∧ q.2 < a.2
      ∧ (b.1 - a.1) * (q.2 - a.2) - (q.1 - a.1) * (b.2 - a.2) < 0 then -1
  else 0

/-- Modelled from the spec: the crossings of the edges of an open path, summed. -/
def pathWinding (q : K × K) : List (K × K) → Int
  | a :: b :: rest => edgeWinding a b q + pathWinding q (b :: rest)
  | _ => 0

/-- Modelled from the spec: the winding number of one contour around `q`: the contour is
closed by the edge from its last vertex to its first, as `gluTessEndContour` does. -/
def contourWinding (proj : Vec3 K → K × K) (q : K × K) : List (Vec3 K) → Int
  | [] => 0
  | a :: rest => pathWinding q ((a :: rest).map proj ++ [proj a])

/-- Modelled from the spec: the winding number around `q` of the contours of one
`gluTessBeginPolygon`, the sum of those of the contours. -/
def windingNumber (proj : Vec3 K → K × K) (contours : List (List (Vec3 K))) (q : K × K) :
    Int :=
  (contours.map (contourWinding proj q)).sum

/-- Modelled from the spec: the fill rule `Positive` of the GLU tesselator (`glues`), which
is not part of the available sources. The tesselator projects the contours on a plane it
chooses and fills the area of positive winding number: it emits no triangle for contours
whose winding number is 0 around every point, whatever the projection. -/
def PositiveFillRule (env : Env K) : Prop :=
  ∀ contours : List (List (Vec3 K)),
    (∀ (proj : Vec3 K → K × K) (q : K × K), windingNumber proj contours q = 0) →
      env.tesselate .WindingPositive contours = []

/-! ## The combine callback of the octahedron tesselation -/

/-- The loop of `octCombineCallback` over the indices left, with the vertex built so far. A
pointer of `vertex_data` is `none` when null, else the doubles read from it: `dd j` is
`dd[j]`. -/
def octCombineLoop (vertex_data : Nat → Option (Nat → K)) (weight : Nat → K) :
    List Nat → Vec3 K → Vec3 K
  | [], newVertex => newVertex
  | i :: rest, newVertex =>
    match vertex_data i with
    | none => newVertex
    | some dd =>
      octCombineLoop vertex_data weight rest
        (newVertex.add ⟨dd i * weight i, dd i * weight i, dd i * weight i⟩)

/-- The callback `octCombineCallback(coords, vertex_data, weight, outData, userData)`, giving
the vertex stored through `outData`. -/
def octCombineCallback (vertex_data : Nat → Option (Nat → K)) (weight : Nat → K) : Vec3 K :=
  octCombineLoop vertex_data weight [0, 1, 2, 3] ⟨0, 0, 0⟩

/-- The doubles read from a pointer to the vertex `v`: its three coordinates, then whatever
follows it in memory. -/
def vertexData (v : Vec3 K) (beyond : Nat → K) : Nat → K
  | 0 => v.x
  | 1 => v.y
  | 2 => v.z
  | j + 3 => beyond j

/-- The weighted blend as the specification words it, the reference `octCombineCallback` is
compared with: the sum of the vertices, each scaled by its weight. -/
def weightedBlend : List (Vec3 K × K) → Vec3 K
  | [] => ⟨0, 0, 0⟩
  | (v, w) :: rest =>
    Vec3.add ⟨w * v.x, w * v.y, w * v.z⟩ (weightedBlend rest)

end MoreRegions

/-! ## OctahedronContour -/

/-- A vertex of a contour with its edge flag, `EdgeVertex`. -/
structure EdgeVertex (K : Type) where
  vertex : Vec3 K
  edgeFlag : Bool
deriving DecidableEq

/-- A contour `SubContour`, a `QVector<EdgeVertex>`. -/
abbrev SubContour (K : Type) := List (EdgeVertex K)

/-- The contours split on the 8 faces of the octahedron, `OctahedronContour`: `sides` is the
vector of the contours of each face, `tesselated` the flag of the cache. -/
structure OctahedronContour (K : Type) where
  sides : List (List (SubContour K))
  tesselated : Bool

section Octahedron

variable {K : Type} [LinearOrderedField K]

/-- The coordinate `v[i]` of a vector. -/
def Vec3.get (v : Vec3 K) : Nat → K
  | 0 => v.x
  | 1 => v.y
  | _ => v.z

/-- The opposite vector, the unary `Vec3d::operator-`. -/
def Vec3.neg (v : Vec3 K) : Vec3 K := ⟨-v.x, -v.y, -v.z⟩

/-- The helper `getSide(v, onLine)`: side 0 when the coordinate is positive, else side 1. Its
assertion `onLine>=0 && onLine<=3` holds for the three axes the callers pass. -/
def getSide (v : Vec3 K) (onLine : Nat) : Nat :=
  if v.get onLine > 0 then 0 else 1

/-- The function `greatCircleIntersection(p1, p2, n2, ok)`, giving its result and `ok`. -/
def greatCircleIntersection (env : Env K) (p1 p2 n2 : Vec3 K) :
    Except Fault (Vec3 K × Bool) := do
  let n1 := p1.cross p2
  qAssert env (decide (|Vec3.lengthSquared n2 - 1| < 1 / 100000000))
  let n1 := Vec3.normalize env n1
  let u := n1.cross n2
  if Vec3.length env u < 1 / 10000000 then
    pure (u, false)
  else
    let u := Vec3.normalize env u
    let n1 := Vec3.normalize env (Vec3.add p1 p2)
    if n1.dot u > 0 then pure (u, true) else pure (Vec3.neg u, true)

/-- The helper `interpolateAtCrossingPoint(v1, v2, planDirection, result)`, giving
`result`. -/
def interpolateAtCrossingPoint (env : Env K) (v1 v2 planDirection : Vec3 K) :
    Except Fault (Vec3 K) := do
  let r ← greatCircleIntersection env v1 v2 planDirection
  qAssert env r.2
  pure r.1

/-- The statement `result[quadrant] << subContour` on the two vectors `result[0]` and
`result[1]`. -/
def pushResult (result : List (SubContour K) × List (SubContour K)) (quadrant : Nat)
    (subContour : SubContour K) : List (SubContour K) × List (SubContour K) :=
  if quadrant = 0 then (result.1 ++ [subContour], result.2)
  else (result.1, result.2 ++ [subContour])

/-- The state of `splitContourByPlan` between its loops: the local variables
`unfinishedSubContour`, `currentSubContour`, `previousQuadrant`, `currentQuadrant`,
`previousVertex`, the vertices of the input from the index `i` on, and `result`. -/
structure SplitState (K : Type) where
  unfinishedSubContour : SubContour K
  currentSubContour : SubContour K
  previousQuadrant : Nat
  currentQuadrant : Nat
  previousVertex : EdgeVertex K
  rest : SubContour K
  result : List (SubContour K) × List (SubContour K)

/-- The first loop of `splitContourByPlan`, "take care first of the unfinished contour": it
stops at the first crossing, by `break`, before `previousVertex` and `i` are updated. -/
def splitFirstLoop (env : Env K) (onLine : Nat) (plan : Vec3 K) :
    List (EdgeVertex K) → SplitState K → Except Fault (SplitState K)
  | [], st => pure { st with rest := [] }
  | currentVertex :: rest, st =>
    let currentQuadrant := getSide currentVertex.vertex onLine
    if currentQuadrant = st.previousQuadrant then
      splitFirstLoop env onLine plan rest
        { st with
          unfinishedSubContour := st.unfinishedSubContour ++ [currentVertex]
          currentQuadrant := currentQuadrant
          previousVertex := currentVertex }
    else do
      let tmpVertex ←
        interpolateAtCrossingPoint env st.previousVertex.vertex currentVertex.vertex plan
      qAssert env st.currentSubContour.isEmpty
      pure { st with
        unfinishedSubContour := st.unfinishedSubContour ++ [⟨tmpVertex, false⟩]
        currentSubContour := st.currentSubContour ++ [⟨tmpVertex, st.previousVertex.edgeFlag⟩]
        previousQuadrant := currentQuadrant
        currentQuadrant := currentQuadrant
        rest := currentVertex :: rest }

/-- The second loop of `splitContourByPlan`, "now handle the other ones"; it leaves
`previousQuadrant` as it is. -/
def splitSecondLoop (env : Env K) (onLine : Nat) (plan : Vec3 K) :
    List (EdgeVertex K) → SplitState K → Except Fault (SplitState K)
  | [], st => pure { st with rest := [] }
  | currentVertex :: rest, st =>
    let currentQuadrant := getSide currentVertex.vertex onLine
    if currentQuadrant = st.previousQuadrant then
      splitSecondLoop env onLine plan rest
        { st with
          currentSubContour := st.currentSubContour ++ [currentVertex]
          currentQuadrant := currentQuadrant
          previousVertex := currentVertex }
    else do
      let tmpVertex ←
        interpolateAtCrossingPoint env st.previousVertex.vertex currentVertex.vertex plan
      splitSecondLoop env onLine plan rest
        { st with
          currentSubContour := [⟨tmpVertex, st.previousVertex.edgeFlag⟩, currentVertex]
          currentQuadrant := currentQuadrant
          previousVertex := currentVertex
          result := pushResult st.result st.previousQuadrant
            (st.currentSubContour ++ [⟨tmpVertex, false⟩]) }

/-- The method `OctahedronContour::splitContourByPlan(onLine, inputContour, result)`, giving
the new value of `result`. The contour is not empty: `inputContour.first()` is read. -/
def splitContourByPlan (env : Env K) (onLine : Nat) (inputContour : SubContour K)
    (result : List (SubContour K) × List (SubContour K)) :
    Except Fault (List (SubContour K) × List (SubContour K)) :=
  match inputContour with
  | [] => .error .assertion
  | first :: _ => do
    let plan : Vec3 K :=
      ⟨if onLine = 0 then 1 else 0, if onLine = 1 then 1 else 0, if onLine = 2 then 1 else 0⟩
    let st : SplitState K :=
      { unfinishedSubContour := []
        currentSubContour := []
        previousQuadrant := getSide first.vertex onLine
        currentQuadrant := 0
        previousVertex := first
        rest := inputContour
        result := result }
    let st ← splitFirstLoop env onLine plan inputContour st
    let st ← splitSecondLoop env onLine plan st.rest st
    -- the last line between the last and first point
    let previousQuadrant := st.currentQuadrant
    let currentQuadrant := getSide first.vertex onLine
    if currentQuadrant = previousQuadrant then
      pure (pushResult st.result currentQuadrant
        (st.currentSubContour ++ st.unfinishedSubContour))
    else do
      let tmpVertex ←
        interpolateAtCrossingPoint env st.previousVertex.vertex first.vertex plan
      let result := pushResult st.result previousQuadrant
        (st.currentSubContour ++ [⟨tmpVertex, false⟩])
      pure (pushResult result currentQuadrant
        ([⟨tmpVertex, st.previousVertex.edgeFlag⟩] ++ st.unfinishedSubContour))

/-- The method `SubContour::reversed()`. -/
def SubContour.reversed (c : SubContour K) : SubContour K := c.reverse

/-- The method `OctahedronContour::append(other)`. -/
def OctahedronContour.append (env : Env K) (self other : OctahedronContour K) :
    Except Fault (OctahedronContour K) := do
  qAssert env (self.sides.length == 8 && other.sides.length == 8)
  let sides := (List.range 8).foldl
    (fun (sides : List (List (SubContour K))) i =>
      sides.set i (sides.getD i [] ++ other.sides.getD i []))
    self.sides
  pure ⟨sides, false⟩

/-- The method `OctahedronContour::appendReversed(other)`. -/
def OctahedronContour.appendReversed (env : Env K) (self other : OctahedronContour K) :
    Except Fault (OctahedronContour K) := do
  qAssert env (self.sides.length == 8 && other.sides.length == 8)
  let sides := (List.range 8).foldl
    (fun (sides : List (List (SubContour K))) i =>
      (other.sides.getD i []).foldl
        (fun (sides : List (List (SubContour K))) sub =>
          sides.set i (sides.getD i [] ++ [SubContour.reversed sub]))
        sides)
    self.sides
  pure ⟨sides, false⟩

/-- The function `tesselateOneSide(tess, contours)`: the vertices of the contours go to the
tesselator, each vertex callback appends a vertex with the current edge flag. -/
def tesselateOneSide (env : Env K) (windingRule : TessWindingRule)
    (contours : List (SubContour K)) : SubContour K :=
  (env.tesselateOct windingRule (contours.map (fun c => c.map (fun v => v.vertex)))).map
    (fun cb => ⟨cb.1, cb.2⟩)

/-- The method `OctahedronContour::tesselate(windingRule)`, giving the new state of the
contour (the method is `const`, `sides` and `tesselated` are written all the same). -/
def OctahedronContour.tesselate (env : Env K) (self : OctahedronContour K)
    (windingRule : TessWindingRule) : OctahedronContour K :=
  let sides := (List.range 8).foldl
    (fun (sides : List (List (SubContour K))) i =>
      sides.set i [tesselateOneSide env windingRule (sides.getD i [])])
    self.sides
  ⟨sides, true⟩

/-- The method `OctahedronContour::inPlaceIntersection(mpoly)`, giving the new states of the
receiver and of `mpoly`. -/
def OctahedronContour.inPlaceIntersection (env : Env K) (self mpoly : OctahedronContour K) :
    Except Fault (OctahedronContour K × OctahedronContour K) := do
  let self := if !self.tesselated then self.tesselate env .WindingPositive else self
  let mpoly := if !mpoly.tesselated then mpoly.tesselate env .WindingPositive else mpoly
  let self ← self.append env mpoly
  pure (self.tesselate env .WindingAbsGeqTwo, mpoly)

/-- The method `OctahedronContour::inPlaceUnion(mpoly)`. -/
def OctahedronContour.inPlaceUnion (env : Env K) (self mpoly : OctahedronContour K) :
    Except Fault (OctahedronContour K) :=
  self.append env mpoly

/-- The method `OctahedronContour::inPlaceSubtraction(mpoly)`, giving the new states of the
receiver and of `mpoly`. -/
def OctahedronContour.inPlaceSubtraction (env : Env K) (self mpoly : OctahedronContour K) :
    Except Fault (OctahedronContour K × OctahedronContour K) := do
  let self := if !self.tesselated then self.tesselate env .WindingPositive else self
  let mpoly := if !mpoly.tesselated then mpoly.tesselate env .WindingPositive else mpoly
  let self ← self.appendReversed env mpoly
  pure (self.tesselate env .WindingPositive, mpoly)

/-- The operations on an `OctahedronContour` that write its cache flag. -/
inductive OctOp (K : Type)
  | append (other : OctahedronContour K)
  | appendReversed (other : OctahedronContour K)
  | tesselate (windingRule : TessWindingRule)
  | inPlaceIntersection (mpoly : OctahedronContour K)
  | inPlaceUnion (mpoly : OctahedronContour K)
  | inPlaceSubtraction (mpoly : OctahedronContour K)

/-- One operation on the receiver `self`, giving its new state. -/
def OctahedronContour.step (env : Env K) (self : OctahedronContour K) :
    OctOp K → Except Fault (OctahedronContour K)
  | .append other => self.append env other
  | .appendReversed other => self.appendReversed env other
  | .tesselate windingRule => pure (self.tesselate env windingRule)
  | .inPlaceIntersection mpoly => do
    let r ← self.inPlaceIntersection env mpoly
    pure r.1
  | .inPlaceUnion mpoly => self.inPlaceUnion env mpoly
  | .inPlaceSubtraction mpoly => do
    let r ← self.inPlaceSubtraction env mpoly
    pure r.1

/-- A sequence of operations on the receiver `self`, from left to right. -/
def OctahedronContour.run (env : Env K) (self : OctahedronContour K) :
    List (OctOp K) → Except Fault (OctahedronContour K)
  | [] => pure self
  | op :: ops => do
    let self ← self.step env op
    OctahedronContour.run env self ops

/-- The operand of the operation, if it has one, has 8 faces. -/
def OctOp.operandHasEightSides : OctOp K → Prop
  | .append other => other.sides.length = 8
  | .appendReversed other => other.sides.length = 8
  | .tesselate _ => True
  | .inPlaceIntersection mpoly => mpoly.sides.length = 8
  | .inPlaceUnion mpoly => mpoly.sides.length = 8
  | .inPlaceSubtraction mpoly => mpoly.sides.length = 8

/-- The operation ends with a tesselation: `tesselate`, or one of the two operations that
tesselate their result. -/
def OctOp.tesselates : OctOp K → Bool
  | .tesselate _ => true
  | .inPlaceIntersection _ => true
  | .inPlaceSubtraction _ => true
  | _ => false

end Octahedron

/-! ## The intersection of the planes of two caps -/

section PlaneIntersection

variable {K : Type} [LinearOrderedField K]

/-- The product `Vec3d::operator*(double)` of a vector by a scalar. -/
def Vec3.scale (v : Vec3 K) (t : K) : Vec3 K := ⟨v.x * t, v.y * t, v.z * t⟩

/-- The `switch (maxI)` of `planeIntersect2`: the start point `p0` of the line, on the plane
where the coordinate `maxI` is 0, and the `denom` of the case taken. -/
def planeIntersectStart (maxI : Nat) (a1 b1 c1 d1 a2 b2 c2 d2 : K) : Vec3 K × K :=
  match maxI with
  | 0 =>
    let denom := b1 * c2 - b2 * c1
    (⟨0, (d2 * c1 - d1 * c2) / denom, (d1 * b2 - d2 * b1) / denom⟩, denom)
  | 1 =>
    let denom := a1 * c2 - a2 * c1
    (⟨(c1 * d2 - c2 * d1) / denom, 0, (a2 * d1 - d2 * a1) / denom⟩, denom)
  | _ =>
    let denom := a1 * b2 - a2 * b1
    (⟨(b1 * d2 - b2 * d1) / denom, (a2 * d1 - a1 * d2) / denom, 0⟩, denom)

/-- The function `planeIntersect2(h1, h2, p1, p2)`. The first component is `none` when the
function returns `false` (`p1` and `p2` are then left as they were) and the pair `(p1, p2)`
when it returns `true`; the second component lists the denominators of the divisions the run
has executed, in order: the norm in `u.normalize()`, `denom` for the two coordinates of `p0`,
and the constant 2 of `t1` and `t2`. -/
def planeIntersect2 (env : Env K) (h1 h2 : SphericalCap K) :
    Except Fault (Option (Vec3 K × Vec3 K) × List K) := do
  if !SphericalCap.intersects env h1 h2 then pure (none, [])
  else
    let n1 := h1.n
    let n2 := h2.n
    let d1 := -h1.d
    let d2 := -h2.d
    let a1 := n1.get 0
    let b1 := n1.get 1
    let c1 := n1.get 2
    let a2 := n2.get 0
    let b2 := n2.get 1
    let c2 := n2.get 2
    qAssert env (decide (|Vec3.lengthSquared n1 - 1| < 1 / 1000000))
    qAssert env (decide (|Vec3.lengthSquared n2 - 1| < 1 / 1000000))
    -- the parametric equation of the line at the intersection of the 2 planes
    let u := n1.cross n2
    if u.get 0 = 0 ∧ u.get 1 = 0 ∧ u.get 2 = 0 then
      -- the planes are parallel
      pure (none, [])
    else
      let norm := Vec3.length env u
      let u := Vec3.normalize env u
      let maxI : Nat :=
        if |u.get 0| ≥ |u.get 1| then (if |u.get 0| ≥ |u.get 2| then 0 else 2)
        else (if |u.get 2| > |u.get 1| then 2 else 1)
      let start := planeIntersectStart maxI a1 b1 c1 d1 a2 b2 c2 d2
      let p0 := start.1
      let denom := start.2
      let b := p0.dot u * 2
      let c := Vec3.lengthSquared p0 - 1
      let D := b * b - 4 * c
      if D ≤ 0 then pure (none, [norm, denom, denom])
      else
        let sqrtD := env.sqrt D
        let t1 := (-b + sqrtD) / 2
        let t2 := (-b - sqrtD) / 2
        let p1 := Vec3.add p0 (u.scale t1)
        let p2 := Vec3.add p0 (u.scale t2)
        qAssert env (decide (|Vec3.lengthSquared p1 - 1| < 1 / 1000000))
        qAssert env (decide (|Vec3.lengthSquared p2 - 1| < 1 / 1000000))
        pure (some (p1, p2), [norm, denom, denom, 2, 2])

end PlaneIntersection

/-! ## The constructor of `SubContour` -/

section SubContourConstructor

variable {K : Type}

/-- The assignment expression `var = value` of C++: `var` takes `value`, and `value` is what
the expression is worth. -/
def assignExpr {α : Type} (_var value : α) : α := value

/-- The statement `this->last().edgeFlag=false`. -/
def SubContour.clearLastEdgeFlag (c : SubContour K) : SubContour K :=
  match c.getLast? with
  | none => c
  | some e => c.dropLast ++ [⟨e.vertex, false⟩]

/-- The constructor `SubContour::SubContour(vertices, closed)`: a vector of
`vertices.size()` copies of `EdgeVertex(true)`, whose vertices are then copied from
`vertices`; the condition of its `if` is the assignment `closed=false`. -/
def SubContour.ofVertices (vertices : List (Vec3 K)) (closed : Bool) : SubContour K :=
  let self : SubContour K := vertices.map (fun v => ⟨v, true⟩)
  if assignExpr closed false then SubContour.clearLastEdgeFlag self else self

/-- The two vertices that `splitContourByPlan` inserts at a crossing point: the one that
closes a sub-contour, with the edge flag `false`, and the one that opens the next one, with
the edge flag of the previous vertex. -/
def crossingPair (c : Vec3 K × Bool) : List (EdgeVertex K) := [⟨c.1, false⟩, ⟨c.1, c.2⟩]

end SubContourConstructor

/-! ## Sample environments -/

section Samples

variable {K : Type} [LinearOrderedField K]

/-- A rotation for the examples: the matrix of the rotation of angle `angle` about the
direction of `axis` (Rodrigues' formula), applied to `v`. -/
def rodrigues (cos sin sqrt : K → K) (axis : Vec3 K) (angle : K) (v : Vec3 K) : Vec3 K :=
  let len := sqrt (Vec3.lengthSquared axis)
  let ax := axis.x / len
  let ay := axis.y / len
  let az := axis.z / len
  let c := cos angle
  let s := sin angle
  let d := 1 - c
  ⟨(ax * ax * d + c) * v.x + (ax * ay * d - az * s) * v.y + (ax * az * d + ay * s) * v.z,
    (ay * ax * d + az * s) * v.x + (ay * ay * d + c) * v.y + (ay * az * d - ax * s) * v.z,
    (az * ax * d - ay * s) * v.x + (az * ay * d + ax * s) * v.y + (az * az * d + c) * v.z⟩

/-- An environment on a given math library, for the examples over the reals: a debug build,
the rotation `rodrigues`, and trivial stand-ins for what the examples do not use (the
tesselator, `rectToSphe`, the text conversions). -/
def mathEnv (pi : K) (cos sin acos sqrt : K → K) : Env K where
  assertions := true
  argsLeftToRight := true
  pi := pi
  cos := cos
  sin := sin
  acos := acos
  sqrt := sqrt
  rectToSphe := fun _ => (0, 0)
  rotate := rodrigues cos sin sqrt
  tesselate := fun _ _ => []
  tesselateTextured := fun _ _ => []
  tesselateBoundary := fun _ => []
  tesselateOct := fun _ _ => []
  stringToDouble := fun _ => none
  doubleToString := fun _ => ""

/-- A tesselator for the examples that obeys the rule `Positive` at one point: it emits the
vertices of the contours when their winding number around `(0, 2/5)`, in the plane of the
coordinates `(y, x)`, is positive, and nothing otherwise. -/
def windingTesselate (_rule : PolyWindingRule) (contours : List (List (Vec3 ℚ))) :
    List (Vec3 ℚ × Bool) :=
  if 0 < windingNumber (fun v => (v.y, v.x)) contours (0, 2 / 5) then
    contours.flatten.map (fun v => (v, true))
  else []

/-- The sample environment with the tesselator `windingTesselate`. -/
def windingEnv : Env ℚ := { sampleEnv with tesselate := windingTesselate }

end Samples

/-! ## Double precision arithmetic

The definitions above idealise the type `double` as an exact ordered field. The ones below
follow IEEE 754 binary64: every operation is the exact operation followed by one rounding to
nearest (ties to even), with signed zeros, gradual underflow, infinities and NaN. No fused
multiply-add and no extended precision are assumed: each `*`, `+`, `-`, `/` of the source
rounds to a double. -/

/-- The number of bits of `n` with the recursion bounded by `fuel`: 0 for 0. -/
def bitLengthLoop : Nat → Nat → Nat
  | 0, _ => 0
  | fuel + 1, n => if n = 0 then 0 else bitLengthLoop fuel (n / 2) + 1

/-- The number of bits of `n` (0 for 0), for the numbers below `2 ^ 8192`. -/
def bitLength (n : Nat) : Nat := bitLengthLoop 8192 n

/-- A value of the C++ type `double`, in the IEEE 754 format binary64: the finite number
`(-1)^neg * mant * 2^exp`, an infinity, or a NaN. -/
inductive Double
  | finite (neg : Bool) (mant : Nat) (exp : Int)
  | inf (neg : Bool)
  | nan
deriving DecidableEq

/-- The double nearest to the exact value `(-1)^neg * m * 2^e`, ties going to the even
mantissa: 53 bits are kept, the exponent of the last bit is not below `-1074` (gradual
underflow), and a result of `2^1024` or more is an infinity. -/
def Double.round (neg : Bool) (m : Nat) (e : Int) : Double :=
  if m = 0 then .finite neg 0 0
  else
    let et : Int := max (e + (bitLength m : Int) - 53) (-1074)
    if et ≤ e then
      if et + 53 > 1024 then .inf neg else .finite neg (m * 2 ^ (e - et).toNat) et
    else
      let s := (et - e).toNat
      let q := m / 2 ^ s
      let r := m % 2 ^ s
      let half := 2 ^ (s - 1)
      let q := if r > half ∨ (r = half ∧ q % 2 = 1) then q + 1 else q
      if q = 0 then .finite neg 0 0
      else if q = 2 ^ 53 then (if et + 1 + 53 > 1024 then .inf neg else .finite neg (2 ^ 52) (et + 1))
      else if et + (bitLength q : Int) > 1024 then .inf neg
      else .finite neg q et

/-- The double of a natural number. -/
def Double.ofNat (n : Nat) : Double := Double.round false n 0

/-- The unary minus. -/
def Double.neg : Double → Double
  | .finite s m e => .finite (!s) m e
  | .inf s => .inf (!s)
  | .nan => .nan

/-- The function `fabs`. -/
def Double.fabs : Double → Double
  | .finite _ m e => .finite false m e
  | .inf _ => .inf false
  | .nan => .nan

/-- The product, rounded. -/
def Double.mul : Double → Double → Double
  | .nan, _ => .nan
  | _, .nan => .nan
  | .inf s, .inf t => .inf (xor s t)
  | .inf s, .finite t n _ => if n = 0 then .nan else .inf (xor s t)
  | .finite s m _, .inf t => if m = 0 then .nan else .inf (xor s t)
  | .finite s m e, .finite t n f => Double.round (xor s t) (m * n) (e + f)

/-- The integer `(-1)^neg * m * 2^k`. -/
def signedInt (neg : Bool) (m k : Nat) : Int :=
  if neg then -((m * 2 ^ k : Nat) : Int) else ((m * 2 ^ k : Nat) : Int)

/-- The sum, rounded. An exact sum that is zero is `+0`, unless both terms are `-0`. -/
def Double.add : Double → Double → Double
  | .nan, _ => .nan
  | _, .nan => .nan
  | .inf s, .inf t => if s = t then .inf s else .nan
  | .inf s, .finite _ _ _ => .inf s
  | .finite _ _ _, .inf t => .inf t
  | .finite s m e, .finite t n f =>
    let x := min e f
    let c := signedInt s m (e - x).toNat + signedInt t n (f - x).toNat
    if c = 0 then .finite (s && t) 0 0
    else Double.round (decide (c < 0)) c.natAbs x

/-- The difference, rounded. -/
def Double.sub (a b : Double) : Double := Double.add a (Double.neg b)

/-- The quotient, rounded: `0/0`, `inf/inf` are NaN, a non-null number over 0 is an
infinity. The quotient is computed with 55 bits or more and a last bit telling whether the
division has a remainder. -/
def Double.div : Double → Double → Double
  | .nan, _ => .nan
  | _, .nan => .nan
  | .inf _, .inf _ => .nan
  | .inf s, .finite t _ _ => .inf (xor s t)
  | .finite s _ _, .inf t => .finite (xor s t) 0 0
  | .finite s m e, .finite t n f =>
    if n = 0 then (if m = 0 then .nan else .inf (xor s t))
    else
      let k := bitLength n + 55
      let q := m * 2 ^ k / n
      let sticky := if m * 2 ^ k % n = 0 then 0 else 1
      Double.round (xor s t) (2 * q + sticky) (e - f - (k : Int) - 1)

/-- The loop of the integer square root: the bits of the root from the bit `i - 1` down. -/
def isqrtLoop (n : Nat) : Nat → Nat → Nat
  | 0, r => r
  | i + 1, r =>
    if (r + 2 ^ i) * (r + 2 ^ i) ≤ n then isqrtLoop n i (r + 2 ^ i) else isqrtLoop n i r

/-- The integer square root: the largest `r` with `r * r <= n`. -/
def isqrt (n : Nat) : Nat := isqrtLoop n (bitLength n / 2 + 1) 0

/-- The function `sqrt`, correctly rounded: NaN for a negative number, `sqrt(-0) = -0`. The
root is computed with 64 bits or more and a last bit telling whether it is exact. -/
def Double.sqrt : Double → Double
  | .nan => .nan
  | .inf s => if s then .nan else .inf false
  | .finite s m e =>
    if m = 0 then .finite s 0 0
    else if s then .nan
    else
      let t : Nat := if e % 2 = 0 then 128 else 129
      let r := isqrt (m * 2 ^ t)
      let sticky := if r * r = m * 2 ^ t then 0 else 1
      Double.round false (2 * r + sticky) ((e - (t : Int)) / 2 - 1)

/-- The comparison `a < b`: false when an operand is a NaN. -/
def Double.lt : Double → Double → Bool
  | .nan, _ => false
  | _, .nan => false
  | .inf s, .inf t => s && !t
  | .inf s, .finite _ _ _ => s
  | .finite _ _ _, .inf t => !t
  | .finite s m e, .finite t n f =>
    decide (signedInt s m (e - min e f).toNat < signedInt t n (f - min e f).toNat)

/-- The comparison `a <= b`: false when an operand is a NaN. -/
def Double.le : Double → Double → Bool
  | .nan, _ => false
  | _, .nan => false
  | .inf s, .inf t => s || !t
  | .inf s, .finite _ _ _ => s
  | .finite _ _ _, .inf t => !t
  | .finite s m e, .finite t n f =>
    decide (signedInt s m (e - min e f).toNat ≤ signedInt t n (f - min e f).toNat)

/-- The comparison `a == b`: false when an operand is a NaN, true for `+0` and `-0`. -/
def Double.eq (a b : Double) : Bool := Double.le a b && Double.le b a

/-- The test `isnan`. -/
def Double.isNaN : Double → Bool
  | .nan => true
  | _ => false

/-- The double `+0`. -/
def Double.zero : Double := .finite false 0 0

/-- The decimal constant `p/q` of the source, for natural numbers `p` and `q` that are
doubles: the double nearest to it, which the correctly rounded division also gives. -/
def Double.lit (p q : Nat) : Double := Double.div (Double.ofNat p) (Double.ofNat q)

/-- The vectors `Vec3d` of doubles. -/
abbrev Vec3d := Vec3 Double

namespace Ieee

/-- Cross product, `Vec3d::operator^`, each operation rounded. -/
def cross (a b : Vec3d) : Vec3d :=
  ⟨Double.sub (Double.mul a.y b.z) (Double.mul a.z b.y),
    Double.sub (Double.mul a.z b.x) (Double.mul a.x b.z),
    Double.sub (Double.mul a.x b.y) (Double.mul a.y b.x)⟩

/-- Dot product, `Vec3d::operator*`, summed from left to right, each operation rounded. -/
def dot (a b : Vec3d) : Double :=
  Double.add (Double.add (Double.mul a.x b.x) (Double.mul a.y b.y)) (Double.mul a.z b.z)

/-- Element access `QVector::at(i)` / `operator[]`; an out of range read gives the null
vector. -/
def vAt (v : List Vec3d) (i : Nat) : Vec3d := v.getD i ⟨Double.zero, Double.zero, Double.zero⟩

/-- The accessor `QVector::first()`. -/
def vFirst (v : List Vec3d) : Vec3d := vAt v 0

/-- The accessor `QVector::last()`. -/
def vLast (v : List Vec3d) : Vec3d := vAt v (v.length - 1)

/-- Modelled from the spec: the inline helper `sideHalfSpaceContains(v1, v2, p)` of the header
`StelSphereGeometry.hpp`, which is not part of the available sources: `(v1 ^ v2) * p >= 0`,
computed in doubles. -/
def sideHalfSpaceContains (v1 v2 p : Vec3d) : Bool :=
  Double.le Double.zero (dot (cross v1 v2) p)

/-- The validity test `SphericalConvexPolygon::checkValidContour(contour)`, in doubles. -/
def SphericalConvexPolygon.checkValidContour (contour : List Vec3d) : Bool :=
  if contour.length < 3 then false
  else
    let res := (List.range (contour.length - 1)).foldl
      (fun res i =>
        andLoop (contour.length - 2)
          (fun p => sideHalfSpaceContains (vAt contour (i + 1)) (vAt contour i)
            (vAt contour ((p + i + 2) % contour.length))) res)
      true
    andLoop (contour.length - 2)
      (fun p => sideHalfSpaceContains (vFirst contour) (vLast contour)
        (vAt contour ((p + contour.length + 1) % contour.length))) res

/-- The point test `SphericalConvexPolygon::contains(const Vec3d& p)`, in doubles. -/
def SphericalConvexPolygon.contains (contour : List Vec3d) (p : Vec3d) : Bool :=
  if (List.range (contour.length - 1)).any
      (fun i => !sideHalfSpaceContains (vAt contour (i + 1)) (vAt contour i) p) then false
  else sideHalfSpaceContains (vFirst contour) (vLast contour) p

/-- The method `SphericalConvexPolygon::getVertexArray()` on a contour of doubles: the fan of
the triangles `(c0, c1, c2)`, then `(c0, ci, ci+1)` for `i` from 2 while `i < size-2`, then
the last triangle `(c0, c[size-2], last)`. -/
def SphericalConvexPolygon.getVertexArray (contour : List Vec3d) : StelVertexArray Double :=
  let ar : StelVertexArray Double :=
    ⟨[vAt contour 0, vAt contour 1, vAt contour 2], [true, true, false]⟩
  let ar := (List.range (contour.length - 2 - 2)).foldl
    (fun (ar : StelVertexArray Double) k =>
      ⟨ar.vertex ++ [vAt contour 0, vAt contour (k + 2), vAt contour (k + 2 + 1)],
        ar.edgeFlags ++ [false, true, false]⟩)
    ar
  ⟨ar.vertex ++ [vAt contour 0, vAt contour (contour.length - 2), vLast contour],
    ar.edgeFlags ++ [false, true, true]⟩

/-- The orientation test of the triangle `i` of a vertex array, as `getContours` asserts it:
`(v[i*3+1] ^ v[i*3]) * v[i*3+2] >= 0`, in doubles. -/
def triangleOriented (v : List Vec3d) (i : Nat) : Bool :=
  Double.le Double.zero (dot (cross (vAt v (i * 3 + 1)) (vAt v (i * 3))) (vAt v (i * 3 + 2)))

/-- The squared norm `Vec3d::lengthSquared()`, in doubles. -/
def lengthSquared (v : Vec3d) : Double :=
  Double.add (Double.add (Double.mul v.x v.x) (Double.mul v.y v.y)) (Double.mul v.z v.z)

/-- The norm `Vec3d::length()`, in doubles. -/
def length (v : Vec3d) : Double := Double.sqrt (lengthSquared v)

/-- The sum `Vec3d::operator+`. -/
def add (a b : Vec3d) : Vec3d := ⟨Double.add a.x b.x, Double.add a.y b.y, Double.add a.z b.z⟩

/-- The opposite vector, the unary `Vec3d::operator-`. -/
def neg (v : Vec3d) : Vec3d := ⟨Double.neg v.x, Double.neg v.y, Double.neg v.z⟩

/-- The product `Vec3d::operator*(double)` of a vector by a scalar. -/
def scale (v : Vec3d) (t : Double) : Vec3d := ⟨Double.mul v.x t, Double.mul v.y t, Double.mul v.z t⟩

/-- The coordinate `v[i]` of a vector. -/
def get (v : Vec3d) : Nat → Double
  | 0 => v.x
  | 1 => v.y
  | _ => v.z

/-- Modelled from the spec: `Vec3d::normalize()` of `VecMath.hpp`, which is not part of the
available sources, as the division of each coordinate by the norm. -/
def normalize (v : Vec3d) : Vec3d :=
  ⟨Double.div v.x (length v), Double.div v.y (length v), Double.div v.z (length v)⟩

/-- Modelled from the spec: `Vec3d::normalize()` of `VecMath.hpp` in its other usual form,
the product of each coordinate by the inverse `1 / norm`. -/
def normalizeByInverse (v : Vec3d) : Vec3d :=
  scale v (Double.div (Double.ofNat 1) (length v))

/-- The function `greatCircleIntersection(p1, p2, n2, ok)` in doubles, giving its result and
`ok`; `normalize` is the method `Vec3d::normalize()`. -/
def greatCircleIntersection (normalize : Vec3d → Vec3d) (env : Env Double)
    (p1 p2 n2 : Vec3d) : Except Fault (Vec3d × Bool) := do
  let n1 := cross p1 p2
  qAssert env
    (Double.lt (Double.fabs (Double.sub (lengthSquared n2) (Double.ofNat 1)))
      (Double.lit 1 100000000))
  let n1 := normalize n1
  let u := cross n1 n2
  if Double.lt (length u) (Double.lit 1 10000000) then
    pure (u, false)
  else
    let u := normalize u
    let n1 := normalize (add p1 p2)
    if Double.lt Double.zero (dot n1 u) then pure (u, true) else pure (neg u, true)

/-- The helper `interpolateAtCrossingPoint(v1, v2, planDirection, result)` in doubles, giving
`result`. -/
def interpolateAtCrossingPoint (normalize : Vec3d → Vec3d) (env : Env Double)
    (v1 v2 planDirection : Vec3d) : Except Fault Vec3d := do
  let r ← greatCircleIntersection normalize env v1 v2 planDirection
  qAssert env r.2
  pure r.1

/-- Modelled from the spec: `SphericalCap::intersects(cap)` of the header, which is not part of
the available sources, in doubles: true iff the angular distance between the centers is at
most the sum of the angular radii. -/
def capIntersects (env : Env Double) (c h : SphericalCap Double) : Bool :=
  Double.le (env.acos (dot c.n h.n)) (Double.add (env.acos c.d) (env.acos h.d))

/-- The `switch (maxI)` of `planeIntersect2` in doubles: the start point `p0` of the line and
the `denom` of the case taken. -/
def planeIntersectStart (maxI : Nat) (a1 b1 c1 d1 a2 b2 c2 d2 : Double) : Vec3d × Double :=
  match maxI with
  | 0 =>
    let denom := Double.sub (Double.mul b1 c2) (Double.mul b2 c1)
    (⟨Double.zero, Double.div (Double.sub (Double.mul d2 c1) (Double.mul d1 c2)) denom,
      Double.div (Double.sub (Double.mul d1 b2) (Double.mul d2 b1)) denom⟩, denom)
  | 1 =>
    let denom := Double.sub (Double.mul a1 c2) (Double.mul a2 c1)
    (⟨Double.div (Double.sub (Double.mul c1 d2) (Double.mul c2 d1)) denom, Double.zero,
      Double.div (Double.sub (Double.mul a2 d1) (Double.mul d2 a1)) denom⟩, denom)
  | _ =>
    let denom := Double.sub (Double.mul a1 b2) (Double.mul a2 b1)
    (⟨Double.div (Double.sub (Double.mul b1 d2) (Double.mul b2 d1)) denom,
      Double.div (Double.sub (Double.mul a2 d1) (Double.mul a1 d2)) denom, Double.zero⟩, denom)

/-- The function `planeIntersect2(h1, h2, p1, p2)` in doubles; `normalize` is the method
`Vec3d::normalize()`. The first component is `none` when the function returns `false` and
the pair `(p1, p2)` when it returns `true`; the second component lists the denominators of
the divisions the run has executed, in order: the norm in `u.normalize()`, `denom` for the
two coordinates of `p0`, and the constant 2 of `t1` and `t2`. -/
def planeIntersect2 (normalize : Vec3d → Vec3d) (env : Env Double)
    (h1 h2 : SphericalCap Double) : Except Fault (Option (Vec3d × Vec3d) × List Double) := do
  if !capIntersects env h1 h2 then pure (none, [])
  else
    let n1 := h1.n
    let n2 := h2.n
    let d1 := Double.neg h1.d
    let d2 := Double.neg h2.d
    let a1 := get n1 0
    let b1 := get n1 1
    let c1 := get n1 2
    let a2 := get n2 0
    let b2 := get n2 1
    let c2 := get n2 2
    qAssert env
      (Double.lt (Double.fabs (Double.sub (lengthSquared n1) (Double.ofNat 1)))
        (Double.lit 1 1000000))
    qAssert env
      (Double.lt (Double.fabs (Double.sub (lengthSquared n2) (Double.ofNat 1)))
        (Double.lit 1 1000000))
    let u := cross n1 n2
    if Double.eq (get u 0) Double.zero && Double.eq (get u 1) Double.zero
        && Double.eq (get u 2) Double.zero then
      -- the planes are parallel
      pure (none, [])
    else
      let norm := length u
      let u := normalize u
      let maxI : Nat :=
        if Double.le (Double.fabs (get u 1)) (Double.fabs (get u 0)) then
          (if Double.le (Double.fabs (get u 2)) (Double.fabs (get u 0)) then 0 else 2)
        else (if Double.lt (Double.fabs (get u 1)) (Double.fabs (get u 2)) then 2 else 1)
      let start := planeIntersectStart maxI a1 b1 c1 d1 a2 b2 c2 d2
      let p0 := start.1
      let denom := start.2
      let b := Double.mul (dot p0 u) (Double.ofNat 2)
      let c := Double.sub (lengthSquared p0) (Double.ofNat 1)
      let D := Double.sub (Double.mul b b) (Double.mul (Double.ofNat 4) c)
      if Double.le D Double.zero then pure (none, [norm, denom, denom])
      else
        let sqrtD := Double.sqrt D
        let t1 := Double.div (Double.add (Double.neg b) sqrtD) (Double.ofNat 2)
        let t2 := Double.div (Double.sub (Double.neg b) sqrtD) (Double.ofNat 2)
        let p1 := add p0 (scale u t1)
        let p2 := add p0 (scale u t2)
        qAssert env
          (Double.lt (Double.fabs (Double.sub (lengthSquared p1) (Double.ofNat 1)))
            (Double.lit 1 1000000))
        qAssert env
          (Double.lt (Double.fabs (Double.sub (lengthSquared p2) (Double.ofNat 1)))
            (Double.lit 1 1000000))
        pure (some (p1, p2), [norm, denom, denom, Double.ofNat 2, Double.ofNat 2])

end Ieee

/-! ## Sample data in double precision -/

/-- The contour of the three directions `(ra, dec) = (12, 48), (42, 37), (-52, -28)` degrees:
unit vectors up to rounding, given by their coordinates as doubles. -/
def Ieee.sampleTriangle : List Vec3d :=
  [⟨.finite false 5895288448088660 (-53), .finite false 5012328970314905 (-55),
      .finite false 6693653518204609 (-53)⟩,
    ⟨.finite false 5345789391591195 (-53), .finite false 4813370388153201 (-53),
      .finite false 5420667828027062 (-53)⟩,
    ⟨.finite false 4896284850859580 (-53), .finite true 6266958823691457 (-53),
      .finite true 8457247820894329 (-54)⟩]

/-- The double `1e-200` of the source text: `0x1.87e92154ef7acp-665`. -/
def Ieee.tiny : Double := .finite false 6894565328877484 (-717)

/-- A math library for the examples in doubles: `acos(1) = 0`, and the double nearest to
`pi/2` for the other arguments. -/
def Ieee.sampleEnv : Env Double where
  assertions := true
  argsLeftToRight := true
  pi := .finite false 7074237752028440 (-51)
  cos := fun _ => Double.zero
  sin := fun _ => Double.zero
  acos := fun x => if Double.eq x (Double.ofNat 1) then Double.zero
    else .finite false 7074237752028440 (-52)
  sqrt := Double.sqrt
  rectToSphe := fun _ => (Double.zero, Double.zero)
  rotate := fun _ _ v => v
  tesselate := fun _ _ => []
  tesselateTextured := fun _ _ => []
  tesselateBoundary := fun _ => []
  tesselateOct := fun _ _ => []
  stringToDouble := fun _ => none
  doubleToString := fun _ => ""

/-- The unit vector `(1, 0, 0)` in doubles. -/
def Ieee.unitX : Vec3d := ⟨Double.ofNat 1, Double.zero, Double.zero⟩

/-- The unit vector `(0, 1, 0)` in doubles. -/
def Ieee.unitY : Vec3d := ⟨Double.zero, Double.ofNat 1, Double.zero⟩

/-- The unit vector `(0, 0, 1)` in doubles. -/
def Ieee.unitZ : Vec3d := ⟨Double.zero, Double.zero, Double.ofNat 1⟩

/-- The vector `(-1, 0, 0)` in doubles, opposite to `unitX`. -/
def Ieee.minusUnitX : Vec3d := ⟨Double.neg (Double.ofNat 1), Double.zero, Double.zero⟩

/-- The vector `(1, 1e-200, 0)` in doubles: its squared norm `1 + 1e-400 + 0` is the
double 1. -/
def Ieee.nearUnitX : Vec3d := ⟨Double.ofNat 1, Ieee.tiny, Double.zero⟩

/-- The vector `(NaN, NaN, NaN)`. -/
def Ieee.nanVec : Vec3d := ⟨.nan, .nan, .nan⟩

/-! ## Properties of the convex polygon tests -/

section GeometryProofs

variable {K : Type} [LinearOrderedCommRing K]

theorem cross_dot_left (a b : Vec3 K) : (a.cross b).dot a = 0 := by
  simp only [Vec3.cross, Vec3.dot]; ring

theorem cross_dot_right (a b : Vec3 K) : (a.cross b).dot b = 0 := by
  simp only [Vec3.cross, Vec3.dot]; ring

theorem sideHalfSpaceContains_left (a b : Vec3 K) : sideHalfSpaceContains a b a = true := by
  simp [sideHalfSpaceContains, cross_dot_left]

theorem sideHalfSpaceContains_right (a b : Vec3 K) : sideHalfSpaceContains a b b = true := by
  simp [sideHalfSpaceContains, cross_dot_right]

theorem foldl_and_eq (f : Nat → Bool) (l : List Nat) (res : Bool) :
    l.foldl (fun res p => res && f p) res = (res && l.all f) := by
  induction l generalizing res with
  | nil => simp
  | cons a l ih => simp [ih, Bool.and_assoc]

theorem andLoop_eq (n : Nat) (f : Nat → Bool) (res : Bool) :
    andLoop n f res = (res && (List.range n).all f) :=
  foldl_and_eq f (List.range n) res

theorem foldl_andLoop_eq (m : Nat) (g : Nat → Nat → Bool) (l : List Nat) (res : Bool) :
    l.foldl (fun res i => andLoop m (g i) res) res
      = (res && l.all (fun i => (List.range m).all (g i))) := by
  induction l generalizing res with
  | nil => simp
  | cons a l ih => rw [List.foldl_cons, ih, andLoop_eq, List.all_cons, Bool.and_assoc]

/-- The contour is valid exactly when it has 3 vertices or more and every edge, the closing
one included, has the tested vertices in its half space. -/
theorem checkValidContour_iff (contour : List (Vec3 K)) :
    SphericalConvexPolygon.checkValidContour contour = true ↔
      3 ≤ contour.length ∧
      (∀ i, i < contour.length - 1 → ∀ p, p < contour.length - 2 →
        sideHalfSpaceContains (vAt contour (i + 1)) (vAt contour i)
          (vAt contour ((p + i + 2) % contour.length)) = true) ∧
      (∀ p, p < contour.length - 2 →
        sideHalfSpaceContains (vFirst contour) (vLast contour)
          (vAt contour ((p + contour.length + 1) % contour.length)) = true) := by
  unfold SphericalConvexPolygon.checkValidContour
  by_cases h : contour.length < 3
  · simp [h]
  · simp only [h, if_false]
    rw [foldl_andLoop_eq, andLoop_eq]
    simp only [Bool.true_and, Bool.and_eq_true, List.all_eq_true, List.mem_range]
    constructor
    · rintro ⟨h1, h2⟩; exact ⟨by omega, h1, h2⟩
    · rintro ⟨_, h1, h2⟩; exact ⟨h1, h2⟩

theorem contains_iff (contour : List (Vec3 K)) (p : Vec3 K) :
    SphericalConvexPolygon.contains contour p = true ↔
      (∀ i, i < contour.length - 1 →
        sideHalfSpaceContains (vAt contour (i + 1)) (vAt contour i) p = true) ∧
      sideHalfSpaceContains (vFirst contour) (vLast contour) p = true := by
  unfold SphericalConvexPolygon.contains
  by_cases h : (List.range (contour.length - 1)).any
      (fun i => !sideHalfSpaceContains (vAt contour (i + 1)) (vAt contour i) p) = true
  · simp only [h, if_true]
    simp only [List.any_eq_true, List.mem_range, Bool.not_eq_true'] at h
    obtain ⟨i, hi, hf⟩ := h
    constructor
    · intro hc; cases hc
    · rintro ⟨h1, _⟩; rw [h1 i hi] at hf; cases hf
  · simp only [h]
    simp only [List.any_eq_true, List.mem_range, Bool.not_eq_true', not_exists, not_and,
      Bool.not_eq_false] at h
    constructor
    · intro hc; exact ⟨h, by simpa using hc⟩
    · rintro ⟨_, h2⟩; simpa using h2

theorem vAt_of_lt (contour : List (Vec3 K)) (k : Nat) (hk : k < contour.length) :
    vAt contour k = contour.get ⟨k, hk⟩ := by
  simp [vAt, List.getD_eq_getElem?_getD, List.getElem?_eq_getElem hk]

/-- Closure under membership in exact arithmetic: every vertex of a contour accepted by
`checkValidContour` is contained in the convex polygon of that contour, the edge test being
`(a x b) . p >= 0`. -/
theorem checkValidContour_contains_vertex (contour : List (Vec3 K))
    (hvalid : SphericalConvexPolygon.checkValidContour contour = true) :
    ∀ v, v ∈ contour → SphericalConvexPolygon.contains contour v = true := by
  intro v hv
  obtain ⟨⟨k, hk⟩, rfl⟩ := List.mem_iff_get.mp hv
  rw [← vAt_of_lt contour k hk]
  obtain ⟨hlen, hedges, hclose⟩ := (checkValidContour_iff contour).mp hvalid
  rw [contains_iff]
  constructor
  · intro i hi
    rcases Nat.lt_trichotomy k i with hlt | heq | hgt
    · -- the vertex comes before the edge: it is tested with p = k + n - i - 2
      have hp : k + contour.length - i - 2 < contour.length - 2 := by omega
      have h := hedges i hi _ hp
      have hidx : (k + contour.length - i - 2 + i + 2) % contour.length = k := by
        have : k + contour.length - i - 2 + i + 2 = k + contour.length := by omega
        rw [this, Nat.add_mod_right, Nat.mod_eq_of_lt hk]
      rwa [hidx] at h
    · subst heq; exact sideHalfSpaceContains_right _ _
    · by_cases hk1 : k = i + 1
      · subst hk1; exact sideHalfSpaceContains_left _ _
      · have hp : k - i - 2 < contour.length - 2 := by omega
        have h := hedges i hi _ hp
        have hidx : (k - i - 2 + i + 2) % contour.length = k := by
          have : k - i - 2 + i + 2 = k := by omega
          rw [this, Nat.mod_eq_of_lt hk]
        rwa [hidx] at h
  · by_cases hk0 : k = 0
    · subst hk0; exact sideHalfSpaceContains_left _ _
    · by_cases hkl : k = contour.length - 1
      · subst hkl; exact sideHalfSpaceContains_right _ _
      · have hp : k - 1 < contour.length - 2 := by omega
        have h := hclose _ hp
        have hidx : (k - 1 + contour.length + 1) % contour.length = k := by
          have : k - 1 + contour.length + 1 = k + contour.length := by omega
          rw [this, Nat.add_mod_right, Nat.mod_eq_of_lt hk]
        rwa [hidx] at h

/-- A valid contour over the integers, and the membership of its vertices. -/
theorem checkValidContour_contains_vertex_witness :
    SphericalConvexPolygon.checkValidContour
        [(⟨1, 0, 0⟩ : Vec3 ℤ), ⟨0, 0, 1⟩, ⟨0, 1, 0⟩] = true ∧
      ∀ v, v ∈ [(⟨1, 0, 0⟩ : Vec3 ℤ), ⟨0, 0, 1⟩, ⟨0, 1, 0⟩] →
        SphericalConvexPolygon.contains [(⟨1, 0, 0⟩ : Vec3 ℤ), ⟨0, 0, 1⟩, ⟨0, 1, 0⟩] v = true :=
  ⟨by decide, checkValidContour_contains_vertex _ (by decide)⟩

theorem allOutsideLoop_eq (a b : Vec3 K) (points : List (Vec3 K)) (allOutside : Bool) :
    allOutsideLoop a b points allOutside
      = (allOutside && points.all (fun p => !sideHalfSpaceContains a b p)) := by
  induction points generalizing allOutside with
  | nil => simp [allOutsideLoop]
  | cons p ps ih =>
    cases allOutside
    · simp [allOutsideLoop]
    · simp [allOutsideLoop, ih]

theorem areAllPointsOutsideOneSide_iff (a b : List (Vec3 K)) :
    SphericalConvexPolygon.areAllPointsOutsideOneSide a b = true ↔ HasSeparatingEdge a b := by
  unfold SphericalConvexPolygon.areAllPointsOutsideOneSide HasSeparatingEdge
  simp only [allOutsideLoop_eq, Bool.true_and]
  by_cases h1 : (List.range (a.length - 1)).any
      (fun i => b.all (fun p => !sideHalfSpaceContains (vAt a (i + 1)) (vAt a i) p)) = true
  · rw [if_pos h1]
    simp only [true_iff]
    left
    simpa only [List.any_eq_true, List.mem_range, List.all_eq_true, Bool.not_eq_true']
      using h1
  · rw [if_neg h1]
    have h1' : ¬ ∃ i, i < a.length - 1 ∧
        ∀ v, v ∈ b → sideHalfSpaceContains (vAt a (i + 1)) (vAt a i) v = false := by
      simpa only [List.any_eq_true, List.mem_range, List.all_eq_true, Bool.not_eq_true']
        using h1
    by_cases h2 : b.all
        (fun p => !sideHalfSpaceContains (vAt a 0) (vAt a (a.length - 1)) p) = true
    · rw [if_pos h2]
      simp only [true_iff]
      right
      simpa only [List.all_eq_true, Bool.not_eq_true'] using h2
    · rw [if_neg h2]
      have h2' : ¬ ∀ v, v ∈ b →
          sideHalfSpaceContains (vAt a 0) (vAt a (a.length - 1)) v = false := by
        simpa only [List.all_eq_true, Bool.not_eq_true'] using h2
      constructor
      · intro hc; cases hc
      · rintro (h | h)
        · exact absurd h h1'
        · exact absurd h h2'

/-- C10: separating half space test between convex polygons. The polygon of contour `a` does
not intersect the convex polygon of contour `b` exactly when some edge of `a`, the closing
edge included, has every vertex of `b` strictly outside its half space, or some edge of `b`
has every vertex of `a` strictly outside; and the test is symmetric. -/
theorem intersects_convex_iff_separatingEdge (a b : List (Vec3 K))
    (_ha : a ≠ []) (_hb : b ≠ []) :
    (SphericalConvexPolygon.intersects a (.convex b) = false ↔
        (HasSeparatingEdge a b ∨ HasSeparatingEdge b a)) ∧
      SphericalConvexPolygon.intersects a (.convex b)
        = SphericalConvexPolygon.intersects b (.convex a) := by
  constructor
  · rw [← areAllPointsOutsideOneSide_iff, ← areAllPointsOutsideOneSide_iff]
    simp only [SphericalConvexPolygon.intersects]
    cases SphericalConvexPolygon.areAllPointsOutsideOneSide a b <;>
      cases SphericalConvexPolygon.areAllPointsOutsideOneSide b a <;> simp
  · simp only [SphericalConvexPolygon.intersects]
    exact Bool.and_comm _ _

/-- Two triangles over the integers on opposite sides of the sphere, told apart by an edge. -/
theorem intersects_convex_iff_separatingEdge_witness :
    ([(⟨1, 0, 0⟩ : Vec3 ℤ), ⟨0, 0, 1⟩, ⟨0, 1, 0⟩] ≠ [] ∧
      [(⟨-1, 0, 0⟩ : Vec3 ℤ), ⟨0, 0, -1⟩, ⟨0, -1, 0⟩] ≠ []) ∧
    ((SphericalConvexPolygon.intersects [(⟨1, 0, 0⟩ : Vec3 ℤ), ⟨0, 0, 1⟩, ⟨0, 1, 0⟩]
          (.convex [(⟨-1, 0, 0⟩ : Vec3 ℤ), ⟨0, 0, -1⟩, ⟨0, -1, 0⟩]) = false ↔
        (HasSeparatingEdge [(⟨1, 0, 0⟩ : Vec3 ℤ), ⟨0, 0, 1⟩, ⟨0, 1, 0⟩]
            [(⟨-1, 0, 0⟩ : Vec3 ℤ), ⟨0, 0, -1⟩, ⟨0, -1, 0⟩] ∨
          HasSeparatingEdge [(⟨-1, 0, 0⟩ : Vec3 ℤ), ⟨0, 0, -1⟩, ⟨0, -1, 0⟩]
            [(⟨1, 0, 0⟩ : Vec3 ℤ), ⟨0, 0, 1⟩, ⟨0, 1, 0⟩])) ∧
      SphericalConvexPolygon.intersects [(⟨1, 0, 0⟩ : Vec3 ℤ), ⟨0, 0, 1⟩, ⟨0, 1, 0⟩]
          (.convex [(⟨-1, 0, 0⟩ : Vec3 ℤ), ⟨0, 0, -1⟩, ⟨0, -1, 0⟩])
        = SphericalConvexPolygon.intersects [(⟨-1, 0, 0⟩ : Vec3 ℤ), ⟨0, 0, -1⟩, ⟨0, -1, 0⟩]
          (.convex [(⟨1, 0, 0⟩ : Vec3 ℤ), ⟨0, 0, 1⟩, ⟨0, 1, 0⟩])) :=
  ⟨⟨by decide, by decide⟩,
    intersects_convex_iff_separatingEdge _ _ (by decide) (by decide)⟩

end GeometryProofs

/-! ## The square scenario -/

section Square

theorem sin_five_degrees_pos : 0 < Real.sin (5 * Real.pi / 180) := by
  apply Real.sin_pos_of_pos_of_lt_pi
  · positivity
  · linarith [Real.pi_pos]

theorem cos_five_degrees_pos : 0 < Real.cos (5 * Real.pi / 180) := by
  apply Real.cos_pos_of_mem_Ioo
  constructor <;> linarith [Real.pi_pos]

theorem sin_twenty_degrees_pos : 0 < Real.sin (20 * Real.pi / 180) := by
  apply Real.sin_pos_of_pos_of_lt_pi
  · positivity
  · linarith [Real.pi_pos]

theorem cos_twenty_degrees_pos : 0 < Real.cos (20 * Real.pi / 180) := by
  apply Real.cos_pos_of_mem_Ioo
  constructor <;> linarith [Real.pi_pos]

/-- `sin 20° cos 5° - cos 20° sin 5° = sin 15° > 0`. -/
theorem sin_fifteen_degrees_pos :
    0 < Real.sin (20 * Real.pi / 180) * Real.cos (5 * Real.pi / 180)
      - Real.cos (20 * Real.pi / 180) * Real.sin (5 * Real.pi / 180) := by
  rw [← Real.sin_sub]
  apply Real.sin_pos_of_pos_of_lt_pi
  · linarith [Real.pi_pos]
  · linarith [Real.pi_pos]

theorem squareContour_not_contains_origin :
    SphericalConvexPolygon.contains (squareContour Real.cos Real.sin Real.pi)
      (raDecDegrees Real.cos Real.sin Real.pi 0 0) = false := by
  rw [Bool.eq_false_iff, Ne, contains_iff]
  rintro ⟨h, _⟩
  have h0 := h 0 (by simp [squareContour])
  have hs := sin_five_degrees_pos
  have hc := cos_five_degrees_pos
  simp [squareContour, raDecDegrees, vAt, sideHalfSpaceContains, spheToRect, Vec3.cross,
    Vec3.dot, neg_div, Real.cos_neg, Real.sin_neg] at h0
  nlinarith [mul_pos hs hs, mul_pos (mul_pos hs hs) hc]

theorem squareContour_not_contains_far :
    SphericalConvexPolygon.contains (squareContour Real.cos Real.sin Real.pi)
      (raDecDegrees Real.cos Real.sin Real.pi 20 20) = false := by
  rw [Bool.eq_false_iff, Ne, contains_iff]
  rintro ⟨h, _⟩
  have h0 := h 0 (by simp [squareContour])
  have hs := sin_five_degrees_pos
  have hc := cos_five_degrees_pos
  have hS := sin_twenty_degrees_pos
  have hC := cos_twenty_degrees_pos
  simp [squareContour, raDecDegrees, vAt, sideHalfSpaceContains, spheToRect, Vec3.cross,
    Vec3.dot, neg_div, Real.cos_neg, Real.sin_neg] at h0
  have e1 : 0 < Real.sin (5 * Real.pi / 180) * Real.sin (5 * Real.pi / 180)
      * Real.cos (5 * Real.pi / 180) * (Real.cos (20 * Real.pi / 180) * Real.cos (20 * Real.pi / 180)) := by
    positivity
  have e2 : 0 < Real.sin (5 * Real.pi / 180) * Real.cos (5 * Real.pi / 180) * Real.cos (5 * Real.pi / 180)
      * Real.cos (5 * Real.pi / 180) * Real.sin (20 * Real.pi / 180) := by
    positivity
  nlinarith [e1, e2]

theorem squareContour_reverse_contains_origin :
    SphericalConvexPolygon.contains (squareContour Real.cos Real.sin Real.pi).reverse
      (raDecDegrees Real.cos Real.sin Real.pi 0 0) = true := by
  rw [contains_iff]
  have hs := sin_five_degrees_pos
  have hc := cos_five_degrees_pos
  have e : 0 ≤ Real.sin (5 * Real.pi / 180) * Real.sin (5 * Real.pi / 180)
      * Real.cos (5 * Real.pi / 180) := by positivity
  refine ⟨?_, ?_⟩
  · intro i hi
    have hi' : i < 3 := by simpa [squareContour] using hi
    interval_cases i <;>
    · simp [squareContour, raDecDegrees, vAt, sideHalfSpaceContains, spheToRect, Vec3.cross,
        Vec3.dot, neg_div, Real.cos_neg, Real.sin_neg]
      nlinarith [e]
  · simp [squareContour, raDecDegrees, vAt, vFirst, vLast, sideHalfSpaceContains, spheToRect,
      Vec3.cross, Vec3.dot, neg_div, Real.cos_neg, Real.sin_neg]
    nlinarith [e]

theorem squareContour_reverse_not_contains_far :
    SphericalConvexPolygon.contains (squareContour Real.cos Real.sin Real.pi).reverse
      (raDecDegrees Real.cos Real.sin Real.pi 20 20) = false := by
  rw [Bool.eq_false_iff, Ne, contains_iff]
  rintro ⟨h, _⟩
  have h1 := h 1 (by simp [squareContour])
  have hs := sin_five_degrees_pos
  have hc := cos_five_degrees_pos
  have hS := sin_twenty_degrees_pos
  have hC := cos_twenty_degrees_pos
  have h15 := sin_fifteen_degrees_pos
  simp [squareContour, raDecDegrees, vAt, sideHalfSpaceContains, spheToRect, Vec3.cross,
    Vec3.dot, neg_div, Real.cos_neg, Real.sin_neg] at h1
  have e : 0 < Real.sin (5 * Real.pi / 180) * Real.cos (5 * Real.pi / 180)
      * Real.cos (20 * Real.pi / 180) *
      (Real.sin (20 * Real.pi / 180) * Real.cos (5 * Real.pi / 180)
      - Real.cos (20 * Real.pi / 180) * Real.sin (5 * Real.pi / 180)) := by
    positivity
  nlinarith [e]
/-- C9, as stated: with the four points in the order of the scenario the polygon would
contain `(0,0)` and not `(20,20)`. It does not contain `(0,0)`: the first edge already has
the point outside its half space. -/
theorem squareContour_scenario_counterexample :
    ¬ (SphericalConvexPolygon.contains (squareContour Real.cos Real.sin Real.pi)
          (raDecDegrees Real.cos Real.sin Real.pi 0 0) = true ∧
        SphericalConvexPolygon.contains (squareContour Real.cos Real.sin Real.pi)
          (raDecDegrees Real.cos Real.sin Real.pi 20 20) = false) := by
  rintro ⟨h, _⟩
  rw [squareContour_not_contains_origin] at h
  cases h

/-- C9, amended: the convex polygon whose contour is the four points taken in the reverse
order `(-5,5), (5,5), (5,-5), (-5,-5)` contains `(0,0)` and does not contain `(20,20)`; with
the order of the scenario it contains neither point. -/
theorem squareContour_reverse_scenario :
    SphericalConvexPolygon.contains (squareContour Real.cos Real.sin Real.pi).reverse
        (raDecDegrees Real.cos Real.sin Real.pi 0 0) = true ∧
      SphericalConvexPolygon.contains (squareContour Real.cos Real.sin Real.pi).reverse
        (raDecDegrees Real.cos Real.sin Real.pi 20 20) = false ∧
      SphericalConvexPolygon.contains (squareContour Real.cos Real.sin Real.pi)
        (raDecDegrees Real.cos Real.sin Real.pi 0 0) = false ∧
      SphericalConvexPolygon.contains (squareContour Real.cos Real.sin Real.pi)
        (raDecDegrees Real.cos Real.sin Real.pi 20 20) = false :=
  ⟨squareContour_reverse_contains_origin, squareContour_reverse_not_contains_far,
    squareContour_not_contains_origin, squareContour_not_contains_far⟩

end Square

/-! ## Properties of the loader -/

section LoaderBasics

variable {K : Type}

theorem qAssert_true (env : Env K) : qAssert env true = .ok () := by
  simp [qAssert]

theorem qAssert_cases (env : Env K) (c : Bool) :
    qAssert env c = .ok () ∨ qAssert env c = .error .assertion := by
  unfold qAssert
  split_ifs
  · right; rfl
  · left; rfl

/-- A variant whose text is "CAP" is not a list. -/
theorem toList_of_toString_cap (env : Env K) (q : QVariant K)
    (h : q.toString env = "CAP") : q.toList = [] := by
  cases q <;> simp [QVariant.toString, QVariant.toList] at h ⊢

theorem mem_getD_index (l : List (QVariant K)) (c : QVariant K) (hc : c ∈ l) :
    ∃ i, i < l.length ∧ l.getD i .invalid = c := by
  obtain ⟨⟨i, hi⟩, rfl⟩ := List.mem_iff_get.mp hc
  exact ⟨i, hi, by simp [List.getD_eq_getElem?_getD, List.getElem?_eq_getElem hi]⟩

theorem contoursListOf_eq_nil (map : QVariantMap K)
    (h1 : (map.value "skyConvexPolygons").toList = [])
    (h2 : (map.value "worldCoords").toList = []) : contoursListOf map = [] := by
  simp [contoursListOf, h1, h2]

end LoaderBasics

section LoaderProofs

variable {K : Type} [LinearOrderedField K]

theorem parseRaDec_error (env : Env K) (q : QVariant K) (e : Fault)
    (h : parseRaDec env q = .error e) : e = .runtimeError .invalidRaDecPair := by
  unfold parseRaDec at h
  simp only at h
  split_ifs at h <;> (cases h; rfl)

theorem parseRaDec_of_length_ne (env : Env K) (q : QVariant K) (h : q.toList.length ≠ 2) :
    parseRaDec env q = .error (.runtimeError .invalidRaDecPair) := by
  unfold parseRaDec
  simp [h]

theorem parseVertices_error (env : Env K) (l : List (QVariant K)) (e : Fault)
    (h : parseVertices env l = .error e) : e = .runtimeError .invalidRaDecPair := by
  induction l with
  | nil => simp [parseVertices] at h
  | cons q rest ih =>
    simp only [parseVertices, bind, Except.bind] at h
    cases hq : parseRaDec env q with
    | error e' =>
      rw [hq] at h
      cases h
      exact parseRaDec_error env q _ hq
    | ok v =>
      rw [hq] at h
      cases hr : parseVertices env rest with
      | error e' =>
        rw [hr] at h
        cases h
        exact ih hr
      | ok vs =>
        rw [hr] at h
        cases h

theorem parseVertices_length (env : Env K) (l : List (QVariant K)) (vs : List (Vec3 K))
    (h : parseVertices env l = .ok vs) : vs.length = l.length := by
  induction l generalizing vs with
  | nil => simp [parseVertices] at h; subst h; rfl
  | cons q rest ih =>
    simp only [parseVertices, bind, Except.bind] at h
    cases hq : parseRaDec env q with
    | error e' => rw [hq] at h; cases h
    | ok v =>
      rw [hq] at h
      cases hr : parseVertices env rest with
      | error e' => rw [hr] at h; cases h
      | ok vs' =>
        rw [hr] at h
        cases h
        simp [ih vs' hr]

theorem parseVertices_head_error (env : Env K) (q : QVariant K) (rest : List (QVariant K))
    (h : q.toList.length ≠ 2) :
    parseVertices env (q :: rest) = .error (.runtimeError .invalidRaDecPair) := by
  simp [parseVertices, parseRaDec_of_length_ne env q h, bind, Except.bind]

theorem loadContour_error (env : Env K) (c : QVariant K) (e : Fault)
    (h : loadContour env c = .error e) : ∃ pe, e = .runtimeError pe := by
  unfold loadContour at h
  simp only at h
  split at h
  · cases h; exact ⟨_, rfl⟩
  · split at h
    · split at h
      · cases h; exact ⟨_, rfl⟩
      · simp only [bind, Except.bind] at h
        cases hq : parseRaDec env (c.toList.getD 1 .invalid) with
        | error e' =>
          rw [hq] at h
          cases h
          exact ⟨_, parseRaDec_error env _ _ hq⟩
        | ok v =>
          rw [hq] at h
          simp only at h
          split at h
          · cases h; exact ⟨_, rfl⟩
          · cases h
    · split at h
      · cases h; exact ⟨_, rfl⟩
      · rename_i h1 h2 h3
        simp only [bind, Except.bind] at h
        cases hv : parseVertices env c.toList with
        | error e' =>
          rw [hv] at h
          cases h
          exact ⟨_, parseVertices_error env _ _ hv⟩
        | ok vs =>
          rw [hv] at h
          have hl := parseVertices_length env _ _ hv
          have : decide (vs.length > 2) = true := by
            simp; omega
          simp only [this, qAssert_true] at h
          cases h

theorem loadContours_error (env : Env K) (l : List (QVariant K)) (e : Fault)
    (h : loadContours env l = .error e) : ∃ pe, e = .runtimeError pe := by
  induction l with
  | nil => simp [loadContours] at h
  | cons c rest ih =>
    simp only [loadContours, bind, Except.bind] at h
    cases hc : loadContour env c with
    | error e' =>
      rw [hc] at h
      cases h
      exact loadContour_error env c _ hc
    | ok v =>
      rw [hc] at h
      cases hr : loadContours env rest with
      | error e' =>
        rw [hr] at h
        cases h
        exact ih hr
      | ok vs =>
        rw [hr] at h
        cases h

theorem loadContours_of_mem_error (env : Env K) (l : List (QVariant K)) (c : QVariant K)
    (hc : c ∈ l) (e : Fault) (h : loadContour env c = .error e) :
    ∃ e', loadContours env l = .error e' := by
  induction l with
  | nil => cases hc
  | cons c0 rest ih =>
    simp only [loadContours, bind, Except.bind]
    cases hc0 : loadContour env c0 with
    | error e' => exact ⟨_, rfl⟩
    | ok v =>
      have hmem : c ∈ rest := by
        rcases List.mem_cons.mp hc with heq | hmem
        · subst heq; rw [h] at hc0; cases hc0
        · exact hmem
      obtain ⟨e', he'⟩ := ih hmem
      rw [he']
      exact ⟨_, rfl⟩

theorem loadContour_short (env : Env K) (c : QVariant K)
    (hcap : ¬ startsWithCap env c) (hlen : c.toList.length < 3) :
    ∃ e, loadContour env c = .error e := by
  unfold loadContour
  simp only
  by_cases h1 : c.toList.length < 1
  · rw [if_pos h1]
    exact ⟨_, rfl⟩
  · have hne : (c.toList.getD 0 .invalid).toString env ≠ "CAP" := by
      intro hs
      apply hcap
      cases hl : c.toList with
      | nil => simp [hl] at h1
      | cons first rest =>
        refine ⟨first, rest, hl, ?_⟩
        simpa [hl] using hs
    rw [if_neg h1, if_neg hne, if_pos hlen]
    exact ⟨_, rfl⟩

theorem loadContour_badCap (env : Env K) (c : QVariant K)
    (hcap : startsWithCap env c) (hlen : c.toList.length ≠ 3) :
    ∃ e, loadContour env c = .error e := by
  obtain ⟨first, rest, hl, hs⟩ := hcap
  unfold loadContour
  simp only
  have h1 : ¬ c.toList.length < 1 := by simp [hl]
  have h2 : (c.toList.getD 0 .invalid).toString env = "CAP" := by simpa [hl] using hs
  rw [if_neg h1, if_pos h2, if_pos hlen]
  exact ⟨_, rfl⟩


theorem setTexCoords_error (env : Env K) (xys : List (QVariant K))
    (vertices : List (TextureVertex K)) (hlen : xys.length = vertices.length) (e : Fault)
    (h : setTexCoords env xys vertices = .error e) : e = .runtimeError .invalidTexCoordPair := by
  induction xys generalizing vertices e with
  | nil => simp [setTexCoords] at h
  | cons xy rest ih =>
    cases vertices with
    | nil => simp at hlen
    | cons v vs =>
      simp only [setTexCoords, bind, Except.bind] at h
      cases hr : setTexCoords env rest vs with
      | error e' =>
        rw [hr] at h
        simp only at h
        split_ifs at h <;> cases h <;>
          first | rfl | exact ih vs (by simpa using hlen) _ hr
      | ok vs' =>
        rw [hr] at h
        simp only at h
        split_ifs at h <;> cases h <;> rfl

theorem loadTexturedContour_error (env : Env K) (c t : QVariant K) (e : Fault)
    (h : loadTexturedContour env c t = .error e) : ∃ pe, e = .runtimeError pe := by
  unfold loadTexturedContour at h
  simp only at h
  by_cases h3 : c.toList.length < 3
  · rw [if_pos h3] at h
    cases h; exact ⟨_, rfl⟩
  · rw [if_neg h3] at h
    simp only [bind, Except.bind] at h
    cases hv : parseVertices env c.toList with
    | error e' =>
      rw [hv] at h
      cases h
      exact ⟨_, parseVertices_error env _ _ hv⟩
    | ok vs =>
      rw [hv] at h
      have hl := parseVertices_length env _ _ hv
      have hgt : decide ((vs.map (fun v => (⟨v, (0, 0)⟩ : TextureVertex K))).length > 2) = true := by
        simp; omega
      simp only [hgt, qAssert_true] at h
      split_ifs at h with hne
      · cases h; exact ⟨_, rfl⟩
      · exact ⟨_, setTexCoords_error env _ _ (by simpa using hne) _ h⟩

theorem loadTexturedContour_short (env : Env K) (c t : QVariant K)
    (hlen : c.toList.length < 3) :
    loadTexturedContour env c t = .error (.runtimeError .tooFewVertices) := by
  unfold loadTexturedContour
  simp only
  rw [if_pos hlen]

theorem loadTexturedContour_cap (env : Env K) (c t : QVariant K)
    (hcap : startsWithCap env c) :
    ∃ e, loadTexturedContour env c t = .error e := by
  obtain ⟨first, rest, hl, hs⟩ := hcap
  unfold loadTexturedContour
  simp only
  by_cases h3 : c.toList.length < 3
  · rw [if_pos h3]; exact ⟨_, rfl⟩
  · rw [if_neg h3, hl]
    have hfirst : first.toList.length ≠ 2 := by
      rw [toList_of_toString_cap env first hs]; simp
    rw [parseVertices_head_error env first rest hfirst]
    exact ⟨_, rfl⟩

theorem loadTexturedContour_mismatch (env : Env K) (c t : QVariant K)
    (hne : t.toList.length ≠ c.toList.length) :
    ∃ e, loadTexturedContour env c t = .error e := by
  unfold loadTexturedContour
  simp only
  by_cases h3 : c.toList.length < 3
  · rw [if_pos h3]; exact ⟨_, rfl⟩
  · rw [if_neg h3]
    simp only [bind, Except.bind]
    cases hv : parseVertices env c.toList with
    | error e' => exact ⟨_, rfl⟩
    | ok vs =>
      have hl := parseVertices_length env _ _ hv
      have hgt : decide ((vs.map (fun v => (⟨v, (0, 0)⟩ : TextureVertex K))).length > 2) = true := by
        simp; omega
      simp only [hgt, qAssert_true]
      have hne' : t.toList.length ≠ (vs.map (fun v => (⟨v, (0, 0)⟩ : TextureVertex K))).length := by
        simpa [hl] using hne
      rw [if_pos hne']
      exact ⟨_, rfl⟩

theorem loadTexturedContours_error (env : Env K) (l texs : List (QVariant K)) (e : Fault)
    (h : loadTexturedContours env l texs = .error e) : ∃ pe, e = .runtimeError pe := by
  induction l generalizing texs with
  | nil => simp [loadTexturedContours] at h
  | cons c rest ih =>
    simp only [loadTexturedContours, bind, Except.bind] at h
    cases hc : loadTexturedContour env c (texs.headD .invalid) with
    | error e' =>
      rw [hc] at h
      cases h
      exact loadTexturedContour_error env c _ _ hc
    | ok v =>
      rw [hc] at h
      cases hr : loadTexturedContours env rest texs.tail with
      | error e' =>
        rw [hr] at h
        cases h
        exact ih _ hr
      | ok vs =>
        rw [hr] at h
        cases h

theorem loadTexturedContours_of_index_error (env : Env K) (l texs : List (QVariant K))
    (i : Nat) (hi : i < l.length) (e : Fault)
    (h : loadTexturedContour env (l.getD i .invalid) (texs.getD i .invalid) = .error e) :
    ∃ e', loadTexturedContours env l texs = .error e' := by
  induction l generalizing texs i with
  | nil => simp at hi
  | cons c rest ih =>
    simp only [loadTexturedContours, bind, Except.bind]
    cases hc : loadTexturedContour env c (texs.headD .invalid) with
    | error e' => exact ⟨_, rfl⟩
    | ok v =>
      cases i with
      | zero =>
        have : texs.getD 0 .invalid = texs.headD .invalid := by cases texs <;> rfl
        simp only [List.getD_cons_zero, this] at h
        rw [h] at hc; cases hc
      | succ j =>
        have ht : texs.getD (j + 1) .invalid = texs.tail.getD j .invalid := by
          cases texs <;> simp
        simp only [List.getD_cons_succ, ht] at h
        obtain ⟨e', he'⟩ := ih texs.tail j (by simpa using hi) h
        rw [he']
        exact ⟨_, rfl⟩

theorem loadFromQVariant_plain (env : Env K) (map : QVariantMap K)
    (hne : contoursListOf map ≠ [])
    (htex : (map.value "textureCoords").toList = []) (e : Fault)
    (h : loadContours env (contoursListOf map) = .error e) :
    SphericalRegion.loadFromQVariant env map = .error e := by
  unfold SphericalRegion.loadFromQVariant
  simp [hne, htex, h, bind, Except.bind]

theorem loadFromQVariant_textured (env : Env K) (map : QVariantMap K)
    (hne : contoursListOf map ≠ [])
    (htex : (map.value "textureCoords").toList ≠ [])
    (hlen : (map.value "textureCoords").toList.length = (contoursListOf map).length)
    (e : Fault)
    (h : loadTexturedContours env (contoursListOf map) (map.value "textureCoords").toList
      = .error e) :
    SphericalRegion.loadFromQVariant env map = .error e := by
  unfold SphericalRegion.loadFromQVariant
  simp [hne, htex, hlen, h, bind, Except.bind]

theorem contoursListOf_cap (env : Env K) (cap : SphericalCap K) :
    contoursListOf (cap.toQVariant env) = [] := by
  simp [contoursListOf, SphericalCap.toQVariant, QVariantMap.insert, QVariantMap.value,
    List.lookup, QVariant.toList]

theorem loadFromQVariant_cap (env : Env K) (cap : SphericalCap K) :
    SphericalRegion.loadFromQVariant env (cap.toQVariant env)
      = .error (.runtimeError .missingContours) := by
  simp [SphericalRegion.loadFromQVariant, contoursListOf_cap]

theorem contoursListOf_convex (env : Env K) (contour : List (Vec3 K)) :
    contoursListOf (SphericalConvexPolygon.toQVariant env contour)
      = contour.map (fun v => raDecToQVariant env v) := by
  simp [contoursListOf, SphericalConvexPolygon.toQVariant, QVariantMap.insert,
    QVariantMap.value, List.lookup, QVariant.toList]

theorem textureCoords_convex (env : Env K) (contour : List (Vec3 K)) :
    ((SphericalConvexPolygon.toQVariant env contour).value "textureCoords").toList = [] := by
  simp [SphericalConvexPolygon.toQVariant, QVariantMap.insert,
    QVariantMap.value, List.lookup, QVariant.toList]

/-- A written `[ra, dec]` pair read as a contour has 2 entries: it is rejected. -/
theorem loadContour_raDec (env : Env K) (v : Vec3 K) :
    loadContour env (raDecToQVariant env v) = .error (.runtimeError .tooFewVertices) ∨
    loadContour env (raDecToQVariant env v) = .error (.runtimeError .invalidCap) := by
  unfold loadContour
  by_cases h : QVariant.toString env (((raDecToQVariant env v).toList).getD 0 .invalid) = "CAP"
  · right
    simp [raDecToQVariant, QVariant.toList] at h ⊢
    simp [h]
  · left
    simp [raDecToQVariant, QVariant.toList] at h ⊢
    simp [h]

theorem loadFromQVariant_convex (env : Env K) (contour : List (Vec3 K))
    (hne : contour ≠ []) :
    SphericalRegion.loadFromQVariant env (SphericalConvexPolygon.toQVariant env contour)
        = .error (.runtimeError .tooFewVertices) ∨
      SphericalRegion.loadFromQVariant env (SphericalConvexPolygon.toQVariant env contour)
        = .error (.runtimeError .invalidCap) := by
  unfold SphericalRegion.loadFromQVariant
  rw [textureCoords_convex, contoursListOf_convex]
  cases contour with
  | nil => exact absurd rfl hne
  | cons v vs =>
    rcases loadContour_raDec env v with h | h
    · left; simp [loadContours, h, bind, Except.bind]
    · right; simp [loadContours, h, bind, Except.bind]

/-- C4, as stated: the map written for the cap of axis `(1,0,0)` and `d = 1` would load to a
region of type Cap. It does not load at all. -/
theorem loadFromQVariant_cap_roundtrip_counterexample :
    ¬ ∃ r, SphericalRegion.loadFromQVariant sampleEnv
        (SphericalCap.toQVariant sampleEnv ⟨⟨1, 0, 0⟩, 1⟩) = .ok r ∧ r.getType = .Cap := by
  rw [loadFromQVariant_cap]
  simp

/-- C4, amended: for every cap `c`, `loadFromQVariant(c.toQVariant())` throws the
"missing sky contours description" error and returns no region: the written map has the keys
`type`, `center` and `radius`, the loader reads `skyConvexPolygons` and `worldCoords`. -/
theorem loadFromQVariant_cap_toQVariant_fails (env : Env K) (cap : SphericalCap K) :
    SphericalRegion.loadFromQVariant env (cap.toQVariant env)
      = .error (.runtimeError .missingContours) :=
  loadFromQVariant_cap env cap

/-- C5, as stated: the map written for the convex polygon of contour
`(1,0,0), (0,0,1), (0,1,0)` would load to a region of type ConvexPolygon. It does not load
at all. -/
theorem loadFromQVariant_convex_roundtrip_counterexample :
    ¬ ∃ r, SphericalRegion.loadFromQVariant sampleEnv
        (SphericalConvexPolygon.toQVariant sampleEnv [⟨1, 0, 0⟩, ⟨0, 0, 1⟩, ⟨0, 1, 0⟩]) = .ok r ∧
      r.getType = .ConvexPolygon := by
  rcases loadFromQVariant_convex sampleEnv [⟨1, 0, 0⟩, ⟨0, 0, 1⟩, ⟨0, 1, 0⟩] (by simp)
    with h | h <;> rw [h] <;> simp

/-- C5, amended: for every convex polygon `p` whose contour has at least 3 vertices,
`loadFromQVariant(p.toQVariant())` throws and returns no region: the written `worldCoords`
is the list of the `[ra, dec]` pairs, and the loader reads each pair as a contour of 2
entries, which it rejects ("a polygon contour must have at least 3 vertices", or
"invalid CAP description" should the text of the first number be "CAP"). -/
theorem loadFromQVariant_convex_toQVariant_fails (env : Env K) (contour : List (Vec3 K))
    (h : 3 ≤ contour.length) :
    SphericalRegion.loadFromQVariant env (SphericalConvexPolygon.toQVariant env contour)
        = .error (.runtimeError .tooFewVertices) ∨
      SphericalRegion.loadFromQVariant env (SphericalConvexPolygon.toQVariant env contour)
        = .error (.runtimeError .invalidCap) :=
  loadFromQVariant_convex env contour (by rintro rfl; simp at h)

/-- The triangle `(1,0,0), (0,0,1), (0,1,0)` written and read back in the sample
environment. -/
theorem loadFromQVariant_convex_toQVariant_fails_witness :
    3 ≤ [(⟨1, 0, 0⟩ : Vec3 ℚ), ⟨0, 0, 1⟩, ⟨0, 1, 0⟩].length ∧
      (SphericalRegion.loadFromQVariant sampleEnv
          (SphericalConvexPolygon.toQVariant sampleEnv [⟨1, 0, 0⟩, ⟨0, 0, 1⟩, ⟨0, 1, 0⟩])
          = .error (.runtimeError .tooFewVertices) ∨
        SphericalRegion.loadFromQVariant sampleEnv
          (SphericalConvexPolygon.toQVariant sampleEnv [⟨1, 0, 0⟩, ⟨0, 0, 1⟩, ⟨0, 1, 0⟩])
          = .error (.runtimeError .invalidCap)) :=
  ⟨by decide, loadFromQVariant_convex_toQVariant_fails sampleEnv _ (by decide)⟩

/-- C6: `parseRaDec` tests the flag of one conversion only, so a pair with an element that is
not a number is accepted and that element is read as 0. With the arguments evaluated from
left to right `["abc", 10]` is accepted, from right to left `[10, "abc"]` is. -/
theorem parseRaDec_accepts_non_numeric_element :
    parseRaDec sampleEnv (.list [.string "abc", .double 10])
        = .ok (spheToRect sampleEnv.cos sampleEnv.sin
            (0 * sampleEnv.pi / 180) (10 * sampleEnv.pi / 180)) ∧
      parseRaDec { sampleEnv with argsLeftToRight := false }
          (.list [.double 10, .string "abc"])
        = .ok (spheToRect sampleEnv.cos sampleEnv.sin
            (10 * sampleEnv.pi / 180) (0 * sampleEnv.pi / 180)) := by
  constructor <;>
    simp [parseRaDec, QVariant.toList, QVariant.toDouble, sampleEnv]

/-- C7: every map with a structural parse failure is rejected. When the contour description
is missing or empty, when `textureCoords` is non-empty and its length is not the number of
contours or one of its lists has not the length of its contour, when a contour that is not a
CAP token has fewer than 3 entries, or when a CAP token has not exactly 3 elements,
`loadFromQVariant` throws a `std::runtime_error` and returns no region. -/
theorem loadFromQVariant_structural_failure (env : Env K) (map : QVariantMap K)
    (h : StructuralParseFailure env map) :
    ∃ e, SphericalRegion.loadFromQVariant env map = .error (.runtimeError e) := by
  by_cases hne : contoursListOf map = []
  · exact ⟨.missingContours, by simp [SphericalRegion.loadFromQVariant, hne]⟩
  by_cases htex : (map.value "textureCoords").toList = []
  · -- without texture coordinates: some contour is rejected by `loadContour`
    have hbad : ∃ c, c ∈ contoursListOf map ∧ ∃ e, loadContour env c = .error e := by
      rcases h with h | h | h | h | h
      · exact absurd (contoursListOf_eq_nil map h.1 h.2) hne
      · exact absurd htex h.1
      · exact absurd htex h.1
      · obtain ⟨c, hc, hcap, hlen⟩ := h
        exact ⟨c, hc, loadContour_short env c hcap hlen⟩
      · obtain ⟨c, hc, hcap, hlen⟩ := h
        exact ⟨c, hc, loadContour_badCap env c hcap hlen⟩
    obtain ⟨c, hc, e, he⟩ := hbad
    obtain ⟨e', he'⟩ := loadContours_of_mem_error env _ c hc e he
    obtain ⟨pe, rfl⟩ := loadContours_error env _ _ he'
    exact ⟨pe, loadFromQVariant_plain env map hne htex _ he'⟩
  by_cases hlen : (map.value "textureCoords").toList.length = (contoursListOf map).length
  · -- with texture coordinates: some contour is rejected by `loadTexturedContour`
    have hbad : ∃ i, i < (contoursListOf map).length ∧ ∃ e,
        loadTexturedContour env ((contoursListOf map).getD i .invalid)
          ((map.value "textureCoords").toList.getD i .invalid) = .error e := by
      rcases h with h | h | h | h | h
      · exact absurd (contoursListOf_eq_nil map h.1 h.2) hne
      · exact absurd hlen h.2
      · obtain ⟨_, i, hi, hmis⟩ := h
        exact ⟨i, hi, loadTexturedContour_mismatch env _ _ hmis⟩
      · obtain ⟨c, hc, _, hshort⟩ := h
        obtain ⟨i, hi, hget⟩ := mem_getD_index _ c hc
        exact ⟨i, hi, _, by rw [hget]; exact loadTexturedContour_short env c _ hshort⟩
      · obtain ⟨c, hc, hcap, _⟩ := h
        obtain ⟨i, hi, hget⟩ := mem_getD_index _ c hc
        exact ⟨i, hi, by rw [hget]; exact loadTexturedContour_cap env c _ hcap⟩
    obtain ⟨i, hi, e, he⟩ := hbad
    obtain ⟨e', he'⟩ := loadTexturedContours_of_index_error env _ _ i hi e he
    obtain ⟨pe, rfl⟩ := loadTexturedContours_error env _ _ _ he'
    exact ⟨pe, loadFromQVariant_textured env map hne htex hlen _ he'⟩
  · refine ⟨.contourCountMismatch, ?_⟩
    unfold SphericalRegion.loadFromQVariant
    have hlen' : ¬ (contoursListOf map).length = (map.value "textureCoords").toList.length :=
      fun hh => hlen hh.symm
    simp [hne, htex, hlen']

/-- A map whose only contour has 2 vertices. -/
theorem loadFromQVariant_structural_failure_witness :
    StructuralParseFailure sampleEnv
        [("worldCoords", .list [.list [.list [.double 0, .double 0],
          .list [.double 0, .double 90]]])] ∧
      ∃ e, SphericalRegion.loadFromQVariant sampleEnv
        [("worldCoords", .list [.list [.list [.double 0, .double 0],
          .list [.double 0, .double 90]]])] = .error (.runtimeError e) := by
  have hfail : StructuralParseFailure sampleEnv
      [("worldCoords", .list [.list [.list [.double 0, .double 0],
        .list [.double 0, .double 90]]])] := by
    right; right; right; left
    refine ⟨.list [.list [.double 0, .double 0], .list [.double 0, .double 90]], ?_, ?_, ?_⟩
    · simp [contoursListOf, QVariantMap.value, List.lookup, QVariant.toList]
    · rintro ⟨first, rest, hl, hs⟩
      simp only [QVariant.toList, List.cons.injEq] at hl
      obtain ⟨rfl, _⟩ := hl
      simp [QVariant.toString] at hs
    · simp [QVariant.toList]
  exact ⟨hfail, loadFromQVariant_structural_failure sampleEnv _ hfail⟩

end LoaderProofs

/-! ## Properties of the static combinators -/

section CombinatorProofs

variable {K : Type} [LinearOrderedField K]

theorem toSphericalPolygon_tesselate_indep (env : Env K) (reg : SphericalRegion K)
    (f : List (List (Vec3 K)) → List (Vec3 K × Bool))
    (g : List (List (Vec3 K)) → List (List (Vec3 K))) :
    reg.toSphericalPolygon
        { env with
          tesselate := fun rule cs =>
            if rule = .WindingAbsGeqTwo then f cs else env.tesselate rule cs
          tesselateBoundary := g }
      = reg.toSphericalPolygon env := by
  cases reg <;>
    simp [SphericalRegion.toSphericalPolygon, SphericalPolygon.setContour,
      SphericalPolygon.setContours, qAssert, Vec3.length, SphericalCap.toSphericalConvexPolygon]

theorem getIntersection_allSky_right (env : Env K) (reg : SphericalRegion K)
    (h : reg.getType ≠ .AllSky) :
    SphericalRegionP.getIntersection env reg .AllSky
      = (reg.toSphericalPolygon env).map .Polygon := by
  have hA : (SphericalRegion.AllSky : SphericalRegion K).getType = .AllSky := rfl
  unfold SphericalRegionP.getIntersection
  rw [if_neg h, if_pos hA]
  cases reg.toSphericalPolygon env <;> rfl

theorem getIntersection_allSky_left (env : Env K) (reg : SphericalRegion K)
    (h : reg.getType ≠ .AllSky) :
    SphericalRegionP.getIntersection env .AllSky reg
      = (reg.toSphericalPolygon env).map .Polygon := by
  have hA : (SphericalRegion.AllSky : SphericalRegion K).getType = .AllSky := rfl
  unfold SphericalRegionP.getIntersection
  rw [if_pos hA, if_neg h]
  cases reg.toSphericalPolygon env <;> rfl

/-- C1: `getUnion` returns AllSky whenever its second operand is not AllSky, so the union of
any region with the empty region is AllSky and not the polygon of the region; and the union
of a polygon with AllSky is not short-circuited: it converts AllSky to a polygon, which is an
assertion failure in a build with assertions. -/
theorem getUnion_empty_operand_is_allSky (env : Env K) (reg1 : SphericalRegion K) :
    SphericalRegionP.getUnion env reg1 .Empty = .ok .AllSky ∧
      ∀ poly, SphericalRegionP.getUnion { env with assertions := true } (.Polygon poly) .AllSky
        = .error .assertion := by
  constructor
  · simp [SphericalRegionP.getUnion, SphericalRegion.getType]
    rfl
  · intro poly
    simp [SphericalRegionP.getUnion, SphericalRegion.getType, SphericalRegion.toSphericalPolygon,
      qAssert, bind, Except.bind, pure, Except.pure]

/-- C2: AllSky is the identity of `getIntersection`. For a region that is not AllSky, the
intersection with AllSky, on either side, is the polygon `toSphericalPolygon()` of the
region, and it is the same whatever the tesselator does with the rule `WindingAbsGeqTwo` or
in boundary-only mode, the two runs of an intersection; the intersection of AllSky with
AllSky is AllSky. -/
theorem getIntersection_allSky_identity (env : Env K) (reg : SphericalRegion K)
    (h : reg.getType ≠ .AllSky) :
    SphericalRegionP.getIntersection env reg .AllSky
        = (reg.toSphericalPolygon env).map .Polygon ∧
      SphericalRegionP.getIntersection env .AllSky reg
        = (reg.toSphericalPolygon env).map .Polygon ∧
      SphericalRegionP.getIntersection env .AllSky .AllSky = .ok .AllSky ∧
      ∀ (f : List (List (Vec3 K)) → List (Vec3 K × Bool))
        (g : List (List (Vec3 K)) → List (List (Vec3 K))),
        SphericalRegionP.getIntersection
            { env with
              tesselate := fun rule cs =>
                if rule = .WindingAbsGeqTwo then f cs else env.tesselate rule cs
              tesselateBoundary := g } reg .AllSky
          = SphericalRegionP.getIntersection env reg .AllSky ∧
        SphericalRegionP.getIntersection
            { env with
              tesselate := fun rule cs =>
                if rule = .WindingAbsGeqTwo then f cs else env.tesselate rule cs
              tesselateBoundary := g } .AllSky reg
          = SphericalRegionP.getIntersection env .AllSky reg := by
  refine ⟨getIntersection_allSky_right env reg h, getIntersection_allSky_left env reg h, rfl,
    fun f g => ⟨?_, ?_⟩⟩
  · rw [getIntersection_allSky_right _ reg h, getIntersection_allSky_right env reg h,
      toSphericalPolygon_tesselate_indep]
  · rw [getIntersection_allSky_left _ reg h, getIntersection_allSky_left env reg h,
      toSphericalPolygon_tesselate_indep]

/-- The intersection of a point with AllSky in the sample environment. -/
theorem getIntersection_allSky_identity_witness :
    (SphericalRegion.Point (⟨1, 0, 0⟩ : Vec3 ℚ)).getType ≠ .AllSky ∧
      SphericalRegionP.getIntersection sampleEnv (.Point ⟨1, 0, 0⟩) .AllSky
        = ((SphericalRegion.Point ⟨1, 0, 0⟩).toSphericalPolygon sampleEnv).map .Polygon :=
  ⟨by decide, (getIntersection_allSky_identity sampleEnv (.Point ⟨1, 0, 0⟩) (by decide)).1⟩

/-- The only way `setContours` ends abnormally is a failed assertion. -/
theorem setContours_error (env : Env K) (contours : List (List (Vec3 K)))
    (rule : PolyWindingRule) (e : Fault)
    (h : SphericalPolygon.setContours env contours rule = .error e) : e = .assertion := by
  unfold SphericalPolygon.setContours at h
  simp only [bind, Except.bind] at h
  rcases qAssert_cases env ((env.tesselate rule contours).all
      (fun cb => decide (|Vec3.length env cb.1 - 1| < 1 / 1000000))) with h1 | h1 <;>
    rw [h1] at h <;> simp only at h
  swap
  · cases h; rfl
  rcases qAssert_cases env ((List.map Prod.fst (env.tesselate rule contours)).length ==
      (List.map Prod.snd (env.tesselate rule contours)).length) with h2 | h2 <;>
    rw [h2] at h <;> simp only at h
  swap
  · cases h; rfl
  rcases qAssert_cases env ((List.map Prod.fst (env.tesselate rule contours)).length % 3 == 0)
    with h3 | h3 <;> rw [h3] at h <;> simp only at h
  swap
  · cases h; rfl
  rcases qAssert_cases env ((List.map Prod.fst (env.tesselate rule contours)).all isNormalized)
    with h4 | h4 <;> simp only [h4] at h <;> split_ifs at h <;>
    first
      | (cases h; rfl)
      | cases h

theorem toSphericalPolygon_error (env : Env K) (reg : SphericalRegion K) (e : Fault)
    (h : reg.toSphericalPolygon env = .error e) : e = .assertion := by
  cases reg with
  | Empty => cases h
  | Point n => exact setContours_error env _ _ e h
  | Cap cap => exact setContours_error env _ _ e h
  | Polygon poly => cases h
  | TexturedPolygon poly t => cases h
  | ConvexPolygon contour => exact setContours_error env _ _ e h
  | AllSky =>
    simp only [SphericalRegion.toSphericalPolygon, bind, Except.bind] at h
    rcases qAssert_cases env false with h1 | h1 <;> rw [h1] at h
    · cases h
    · cases h; rfl

theorem getSubtraction_allSky_left (env : Env K) (reg2 : SphericalRegion K) :
    SphericalRegionP.getSubtraction { env with assertions := true } .AllSky reg2
      = .error .assertion := by
  simp [SphericalRegionP.getSubtraction, SphericalRegion.toSphericalPolygon,
      qAssert, bind, Except.bind]

theorem getSubtraction_allSky_right (env : Env K) (reg1 : SphericalRegion K) :
    SphericalRegionP.getSubtraction { env with assertions := true } reg1 .AllSky
      = .error .assertion := by
  unfold SphericalRegionP.getSubtraction
  simp only [bind, Except.bind]
  cases h1 : reg1.toSphericalPolygon { env with assertions := true } with
  | error e =>
    rw [toSphericalPolygon_error _ reg1 e h1]
  | ok p1 =>
    simp [SphericalRegion.toSphericalPolygon, qAssert, bind, Except.bind]

/-- C3: `getSubtraction` has no special case for AllSky. With AllSky as either operand it
calls `AllSkySphericalRegion::toSphericalPolygon()`, whose body is `Q_ASSERT(0)`: in a build
with assertions the subtraction of any region from AllSky, and of AllSky from any region,
ends on an assertion failure and returns no region. -/
theorem getSubtraction_allSky_reaches_assertion (env : Env K) (reg : SphericalRegion K) :
    SphericalRegionP.getSubtraction { env with assertions := true } .AllSky reg
        = .error .assertion ∧
      SphericalRegionP.getSubtraction { env with assertions := true } reg .AllSky
        = .error .assertion :=
  ⟨getSubtraction_allSky_left env reg, getSubtraction_allSky_right env reg⟩

end CombinatorProofs

/-! ## Properties of `getEnlarged` -/

section EnlargeProofs

/-- C11: with the real `pi`, `cos` and `acos`, for a bounding cap `(n, d)` with `d` in
`[-1, 1]` and a margin `>= 0`, `getEnlarged(margin)` is the AllSky region exactly when
`acos(d) + margin >= pi`, in particular whenever `margin >= pi`; otherwise it is the cap of
axis `n` and `d' = cos(acos(d) + margin)`, whose angular radius `acos(d')` is
`acos(d) + margin`. -/
theorem getEnlarged_allSky_iff (env : Env ℝ) (cap : SphericalCap ℝ) (margin : ℝ)
    (_hd1 : -1 ≤ cap.d) (_hd2 : cap.d ≤ 1) (hm : 0 ≤ margin) :
    (SphericalRegion.getEnlarged
          { env with pi := Real.pi, cos := Real.cos, acos := Real.arccos } cap margin
        = .ok .AllSky ↔ Real.pi ≤ Real.arccos cap.d + margin) ∧
      (Real.pi ≤ margin →
        SphericalRegion.getEnlarged
          { env with pi := Real.pi, cos := Real.cos, acos := Real.arccos } cap margin
        = .ok .AllSky) ∧
      (Real.arccos cap.d + margin < Real.pi →
        SphericalRegion.getEnlarged
            { env with pi := Real.pi, cos := Real.cos, acos := Real.arccos } cap margin
          = .ok (.Cap ⟨cap.n, Real.cos (Real.arccos cap.d + margin)⟩) ∧
        Real.arccos (Real.cos (Real.arccos cap.d + margin)) = Real.arccos cap.d + margin) := by
  have hacos := Real.arccos_nonneg cap.d
  have hq : ∀ e : Env ℝ, qAssert e (decide (margin ≥ 0)) = .ok () := by
    intro e
    simp [qAssert, hm]
  refine ⟨?_, ?_, ?_⟩
  · unfold SphericalRegion.getEnlarged
    simp only [hq, bind, Except.bind]
    by_cases h1 : margin ≥ Real.pi
    · rw [if_pos h1]
      exact ⟨fun _ => (by linarith), fun _ => rfl⟩
    · rw [if_neg h1]
      by_cases h2 : Real.arccos cap.d + margin ≥ Real.pi
      · rw [if_pos h2]
        exact ⟨fun _ => h2, fun _ => rfl⟩
      · rw [if_neg h2]
        exact ⟨fun h => (by cases h), fun h => absurd h h2⟩
  · intro h1
    unfold SphericalRegion.getEnlarged
    simp only [hq, bind, Except.bind]
    have h1' : margin ≥ Real.pi := h1
    simp only [h1', if_true]
    rfl
  · intro h
    have h1 : ¬ margin ≥ Real.pi := by
      intro hge
      have : Real.pi ≤ margin := hge
      linarith
    have h2 : ¬ Real.arccos cap.d + margin ≥ Real.pi := not_le.mpr h
    constructor
    · unfold SphericalRegion.getEnlarged
      simp only [hq, bind, Except.bind, h1, h2, if_false]
      rfl
    · exact Real.arccos_cos (by linarith) (le_of_lt h)

/-- The cap of axis `(1,0,0)` with `d = 0`, a hemisphere, enlarged by 1 radian. -/
theorem getEnlarged_allSky_iff_witness :
    (-1 ≤ (0 : ℝ) ∧ (0 : ℝ) ≤ 1 ∧ (0 : ℝ) ≤ 1) ∧
      SphericalRegion.getEnlarged
          { mathEnv Real.pi Real.cos Real.sin Real.arccos Real.sqrt with
            pi := Real.pi, cos := Real.cos, acos := Real.arccos } ⟨⟨1, 0, 0⟩, 0⟩ 1
        = .ok (.Cap ⟨⟨1, 0, 0⟩, Real.cos (Real.arccos 0 + 1)⟩) :=
  ⟨⟨by norm_num, by norm_num, by norm_num⟩,
    ((getEnlarged_allSky_iff (mathEnv Real.pi Real.cos Real.sin Real.arccos Real.sqrt)
      ⟨⟨1, 0, 0⟩, 0⟩ 1 (by norm_num) (by norm_num) (by norm_num)).2.2
        (by rw [Real.arccos_zero]; linarith [Real.pi_gt_three])).1⟩

end EnlargeProofs

/-! ## Properties of the contour of a cap -/

section IterationLemmas

variable {K : Type}

theorem foldl_rotate_eq (f : Vec3 K → Vec3 K) (n : Nat) (acc : List (Vec3 K)) (p : Vec3 K) :
    (List.range n).foldl
        (fun (st : List (Vec3 K) × Vec3 K) _ => (st.1 ++ [st.2], f st.2)) (acc, p)
      = (acc ++ (List.range n).map (fun i => f^[i] p), f^[n] p) := by
  induction n with
  | zero => simp
  | succ n ih =>
    rw [List.range_succ, List.foldl_append, ih]
    simp [Function.iterate_succ_apply']

end IterationLemmas

section CapPolygonProofs

variable {K : Type} [LinearOrderedField K]

/-- The contour of a cap is the list of the first 40 iterates of the rotation about its
axis, from the point `p0` got by turning the axis by `acos(d)`. -/
theorem toSphericalConvexPolygon_eq (env : Env K) (cap : SphericalCap K) :
    SphericalCap.toSphericalConvexPolygon env cap
      = (List.range 40).map (fun i =>
          (env.rotate cap.n (-2 * env.pi / 40))^[i]
            (env.rotate
              (if Vec3.lengthSquared (cap.n.cross ⟨1, 0, 0⟩) < 1 / 10
                then cap.n.cross ⟨0, 1, 0⟩ else cap.n.cross ⟨1, 0, 0⟩)
              (env.acos cap.d) cap.n)) := by
  unfold SphericalCap.toSphericalConvexPolygon
  simp only [foldl_rotate_eq, List.nil_append]

/-- The axis of the first rotation is not the null vector. -/
theorem capAxis_lengthSquared_pos (n : Vec3 K) (hn : Vec3.lengthSquared n = 1) :
    0 < Vec3.lengthSquared
      (if Vec3.lengthSquared (n.cross ⟨1, 0, 0⟩) < 1 / 10
        then n.cross ⟨0, 1, 0⟩ else n.cross ⟨1, 0, 0⟩) := by
  by_cases h : Vec3.lengthSquared (n.cross ⟨1, 0, 0⟩) < 1 / 10
  · rw [if_pos h]
    dsimp only [Vec3.lengthSquared, Vec3.cross] at h hn ⊢
    nlinarith [mul_self_nonneg n.x, mul_self_nonneg n.y, mul_self_nonneg n.z]
  · rw [if_neg h]
    have h' := not_lt.mp h
    have : (0 : K) < 1 / 10 := by norm_num
    linarith

theorem vAt_map_range (g : Nat → Vec3 K) (n i : Nat) (h : i < n) :
    vAt ((List.range n).map g) i = g i := by
  unfold vAt
  rw [List.getD_eq_getElem?_getD, List.getElem?_map, List.getElem?_range h]
  rfl

theorem capAxis_dot (n : Vec3 K) :
    n.dot (if Vec3.lengthSquared (n.cross ⟨1, 0, 0⟩) < 1 / 10
        then n.cross ⟨0, 1, 0⟩ else n.cross ⟨1, 0, 0⟩) = 0 := by
  split_ifs <;> (simp only [Vec3.dot, Vec3.cross]; ring)

/-- C12: for a cap of unit axis `n`, with `cos(acos(d)) = d` (which holds for `d` in
`[-1, 1]`) and a rotation that keeps the norm, keeps the component along its axis and turns
a vector perpendicular to its axis by the given angle, `toSphericalConvexPolygon()` returns a
contour of exactly 40 vertices, each a unit vector with `v . n = d`, and each vertex is the
previous one turned about `n` by the step `-2*pi/40` of the source. -/
theorem toSphericalConvexPolygon_on_boundary (env : Env K) (cap : SphericalCap K)
    (hn : Vec3.lengthSquared cap.n = 1)
    (hd : env.cos (env.acos cap.d) = cap.d)
    (hlen : ∀ a θ v, 0 < Vec3.lengthSquared a →
      Vec3.lengthSquared (env.rotate a θ v) = Vec3.lengthSquared v)
    (haxis : ∀ a θ v, 0 < Vec3.lengthSquared a → (env.rotate a θ v).dot a = v.dot a)
    (hangle : ∀ a θ v, 0 < Vec3.lengthSquared a → v.dot a = 0 →
      (env.rotate a θ v).dot v = env.cos θ * Vec3.lengthSquared v) :
    (SphericalCap.toSphericalConvexPolygon env cap).length = 40 ∧
      (∀ v, v ∈ SphericalCap.toSphericalConvexPolygon env cap →
        Vec3.lengthSquared v = 1 ∧ v.dot cap.n = cap.d) ∧
      (∀ i, i + 1 < 40 →
        vAt (SphericalCap.toSphericalConvexPolygon env cap) (i + 1)
          = env.rotate cap.n (-2 * env.pi / 40)
            (vAt (SphericalCap.toSphericalConvexPolygon env cap) i)) := by
  rw [toSphericalConvexPolygon_eq]
  have hnpos : 0 < Vec3.lengthSquared cap.n := by rw [hn]; exact one_pos
  -- the first point is on the boundary circle
  have hp0 := capAxis_lengthSquared_pos cap.n hn
  have hp0dot := capAxis_dot cap.n
  generalize (if Vec3.lengthSquared (cap.n.cross ⟨1, 0, 0⟩) < 1 / 10
    then cap.n.cross ⟨0, 1, 0⟩ else cap.n.cross ⟨1, 0, 0⟩) = axis at hp0 hp0dot
  have h0 : Vec3.lengthSquared (env.rotate axis (env.acos cap.d) cap.n) = 1 ∧
      (env.rotate axis (env.acos cap.d) cap.n).dot cap.n = cap.d := by
    refine ⟨by rw [hlen _ _ _ hp0, hn], ?_⟩
    rw [hangle _ _ _ hp0 hp0dot, hd, hn, mul_one]
  -- and so are its iterates
  have hiter : ∀ i : Nat,
      Vec3.lengthSquared ((env.rotate cap.n (-2 * env.pi / 40))^[i]
          (env.rotate axis (env.acos cap.d) cap.n)) = 1 ∧
        ((env.rotate cap.n (-2 * env.pi / 40))^[i]
          (env.rotate axis (env.acos cap.d) cap.n)).dot cap.n = cap.d := by
    intro i
    induction i with
    | zero => simpa using h0
    | succ i ih =>
      rw [Function.iterate_succ_apply']
      exact ⟨by rw [hlen _ _ _ hnpos, ih.1], by rw [haxis _ _ _ hnpos, ih.2]⟩
  refine ⟨by rw [List.length_map, List.length_range], ?_, ?_⟩
  · intro v hv
    obtain ⟨i, _, rfl⟩ := List.mem_map.mp hv
    exact hiter i
  · intro i hi
    have hi' : i < 40 := by omega
    rw [vAt_map_range _ _ _ hi, vAt_map_range _ _ _ hi', Function.iterate_succ_apply']
end CapPolygonProofs

section RodriguesProofs

variable {K : Type} [LinearOrderedField K]

/-- The direction of a vector that is not null is a unit vector. -/
theorem direction_unit (sqrt : K → K)
    (hsqrt : ∀ x, 0 < x → 0 < sqrt x ∧ sqrt x * sqrt x = x)
    (a : Vec3 K) (ha : 0 < Vec3.lengthSquared a) :
    a.x / sqrt (Vec3.lengthSquared a) * (a.x / sqrt (Vec3.lengthSquared a))
      + a.y / sqrt (Vec3.lengthSquared a) * (a.y / sqrt (Vec3.lengthSquared a))
      + a.z / sqrt (Vec3.lengthSquared a) * (a.z / sqrt (Vec3.lengthSquared a)) = 1 := by
  obtain ⟨hpos, hsq⟩ := hsqrt _ ha
  have hne : sqrt (Vec3.lengthSquared a) ≠ 0 := ne_of_gt hpos
  have hL : a.x * a.x + a.y * a.y + a.z * a.z
      = sqrt (Vec3.lengthSquared a) * sqrt (Vec3.lengthSquared a) := by
    rw [hsq]; rfl
  field_simp
  linarith

theorem rodrigues_lengthSquared (cos sin sqrt : K → K)
    (hcs : ∀ θ, cos θ * cos θ + sin θ * sin θ = 1)
    (hsqrt : ∀ x, 0 < x → 0 < sqrt x ∧ sqrt x * sqrt x = x)
    (a : Vec3 K) (θ : K) (v : Vec3 K) (ha : 0 < Vec3.lengthSquared a) :
    Vec3.lengthSquared (rodrigues cos sin sqrt a θ v) = Vec3.lengthSquared v := by
  have hu := direction_unit sqrt hsqrt a ha
  have hθ := hcs θ
  simp only [rodrigues, Vec3.lengthSquared] at hu ⊢
  generalize a.x / sqrt (a.x * a.x + a.y * a.y + a.z * a.z) = ux at hu ⊢
  generalize a.y / sqrt (a.x * a.x + a.y * a.y + a.z * a.z) = uy at hu ⊢
  generalize a.z / sqrt (a.x * a.x + a.y * a.y + a.z * a.z) = uz at hu ⊢
  generalize cos θ = c at hθ ⊢
  generalize sin θ = s at hθ ⊢
  linear_combination
    (v.x * v.x + v.y * v.y + v.z * v.z - (ux * v.x + uy * v.y + uz * v.z) ^ 2) * hθ
      + (s ^ 2 * (v.x * v.x + v.y * v.y + v.z * v.z)
          + (1 - c) ^ 2 * (ux * v.x + uy * v.y + uz * v.z) ^ 2) * hu

theorem rodrigues_dot_axis (cos sin sqrt : K → K)
    (hsqrt : ∀ x, 0 < x → 0 < sqrt x ∧ sqrt x * sqrt x = x)
    (a : Vec3 K) (θ : K) (v : Vec3 K) (ha : 0 < Vec3.lengthSquared a) :
    (rodrigues cos sin sqrt a θ v).dot a = v.dot a := by
  have hu := direction_unit sqrt hsqrt a ha
  obtain ⟨hpos, _⟩ := hsqrt _ ha
  have hne : sqrt (Vec3.lengthSquared a) ≠ 0 := ne_of_gt hpos
  have hx : a.x = a.x / sqrt (Vec3.lengthSquared a) * sqrt (Vec3.lengthSquared a) := by
    field_simp
  have hy : a.y = a.y / sqrt (Vec3.lengthSquared a) * sqrt (Vec3.lengthSquared a) := by
    field_simp
  have hz : a.z = a.z / sqrt (Vec3.lengthSquared a) * sqrt (Vec3.lengthSquared a) := by
    field_simp
  simp only [rodrigues, Vec3.dot]
  generalize a.x / sqrt (Vec3.lengthSquared a) = ux at hu hx ⊢
  generalize a.y / sqrt (Vec3.lengthSquared a) = uy at hu hy ⊢
  generalize a.z / sqrt (Vec3.lengthSquared a) = uz at hu hz ⊢
  generalize sqrt (Vec3.lengthSquared a) = len at hx hy hz
  rw [hx, hy, hz]
  linear_combination
    ((1 - cos θ) * (ux * v.x + uy * v.y + uz * v.z) * len) * hu

theorem rodrigues_dot_self (cos sin sqrt : K → K)
    (hsqrt : ∀ x, 0 < x → 0 < sqrt x ∧ sqrt x * sqrt x = x)
    (a : Vec3 K) (θ : K) (v : Vec3 K) (ha : 0 < Vec3.lengthSquared a)
    (hv : v.dot a = 0) :
    (rodrigues cos sin sqrt a θ v).dot v = cos θ * Vec3.lengthSquared v := by
  obtain ⟨hpos, _⟩ := hsqrt _ ha
  have hne : sqrt (Vec3.lengthSquared a) ≠ 0 := ne_of_gt hpos
  have hvu : a.x / sqrt (Vec3.lengthSquared a) * v.x + a.y / sqrt (Vec3.lengthSquared a) * v.y
      + a.z / sqrt (Vec3.lengthSquared a) * v.z = 0 := by
    simp only [Vec3.dot] at hv
    field_simp
    linarith
  simp only [rodrigues, Vec3.dot, Vec3.lengthSquared] at hvu ⊢
  generalize a.x / sqrt (a.x * a.x + a.y * a.y + a.z * a.z) = ux at hvu ⊢
  generalize a.y / sqrt (a.x * a.x + a.y * a.y + a.z * a.z) = uy at hvu ⊢
  generalize a.z / sqrt (a.x * a.x + a.y * a.y + a.z * a.z) = uz at hvu ⊢
  linear_combination
    ((1 - cos θ) * (ux * v.x + uy * v.y + uz * v.z)) * hvu

end RodriguesProofs

section CapPolygonWitness

theorem real_cos_sin (θ : ℝ) : Real.cos θ * Real.cos θ + Real.sin θ * Real.sin θ = 1 := by
  rw [← sq, ← sq]
  exact Real.cos_sq_add_sin_sq θ

theorem real_sqrt_pos (x : ℝ) (hx : 0 < x) : 0 < Real.sqrt x ∧ Real.sqrt x * Real.sqrt x = x :=
  ⟨Real.sqrt_pos.mpr hx, Real.mul_self_sqrt hx.le⟩

/-- The hemisphere of axis `(0,0,1)` over the reals, with the rotation `rodrigues`. -/
theorem toSphericalConvexPolygon_on_boundary_witness :
    (Vec3.lengthSquared (⟨0, 0, 1⟩ : Vec3 ℝ) = 1 ∧ Real.cos (Real.arccos 0) = 0) ∧
      (SphericalCap.toSphericalConvexPolygon
          (mathEnv Real.pi Real.cos Real.sin Real.arccos Real.sqrt) ⟨⟨0, 0, 1⟩, 0⟩).length = 40 ∧
      (∀ v, v ∈ SphericalCap.toSphericalConvexPolygon
          (mathEnv Real.pi Real.cos Real.sin Real.arccos Real.sqrt) ⟨⟨0, 0, 1⟩, 0⟩ →
        Vec3.lengthSquared v = 1 ∧ v.dot ⟨0, 0, 1⟩ = 0) ∧
      (∀ i, i + 1 < 40 →
        vAt (SphericalCap.toSphericalConvexPolygon
            (mathEnv Real.pi Real.cos Real.sin Real.arccos Real.sqrt) ⟨⟨0, 0, 1⟩, 0⟩) (i + 1)
          = rodrigues Real.cos Real.sin Real.sqrt ⟨0, 0, 1⟩ (-2 * Real.pi / 40)
            (vAt (SphericalCap.toSphericalConvexPolygon
              (mathEnv Real.pi Real.cos Real.sin Real.arccos Real.sqrt) ⟨⟨0, 0, 1⟩, 0⟩) i)) :=
  ⟨⟨by norm_num [Vec3.lengthSquared], Real.cos_arccos (by norm_num) (by norm_num)⟩,
    toSphericalConvexPolygon_on_boundary
      (mathEnv Real.pi Real.cos Real.sin Real.arccos Real.sqrt) ⟨⟨0, 0, 1⟩, 0⟩
      (by norm_num [Vec3.lengthSquared])
      (Real.cos_arccos (by norm_num) (by norm_num))
      (fun a θ v ha => rodrigues_lengthSquared Real.cos Real.sin Real.sqrt
        real_cos_sin real_sqrt_pos a θ v ha)
      (fun a θ v ha => rodrigues_dot_axis Real.cos Real.sin Real.sqrt real_sqrt_pos a θ v ha)
      (fun a θ v ha hv =>
        rodrigues_dot_self Real.cos Real.sin Real.sqrt real_sqrt_pos a θ v ha hv)⟩

end CapPolygonWitness

/-! ## The bounding cap of a mesh -/

section BoundingCapProofs

/-- C13: the cap returned by `getBoundingCap()` does not always enclose the mesh. For the
triangle `(3/5, 4/5, 0), (3/5, -4/5, 0), (0, 0, 1)` the most distant pair is the first two
vertices, the cap is `n = (1, 0, 0)`, `d = 3/5`, and the third vertex has `v . n = 0 < d`:
it is outside the cap. -/
theorem getBoundingCap_misses_vertex :
    SphericalPolygon.getBoundingCap
        { sampleEnv with sqrt := fun x => if x = 36 / 25 then 6 / 5 else x }
        ⟨[⟨3 / 5, 4 / 5, 0⟩, ⟨3 / 5, -4 / 5, 0⟩, ⟨0, 0, 1⟩], [true, true, true]⟩
      = ⟨⟨1, 0, 0⟩, 3 / 5⟩ ∧
    (⟨0, 0, 1⟩ : Vec3 ℚ).dot ⟨1, 0, 0⟩ < 3 / 5 ∧
    SphericalCap.contains ⟨⟨1, 0, 0⟩, 3 / 5⟩ (⟨0, 0, 1⟩ : Vec3 ℚ) = false := by
  refine ⟨?_, ?_, ?_⟩
  · norm_num [SphericalPolygon.getBoundingCap, boundingCapStep, Vec3.dot, Vec3.add,
      Vec3.normalize, Vec3.length]
  · norm_num [Vec3.dot]
  · norm_num [SphericalCap.contains, Vec3.dot]

end BoundingCapProofs

/-! ## `intersects` and `getIntersection` of polygons -/

section IntersectsProofs

variable {K : Type} [LinearOrderedField K]

theorem getIntersection_of_caps_apart (env : Env K) (a b : SphericalPolygon K)
    (h : SphericalCap.intersects env (a.getBoundingCap env) (b.getBoundingCap env) = false) :
    a.getIntersection env b = .ok SphericalPolygon.empty := by
  unfold SphericalPolygon.getIntersection
  simp [h]
  rfl

theorem intersects_eq_map (env : Env K) (a b : SphericalPolygon K) :
    a.intersects env b
      = (a.getIntersection env b).map (fun r => !r.triangleVertices.isEmpty) := by
  unfold SphericalPolygon.intersects
  by_cases h : SphericalCap.intersects env (a.getBoundingCap env) (b.getBoundingCap env) = true
  · simp only [h, Bool.not_true, Bool.false_eq_true, if_false]
    cases a.getIntersection env b <;> rfl
  · have h' : SphericalCap.intersects env (a.getBoundingCap env) (b.getBoundingCap env)
        = false := by simpa using h
    rw [getIntersection_of_caps_apart env a b h']
    simp [h', SphericalPolygon.empty]
    rfl

/-- C14: `intersects` agrees with `getIntersection`. `a.intersects(b)` is true exactly when
`a.getIntersection(b)` returns a polygon with a non-empty triangle mesh; and when the
bounding caps of `a` and `b` do not intersect, `intersects` returns false and
`getIntersection` returns the empty polygon whatever the tesselator is, in triangle mode and
in boundary-only mode. -/
theorem intersects_agrees_with_getIntersection (env : Env K) (a b : SphericalPolygon K) :
    (a.intersects env b = .ok true ↔
        ∃ r, a.getIntersection env b = .ok r ∧ r.triangleVertices ≠ []) ∧
      a.intersects env b
        = (a.getIntersection env b).map (fun r => !r.triangleVertices.isEmpty) ∧
      (SphericalCap.intersects env (a.getBoundingCap env) (b.getBoundingCap env) = false →
        a.intersects env b = .ok false ∧
        ∀ (f : PolyWindingRule → List (List (Vec3 K)) → List (Vec3 K × Bool))
          (g : List (List (Vec3 K)) → List (List (Vec3 K))),
          a.getIntersection { env with tesselate := f, tesselateBoundary := g } b
            = .ok SphericalPolygon.empty) := by
  refine ⟨?_, intersects_eq_map env a b, ?_⟩
  · rw [intersects_eq_map]
    cases a.getIntersection env b with
    | error e => simp [Except.map]
    | ok r =>
      simp only [Except.map, Except.ok.injEq, Bool.not_eq_true', List.isEmpty_eq_false,
        exists_eq_left']
  · intro h
    refine ⟨?_, fun f g => ?_⟩
    · rw [intersects_eq_map, getIntersection_of_caps_apart env a b h]
      rfl
    · exact getIntersection_of_caps_apart _ a b h

end IntersectsProofs

/-! ## The cache flag of `OctahedronContour` -/

section OctahedronProofs

theorem foldl_set_length {α β : Type} (g : List α → β → List α)
    (hg : ∀ s b, (g s b).length = s.length) (bs : List β) (s : List α) :
    (bs.foldl g s).length = s.length := by
  induction bs generalizing s with
  | nil => rfl
  | cons b bs ih => rw [List.foldl_cons, ih, hg]

variable {K : Type}

/-- With 8 faces on both sides `append` succeeds, keeps 8 faces and clears the flag. -/
theorem append_ok (env : Env K) (self other : OctahedronContour K)
    (hs : self.sides.length = 8) (ho : other.sides.length = 8) :
    ∃ r, self.append env other = .ok r ∧ r.sides.length = 8 ∧ r.tesselated = false := by
  unfold OctahedronContour.append
  have hq : qAssert env (self.sides.length == 8 && other.sides.length == 8) = .ok () := by
    simp [qAssert, hs, ho]
  simp only [hq, bind, Except.bind, pure, Except.pure]
  refine ⟨_, rfl, ?_, rfl⟩
  rw [foldl_set_length _ (fun s b => by simp), hs]

/-- With 8 faces on both sides `appendReversed` succeeds, keeps 8 faces and clears the flag. -/
theorem appendReversed_ok (env : Env K) (self other : OctahedronContour K)
    (hs : self.sides.length = 8) (ho : other.sides.length = 8) :
    ∃ r, self.appendReversed env other = .ok r ∧ r.sides.length = 8 ∧
      r.tesselated = false := by
  unfold OctahedronContour.appendReversed
  have hq : qAssert env (self.sides.length == 8 && other.sides.length == 8) = .ok () := by
    simp [qAssert, hs, ho]
  simp only [hq, bind, Except.bind, pure, Except.pure]
  refine ⟨_, rfl, ?_, rfl⟩
  rw [foldl_set_length _ (fun s b => foldl_set_length _ (fun s' b' => by simp) _ _), hs]

/-- Function `tesselate` keeps the number of faces. -/
theorem tesselate_sides_length (env : Env K) (self : OctahedronContour K)
    (rule : TessWindingRule) :
    (self.tesselate env rule).sides.length = self.sides.length := by
  unfold OctahedronContour.tesselate
  exact foldl_set_length _ (fun s b => by simp) _ _

/-- Function `tesselate` sets the flag. -/
theorem tesselate_tesselated (env : Env K) (self : OctahedronContour K)
    (rule : TessWindingRule) : (self.tesselate env rule).tesselated = true := rfl

/-- The guarded call `if (!tesselated) tesselate(WindingPositive)` leaves 8 faces and the flag set. -/
theorem ensureTesselated (env : Env K) (self : OctahedronContour K)
    (hs : self.sides.length = 8) :
    (if (!self.tesselated) = true then self.tesselate env .WindingPositive else self).sides.length
        = 8 ∧
      (if (!self.tesselated) = true then self.tesselate env .WindingPositive
        else self).tesselated = true := by
  cases h : self.tesselated
  · simp [tesselate_sides_length, hs, tesselate_tesselated]
  · simp [hs, h]


theorem inPlaceIntersection_ok (env : Env K) (self mpoly : OctahedronContour K)
    (hs : self.sides.length = 8) (hm : mpoly.sides.length = 8) :
    ∃ r m, self.inPlaceIntersection env mpoly = .ok (r, m) ∧
      r.tesselated = true ∧ m.tesselated = true ∧
      r.sides.length = 8 ∧ m.sides.length = 8 := by
  unfold OctahedronContour.inPlaceIntersection
  obtain ⟨hs1, _⟩ := ensureTesselated env self hs
  obtain ⟨hm1, hm2⟩ := ensureTesselated env mpoly hm
  obtain ⟨r, hr, hrl, _⟩ := append_ok env _ _ hs1 hm1
  simp only [bind, Except.bind, hr, pure, Except.pure]
  exact ⟨_, _, rfl, rfl, hm2, by rw [tesselate_sides_length, hrl], hm1⟩

theorem inPlaceSubtraction_ok (env : Env K) (self mpoly : OctahedronContour K)
    (hs : self.sides.length = 8) (hm : mpoly.sides.length = 8) :
    ∃ r m, self.inPlaceSubtraction env mpoly = .ok (r, m) ∧
      r.tesselated = true ∧ m.tesselated = true ∧
      r.sides.length = 8 ∧ m.sides.length = 8 := by
  unfold OctahedronContour.inPlaceSubtraction
  obtain ⟨hs1, _⟩ := ensureTesselated env self hs
  obtain ⟨hm1, hm2⟩ := ensureTesselated env mpoly hm
  obtain ⟨r, hr, hrl, _⟩ := appendReversed_ok env _ _ hs1 hm1
  simp only [bind, Except.bind, hr, pure, Except.pure]
  exact ⟨_, _, rfl, rfl, hm2, by rw [tesselate_sides_length, hrl], hm1⟩

theorem step_ok (env : Env K) (self : OctahedronContour K) (op : OctOp K)
    (hs : self.sides.length = 8) (hop : op.operandHasEightSides) :
    ∃ r, self.step env op = .ok r ∧ r.sides.length = 8 ∧ r.tesselated = op.tesselates := by
  cases op with
  | append other => exact append_ok env self other hs hop
  | appendReversed other => exact appendReversed_ok env self other hs hop
  | tesselate rule =>
    exact ⟨_, rfl, by rw [tesselate_sides_length, hs], rfl⟩
  | inPlaceIntersection mpoly =>
    obtain ⟨r, m, h, hr, _, hrl, _⟩ := inPlaceIntersection_ok env self mpoly hs hop
    exact ⟨r, by simp [OctahedronContour.step, h, bind, Except.bind, pure, Except.pure],
      hrl, hr⟩
  | inPlaceUnion mpoly => exact append_ok env self mpoly hs hop
  | inPlaceSubtraction mpoly =>
    obtain ⟨r, m, h, hr, _, hrl, _⟩ := inPlaceSubtraction_ok env self mpoly hs hop
    exact ⟨r, by simp [OctahedronContour.step, h, bind, Except.bind, pure, Except.pure],
      hrl, hr⟩

/-- The flag after a sequence of operations is the one written by the last operation. -/
theorem run_ok (env : Env K) (ops : List (OctOp K)) (self : OctahedronContour K)
    (hs : self.sides.length = 8) (hops : ∀ op, op ∈ ops → op.operandHasEightSides) :
    ∃ r, self.run env ops = .ok r ∧ r.sides.length = 8 ∧
      r.tesselated = (match ops.getLast? with
        | none => self.tesselated
        | some op => op.tesselates) := by
  induction ops generalizing self with
  | nil => exact ⟨self, rfl, hs, rfl⟩
  | cons op ops ih =>
    obtain ⟨s1, h1, hl1, ht1⟩ := step_ok env self op hs (hops op (List.mem_cons_self _ _))
    obtain ⟨r, hr, hrl, hrt⟩ := ih s1 hl1 (fun o ho => hops o (List.mem_cons_of_mem _ ho))
    refine ⟨r, ?_, hrl, ?_⟩
    · simp only [OctahedronContour.run, h1, bind, Except.bind]
      exact hr
    · rw [hrt]
      cases ops with
      | nil => simpa using ht1
      | cons o os =>
        have hx : (o :: os).getLast? = some ((o :: os).getLast (List.cons_ne_nil _ _)) :=
          List.getLast?_eq_getLast _ _
        rw [List.getLast?_cons_cons, hx]

/-- C15: the cache state machine of `OctahedronContour`. On a contour with 8 faces, and
operands with 8 faces, every sequence of operations runs to its end, keeps 8 faces, and
leaves the flag `tesselated` written by its last operation; from a contour that is not
tesselated, the flag is true exactly when some tesselating operation of the sequence is
followed by no `append`, `appendReversed` or `inPlaceUnion`. `append`, `appendReversed` and
`inPlaceUnion` leave the receiver with `tesselated = false`, `tesselate` leaves it true,
`inPlaceIntersection` and `inPlaceSubtraction` leave the receiver and the operand with
`tesselated = true`, all with 8 faces. -/
theorem octahedronContour_cache_flag (env : Env K) (self : OctahedronContour K)
    (ops : List (OctOp K)) (hself : self.sides.length = 8)
    (hops : ∀ op, op ∈ ops → op.operandHasEightSides) :
    (∃ r, self.run env ops = .ok r ∧ r.sides.length = 8 ∧
      r.tesselated = (match ops.getLast? with
        | none => self.tesselated
        | some op => op.tesselates) ∧
      (self.tesselated = false →
        (r.tesselated = true ↔
          ∃ pre t post, ops = pre ++ t :: post ∧ t.tesselates = true ∧
            ∀ o, o ∈ post → o.tesselates = true))) ∧
    (∀ other, other.sides.length = 8 →
      (∃ r, self.append env other = .ok r ∧ r.sides.length = 8 ∧ r.tesselated = false) ∧
      (∃ r, self.appendReversed env other = .ok r ∧ r.sides.length = 8 ∧
        r.tesselated = false) ∧
      (∃ r, self.inPlaceUnion env other = .ok r ∧ r.sides.length = 8 ∧
        r.tesselated = false) ∧
      (∃ r m, self.inPlaceIntersection env other = .ok (r, m) ∧
        r.tesselated = true ∧ m.tesselated = true ∧
        r.sides.length = 8 ∧ m.sides.length = 8) ∧
      (∃ r m, self.inPlaceSubtraction env other = .ok (r, m) ∧
        r.tesselated = true ∧ m.tesselated = true ∧
        r.sides.length = 8 ∧ m.sides.length = 8)) ∧
    (∀ rule, (self.tesselate env rule).tesselated = true ∧
      (self.tesselate env rule).sides.length = 8) := by
  refine ⟨?_, ?_, ?_⟩
  · obtain ⟨r, hr, hrl, hrt⟩ := run_ok env ops self hself hops
    refine ⟨r, hr, hrl, hrt, fun hfalse => ?_⟩
    rw [hrt]
    constructor
    · intro h
      rcases List.eq_nil_or_concat ops with hnil | ⟨pre, last, hcat⟩
      · subst hnil
        simp [hfalse] at h
      · subst hcat
        simp [List.getLast?_append] at h
        exact ⟨pre, last, [], by simp, h, fun o ho => by cases ho⟩
    · rintro ⟨pre, t, post, rfl, ht, hpost⟩
      have hx : (pre ++ t :: post).getLast?
          = some ((t :: post).getLast (List.cons_ne_nil _ _)) := by
        rw [List.getLast?_append, List.getLast?_eq_getLast _ (List.cons_ne_nil _ _)]
        rfl
      rw [hx]
      have hmem := List.getLast_mem (List.cons_ne_nil t post)
      rcases List.mem_cons.mp hmem with h | h
      · simp only [h, ht]
      · exact hpost _ h
  · intro other ho
    exact ⟨append_ok env self other hself ho, appendReversed_ok env self other hself ho,
      append_ok env self other hself ho, inPlaceIntersection_ok env self other hself ho,
      inPlaceSubtraction_ok env self other hself ho⟩
  · intro rule
    exact ⟨rfl, by rw [tesselate_sides_length, hself]⟩

end OctahedronProofs

section OctahedronWitness

/-- A fresh contour with 8 empty faces, appended to and then tesselated. -/
theorem octahedronContour_cache_flag_witness :
    ((⟨List.replicate 8 [], false⟩ : OctahedronContour ℚ).sides.length = 8 ∧
      ∀ op, op ∈ [OctOp.append (⟨List.replicate 8 [], true⟩ : OctahedronContour ℚ),
        OctOp.tesselate .WindingPositive] → op.operandHasEightSides) ∧
      ∃ r, OctahedronContour.run sampleEnv ⟨List.replicate 8 [], false⟩
          [OctOp.append ⟨List.replicate 8 [], true⟩, OctOp.tesselate .WindingPositive] = .ok r ∧
        r.sides.length = 8 ∧ r.tesselated = true := by
  have hops : ∀ op, op ∈ [OctOp.append (⟨List.replicate 8 [], true⟩ : OctahedronContour ℚ),
      OctOp.tesselate .WindingPositive] → op.operandHasEightSides := by
    intro op hop
    simp only [List.mem_cons, List.mem_singleton, List.not_mem_nil, or_false] at hop
    rcases hop with rfl | rfl <;> simp [OctOp.operandHasEightSides]
  obtain ⟨⟨r, hr, hl, ht, _⟩, _⟩ :=
    octahedronContour_cache_flag sampleEnv ⟨List.replicate 8 [], false⟩
      [OctOp.append ⟨List.replicate 8 [], true⟩, OctOp.tesselate .WindingPositive]
      (by simp) hops
  exact ⟨⟨by simp, hops⟩, r, hr, hl, by simpa [OctOp.tesselates] using ht⟩

end OctahedronWitness

/-! ## The unimplemented combinations -/

section UnimplementedProofs

variable {K : Type} [LinearOrderedField K]

/-- C16, as stated: the two unimplemented combinations would never return, in any build.
With assertions compiled out `SphericalCap::contains` on a general polygon returns `false`
and `SphericalTexturedPolygon::toQVariant` returns an empty map. -/
theorem unimplemented_release_counterexample :
    SphericalCap.containsPolygon { sampleEnv with assertions := false }
        ⟨⟨1, 0, 0⟩, 0⟩ (.general [⟨1, 0, 0⟩, ⟨0, 0, 1⟩, ⟨0, 1, 0⟩]) = .ok false ∧
      SphericalTexturedPolygon.toQVariant { sampleEnv with assertions := false } = .ok [] := by
  constructor <;> rfl

/-- C16, amended: the unimplemented combinations fail fast in a build with assertions:
`SphericalCap::contains` on a general polygon and `SphericalTexturedPolygon::toQVariant()`
stop on `Q_ASSERT(0)`. With assertions compiled out the first returns `false` and the second
an empty map. -/
theorem unimplemented_fail_fast_with_assertions (env : Env K) (cap : SphericalCap K)
    (vArray : List (Vec3 K)) :
    SphericalCap.containsPolygon { env with assertions := true } cap (.general vArray)
        = .error .assertion ∧
      SphericalTexturedPolygon.toQVariant { env with assertions := true }
        = .error .assertion ∧
      SphericalCap.containsPolygon { env with assertions := false } cap (.general vArray)
        = .ok false ∧
      SphericalTexturedPolygon.toQVariant { env with assertions := false } = .ok [] := by
  refine ⟨?_, ?_, ?_, ?_⟩ <;> rfl

end UnimplementedProofs

/-! ## The mesh of a convex polygon -/

section MeshProofs

variable {K : Type} [LinearOrderedField K]

theorem vAt_append_left (l1 l2 : List (Vec3 K)) (n : Nat) (h : n < l1.length) :
    vAt (l1 ++ l2) n = vAt l1 n := by
  unfold vAt
  exact List.getD_append l1 l2 _ n h

theorem vAt_append_right (l1 l2 : List (Vec3 K)) (n : Nat) (h : l1.length ≤ n) :
    vAt (l1 ++ l2) n = vAt l2 (n - l1.length) := by
  unfold vAt
  exact List.getD_append_right l1 l2 _ n h

/-- The mesh invariant goes through the concatenation of two vertex lists. -/
theorem meshInvariant_append (l1 l2 : List (Vec3 K)) (h1 : meshInvariant l1)
    (h2 : meshInvariant l2) : meshInvariant (l1 ++ l2) := by
  obtain ⟨hm1, ho1⟩ := h1
  obtain ⟨hm2, ho2⟩ := h2
  refine ⟨by rw [List.length_append]; omega, ?_⟩
  intro i hi
  rw [List.length_append] at hi
  unfold triangleOriented
  by_cases hlt : i < l1.length / 3
  · have h := ho1 i hlt
    unfold triangleOriented at h
    rw [vAt_append_left _ _ _ (by omega), vAt_append_left _ _ _ (by omega),
      vAt_append_left _ _ _ (by omega)]
    exact h
  · have h := ho2 (i - l1.length / 3) (by omega)
    unfold triangleOriented at h
    rw [vAt_append_right _ _ _ (by omega), vAt_append_right _ _ _ (by omega),
      vAt_append_right _ _ _ (by omega)]
    have e0 : i * 3 - l1.length = (i - l1.length / 3) * 3 := by omega
    have e1 : i * 3 + 1 - l1.length = (i - l1.length / 3) * 3 + 1 := by omega
    have e2 : i * 3 + 2 - l1.length = (i - l1.length / 3) * 3 + 2 := by omega
    rw [e0, e1, e2]
    exact h

theorem meshInvariant_triangle (a b c : Vec3 K) (h : 0 ≤ (b.cross a).dot c) :
    meshInvariant [a, b, c] := by
  refine ⟨by simp, ?_⟩
  intro i hi
  have hi0 : i = 0 := by simpa using hi
  subst hi0
  simpa [triangleOriented, vAt] using h

/-- The loop of `getVertexArray` keeps the invariant when each triangle it appends is
oriented. -/
theorem foldl_fan_invariant (f0 f1 f2 : Nat → Vec3 K) (ks : List Nat)
    (hks : ∀ k, k ∈ ks → 0 ≤ ((f1 k).cross (f0 k)).dot (f2 k)) (ar : StelVertexArray K)
    (hv : meshInvariant ar.vertex) (hf : ar.edgeFlags.length = ar.vertex.length) :
    meshInvariant (ks.foldl
        (fun (ar : StelVertexArray K) k =>
          ⟨ar.vertex ++ [f0 k, f1 k, f2 k], ar.edgeFlags ++ [false, true, false]⟩) ar).vertex ∧
      (ks.foldl
        (fun (ar : StelVertexArray K) k =>
          ⟨ar.vertex ++ [f0 k, f1 k, f2 k], ar.edgeFlags ++ [false, true, false]⟩)
          ar).edgeFlags.length
        = (ks.foldl
          (fun (ar : StelVertexArray K) k =>
            ⟨ar.vertex ++ [f0 k, f1 k, f2 k], ar.edgeFlags ++ [false, true, false]⟩)
          ar).vertex.length := by
  induction ks generalizing ar with
  | nil => exact ⟨hv, hf⟩
  | cons k ks ih =>
    rw [List.foldl_cons]
    apply ih (fun k' hk' => hks k' (List.mem_cons_of_mem _ hk'))
    · exact meshInvariant_append _ _ hv
        (meshInvariant_triangle _ _ _ (hks k (List.mem_cons_self _ _)))
    · simp [hf]

/-- In a valid contour the triangle `(c0, ci, ci+1)` of the fan is oriented. -/
theorem fan_triangle_oriented (contour : List (Vec3 K))
    (hvalid : SphericalConvexPolygon.checkValidContour contour = true) (i : Nat)
    (h1 : 1 ≤ i) (h2 : i + 1 < contour.length) :
    0 ≤ ((vAt contour i).cross (vAt contour 0)).dot (vAt contour (i + 1)) := by
  obtain ⟨_, hedges, _⟩ := (checkValidContour_iff contour).mp hvalid
  have h := hedges i (by omega) (contour.length - i - 2) (by omega)
  have hidx : (contour.length - i - 2 + i + 2) % contour.length = 0 := by
    have : contour.length - i - 2 + i + 2 = contour.length := by omega
    rw [this, Nat.mod_self]
  rw [hidx] at h
  simp only [sideHalfSpaceContains, decide_eq_true_eq] at h
  have e : ((vAt contour i).cross (vAt contour 0)).dot (vAt contour (i + 1))
      = ((vAt contour (i + 1)).cross (vAt contour i)).dot (vAt contour 0) := by
    simp only [Vec3.cross, Vec3.dot]; ring
  rw [e]
  exact h

/-- The mesh invariant for convex polygons in exact arithmetic: for a contour accepted by
`checkValidContour`, `getVertexArray()` returns a vertex list whose length is a multiple of 3, an `edgeFlags`
list of the same length, and every consecutive triple `(a, b, c)` has `(b x a) . c >= 0`. -/
theorem getVertexArray_mesh_invariant (contour : List (Vec3 K))
    (hvalid : SphericalConvexPolygon.checkValidContour contour = true) :
    (SphericalConvexPolygon.getVertexArray contour).vertex.length % 3 = 0 ∧
      (SphericalConvexPolygon.getVertexArray contour).edgeFlags.length
        = (SphericalConvexPolygon.getVertexArray contour).vertex.length ∧
      ∀ i, i < (SphericalConvexPolygon.getVertexArray contour).vertex.length / 3 →
        0 ≤ ((vAt (SphericalConvexPolygon.getVertexArray contour).vertex (i * 3 + 1)).cross
              (vAt (SphericalConvexPolygon.getVertexArray contour).vertex (i * 3))).dot
            (vAt (SphericalConvexPolygon.getVertexArray contour).vertex (i * 3 + 2)) := by
  have hlen : 3 ≤ contour.length := ((checkValidContour_iff contour).mp hvalid).1
  have hfirst : meshInvariant [vAt contour 0, vAt contour 1, vAt contour 2] :=
    meshInvariant_triangle _ _ _ (fan_triangle_oriented contour hvalid 1 (le_refl _) (by omega))
  have hmid := foldl_fan_invariant (fun _ => vAt contour 0) (fun k => vAt contour (k + 2))
    (fun k => vAt contour (k + 2 + 1)) (List.range (contour.length - 2 - 2))
    (fun k hk => fan_triangle_oriented contour hvalid (k + 2) (by omega)
      (by have := List.mem_range.mp hk; omega))
    ⟨[vAt contour 0, vAt contour 1, vAt contour 2], [true, true, false]⟩ hfirst rfl
  have hlast : meshInvariant [vAt contour 0, vAt contour (contour.length - 2), vLast contour] := by
    apply meshInvariant_triangle
    have h := fan_triangle_oriented contour hvalid (contour.length - 2) (by omega) (by omega)
    have e : contour.length - 2 + 1 = contour.length - 1 := by omega
    rw [e] at h
    exact h
  have hall := meshInvariant_append _ _ hmid.1 hlast
  have hflags := hmid.2
  refine ⟨hall.1, ?_, ?_⟩
  · show (_ ++ [false, true, true]).length = (_ ++ [_, _, _]).length
    rw [List.length_append, List.length_append, hflags]
    rfl
  · intro i hi
    have h := hall.2 i hi
    simpa [triangleOriented] using h

end MeshProofs

section MeshWitness

theorem checkValidContour_sample_triangle :
    SphericalConvexPolygon.checkValidContour
      [(⟨1, 0, 0⟩ : Vec3 ℚ), ⟨0, 0, 1⟩, ⟨0, 1, 0⟩] = true := by
  norm_num [SphericalConvexPolygon.checkValidContour, andLoop, sideHalfSpaceContains,
    Vec3.cross, Vec3.dot, vAt, vFirst, vLast, List.range_succ]

/-- The triangle `(1,0,0), (0,0,1), (0,1,0)` over the rationals. -/
theorem getVertexArray_mesh_invariant_witness :
    SphericalConvexPolygon.checkValidContour
        [(⟨1, 0, 0⟩ : Vec3 ℚ), ⟨0, 0, 1⟩, ⟨0, 1, 0⟩] = true ∧
      (SphericalConvexPolygon.getVertexArray
        [(⟨1, 0, 0⟩ : Vec3 ℚ), ⟨0, 0, 1⟩, ⟨0, 1, 0⟩]).vertex.length % 3 = 0 ∧
      (SphericalConvexPolygon.getVertexArray
        [(⟨1, 0, 0⟩ : Vec3 ℚ), ⟨0, 0, 1⟩, ⟨0, 1, 0⟩]).edgeFlags.length
        = (SphericalConvexPolygon.getVertexArray
          [(⟨1, 0, 0⟩ : Vec3 ℚ), ⟨0, 0, 1⟩, ⟨0, 1, 0⟩]).vertex.length :=
  ⟨checkValidContour_sample_triangle,
    (getVertexArray_mesh_invariant [(⟨1, 0, 0⟩ : Vec3 ℚ), ⟨0, 0, 1⟩, ⟨0, 1, 0⟩]
      checkValidContour_sample_triangle).1,
    (getVertexArray_mesh_invariant [(⟨1, 0, 0⟩ : Vec3 ℚ), ⟨0, 0, 1⟩, ⟨0, 1, 0⟩]
      checkValidContour_sample_triangle).2.1⟩

end MeshWitness

/-! ## Self-difference -/

section ContourLemmas

variable {K : Type}

/-- Appending the reverse of each contour in turn appends the list of reversed contours. -/
theorem foldl_append_reverse (cs all : List (List (Vec3 K))) :
    cs.foldl (fun (all : List (List (Vec3 K))) c => all ++ [c.reverse]) all
      = all ++ cs.map List.reverse := by
  induction cs generalizing all with
  | nil => simp
  | cons c cs ih => simp [ih]

end ContourLemmas

section SelfDifferenceProofs

variable {K : Type} [LinearOrderedField K]

theorem vAt_take_drop (l : List (Vec3 K)) (i j : Nat) (hj : j < 3) :
    vAt ((l.drop (i * 3)).take 3) j = vAt l (i * 3 + j) := by
  unfold vAt
  rw [List.getD_eq_getElem?_getD, List.getD_eq_getElem?_getD, List.getElem?_take_of_lt hj,
    List.getElem?_drop]

/-- On a mesh that has the invariant the assertions of `getContours` hold: it returns the
list of the triangles. -/
theorem getContours_ok (env : Env K) (p : SphericalPolygon K)
    (h : meshInvariant p.triangleVertices) :
    p.getContours env = .ok ((List.range (p.triangleVertices.length / 3)).map
      (fun i => (p.triangleVertices.drop (i * 3)).take 3)) := by
  obtain ⟨hmod, horient⟩ := h
  unfold SphericalPolygon.getContours
  have h1 : qAssert env (p.triangleVertices.length % 3 == 0) = .ok () := by
    simp [qAssert, hmod]
  have h2 : qAssert env (((List.range (p.triangleVertices.length / 3)).map
      (fun i => (p.triangleVertices.drop (i * 3)).take 3)).all
      (fun l => decide (0 ≤ ((vAt l 1).cross (vAt l 0)).dot (vAt l 2)))) = .ok () := by
    have : ((List.range (p.triangleVertices.length / 3)).map
        (fun i => (p.triangleVertices.drop (i * 3)).take 3)).all
        (fun l => decide (0 ≤ ((vAt l 1).cross (vAt l 0)).dot (vAt l 2))) = true := by
      rw [List.all_eq_true]
      intro l hl
      obtain ⟨i, hi, rfl⟩ := List.mem_map.mp hl
      have ho := horient i (List.mem_range.mp hi)
      unfold triangleOriented at ho
      rw [vAt_take_drop _ _ 1 (by omega), vAt_take_drop _ _ 0 (by omega),
        vAt_take_drop _ _ 2 (by omega)]
      exact ho
    rw [this]
    exact qAssert_true env
  simp only [h1, bind, Except.bind]
  split_ifs
  · simp only [h2]
    rfl
  · rfl

theorem setContours_of_no_output (env : Env K) (contours : List (List (Vec3 K)))
    (rule : PolyWindingRule) (h : env.tesselate rule contours = []) :
    SphericalPolygon.setContours env contours rule = .ok ⟨[], []⟩ := by
  unfold SphericalPolygon.setContours
  simp [h, qAssert, bind, Except.bind, pure, Except.pure]

end SelfDifferenceProofs

/-! ## Splitting a contour by a plane -/

section SplitProofs

variable {K : Type} [LinearOrderedField K]

/-- With assertions compiled out the crossing point is always computed. -/
theorem interpolateAtCrossingPoint_release (env : Env K) (v1 v2 plan : Vec3 K) :
    ∃ t, interpolateAtCrossingPoint { env with assertions := false } v1 v2 plan = .ok t := by
  unfold interpolateAtCrossingPoint greatCircleIntersection
  simp only [qAssert, Bool.false_and, Bool.false_eq_true, if_false, bind, Except.bind, pure,
    Except.pure]
  split_ifs <;> exact ⟨_, rfl⟩

/-- A contour that crosses the plane to side 1 and comes back to side 0 for two vertices:
the second of them ends a sub-contour put on side 1. -/
theorem splitContourByPlan_stale_quadrant (env : Env K) (onLine : Nat) (a b d e : EdgeVertex K)
    (ha : getSide a.vertex onLine = 0) (hb : getSide b.vertex onLine = 1)
    (hd : getSide d.vertex onLine = 0) (he : getSide e.vertex onLine = 0) :
    ∃ x1 x2 x3 : Vec3 K,
      splitContourByPlan { env with assertions := false } onLine [a, b, d, e] ([], [])
        = .ok
          ([[⟨x3, d.edgeFlag⟩, e, a, ⟨x1, false⟩]],
            [[⟨x1, a.edgeFlag⟩, b, ⟨x2, false⟩], [⟨x2, b.edgeFlag⟩, d, ⟨x3, false⟩]]) := by
  obtain ⟨x1, h1⟩ := interpolateAtCrossingPoint_release env a.vertex b.vertex
    ⟨if onLine = 0 then 1 else 0, if onLine = 1 then 1 else 0, if onLine = 2 then 1 else 0⟩
  obtain ⟨x2, h2⟩ := interpolateAtCrossingPoint_release env b.vertex d.vertex
    ⟨if onLine = 0 then 1 else 0, if onLine = 1 then 1 else 0, if onLine = 2 then 1 else 0⟩
  obtain ⟨x3, h3⟩ := interpolateAtCrossingPoint_release env d.vertex e.vertex
    ⟨if onLine = 0 then 1 else 0, if onLine = 1 then 1 else 0, if onLine = 2 then 1 else 0⟩
  refine ⟨x1, x2, x3, ?_⟩
  simp [splitContourByPlan, splitFirstLoop, splitSecondLoop, pushResult,
    ha, hb, hd, he, h1, h2, h3, bind, Except.bind, pure, Except.pure, qAssert]

/-- C18: `splitContourByPlan` puts a vertex on the wrong side. For the plane `x = 0` and the
contour `(3/5,4/5,0), (-3/5,4/5,0), (3/5,0,4/5), (4/5,0,3/5)`, with assertions compiled out,
the second sub-contour appended to `result[1]` holds the vertex `(3/5,0,4/5)`, which is on
side 0 (`x > 0`) and not on the plane: the second loop does not update
`previousQuadrant` after a crossing. -/
theorem splitContourByPlan_wrong_side (env : Env ℚ) :
    ∃ x1 x2 x3 : Vec3 ℚ,
      splitContourByPlan { env with assertions := false } 0
          [⟨⟨3 / 5, 4 / 5, 0⟩, true⟩, ⟨⟨-3 / 5, 4 / 5, 0⟩, true⟩, ⟨⟨3 / 5, 0, 4 / 5⟩, true⟩,
            ⟨⟨4 / 5, 0, 3 / 5⟩, true⟩] ([], [])
        = .ok
          ([[⟨x3, true⟩, ⟨⟨4 / 5, 0, 3 / 5⟩, true⟩, ⟨⟨3 / 5, 4 / 5, 0⟩, true⟩, ⟨x1, false⟩]],
            [[⟨x1, true⟩, ⟨⟨-3 / 5, 4 / 5, 0⟩, true⟩, ⟨x2, false⟩],
              [⟨x2, true⟩, ⟨⟨3 / 5, 0, 4 / 5⟩, true⟩, ⟨x3, false⟩]]) ∧
      getSide (⟨3 / 5, 0, 4 / 5⟩ : Vec3 ℚ) 0 = 0 ∧ (⟨3 / 5, 0, 4 / 5⟩ : Vec3 ℚ).get 0 ≠ 0 := by
  obtain ⟨x1, x2, x3, h⟩ := splitContourByPlan_stale_quadrant env 0
    ⟨⟨3 / 5, 4 / 5, 0⟩, true⟩ ⟨⟨-3 / 5, 4 / 5, 0⟩, true⟩ ⟨⟨3 / 5, 0, 4 / 5⟩, true⟩
    ⟨⟨4 / 5, 0, 3 / 5⟩, true⟩
    (by norm_num [getSide, Vec3.get]) (by norm_num [getSide, Vec3.get])
    (by norm_num [getSide, Vec3.get]) (by norm_num [getSide, Vec3.get])
  exact ⟨x1, x2, x3, h, by norm_num [getSide, Vec3.get], by norm_num [Vec3.get]⟩

end SplitProofs

/-! ## The combine callback of the octahedron tesselation -/

section CombineProofs

variable {K : Type} [LinearOrderedField K]

/-- C19: `octCombineCallback` does not compute the weighted blend. Each of the three
coordinates of its output is the same sum of `dd[i] * weight[i]`, where `dd[i]` is the
coordinate number `i` of the vertex number `i`, and for the fourth vertex the double that
follows its three coordinates. For two vertices `(1,0,0)` of weights `1/2` the output is
`(1/2, 1/2, 1/2)`, the blend is `(1, 0, 0)`. -/
theorem octCombineCallback_reads_diagonal (v0 v1 v2 v3 : Vec3 K) (beyond weight : Nat → K) :
    octCombineCallback
        (fun i => match i with
          | 0 => some (vertexData v0 beyond)
          | 1 => some (vertexData v1 beyond)
          | 2 => some (vertexData v2 beyond)
          | 3 => some (vertexData v3 beyond)
          | _ => none) weight
      = ⟨0 + v0.x * weight 0 + v1.y * weight 1 + v2.z * weight 2 + beyond 0 * weight 3,
          0 + v0.x * weight 0 + v1.y * weight 1 + v2.z * weight 2 + beyond 0 * weight 3,
          0 + v0.x * weight 0 + v1.y * weight 1 + v2.z * weight 2 + beyond 0 * weight 3⟩ ∧
    octCombineCallback
        (fun i => if i < 2 then some (vertexData (⟨1, 0, 0⟩ : Vec3 K) beyond) else none)
        (fun _ => 1 / 2)
      = ⟨1 / 2, 1 / 2, 1 / 2⟩ ∧
    weightedBlend [((⟨1, 0, 0⟩ : Vec3 K), (1 / 2 : K)), (⟨1, 0, 0⟩, 1 / 2)] = ⟨1, 0, 0⟩ := by
  refine ⟨?_, ?_, ?_⟩
  · simp [octCombineCallback, octCombineLoop, vertexData, Vec3.add]
  · norm_num [octCombineCallback, octCombineLoop, vertexData, Vec3.add]
  · norm_num [weightedBlend, Vec3.add]

end CombineProofs

/-! ## The crossing point of two great circles -/

section NormalizeLemmas

variable {K : Type} [LinearOrderedField K]

/-- A vector that is not null has a positive squared norm. -/
theorem lengthSquared_pos_of_ne (v : Vec3 K) (h : v ≠ ⟨0, 0, 0⟩) :
    0 < Vec3.lengthSquared v := by
  have hnn : 0 ≤ Vec3.lengthSquared v := by
    unfold Vec3.lengthSquared
    nlinarith [mul_self_nonneg v.x, mul_self_nonneg v.y, mul_self_nonneg v.z]
  rcases hnn.lt_or_eq with hlt | heq
  · exact hlt
  · exfalso
    apply h
    unfold Vec3.lengthSquared at heq
    have hx : v.x = 0 := by
      nlinarith [mul_self_nonneg v.x, mul_self_nonneg v.y, mul_self_nonneg v.z]
    have hy : v.y = 0 := by
      nlinarith [mul_self_nonneg v.x, mul_self_nonneg v.y, mul_self_nonneg v.z]
    have hz : v.z = 0 := by
      nlinarith [mul_self_nonneg v.x, mul_self_nonneg v.y, mul_self_nonneg v.z]
    cases v
    simp only [Vec3.mk.injEq]
    exact ⟨hx, hy, hz⟩

/-- The norm of a vector that is not null is positive and squares to the squared norm. -/
theorem length_pos_of_lengthSquared_pos (env : Env K)
    (hsqrt : ∀ x, 0 < x → 0 < env.sqrt x ∧ env.sqrt x * env.sqrt x = x)
    (v : Vec3 K) (h : 0 < Vec3.lengthSquared v) :
    0 < Vec3.length env v ∧ Vec3.length env v * Vec3.length env v = Vec3.lengthSquared v :=
  hsqrt _ h

/-- The dot product with a normalized vector. -/
theorem normalize_dot (env : Env K) (v w : Vec3 K) :
    (Vec3.normalize env v).dot w = v.dot w / Vec3.length env v := by
  simp only [Vec3.normalize, Vec3.dot]
  ring

/-- A normalized vector has norm 1. -/
theorem normalize_lengthSquared (env : Env K)
    (hsqrt : ∀ x, 0 < x → 0 < env.sqrt x ∧ env.sqrt x * env.sqrt x = x)
    (v : Vec3 K) (h : 0 < Vec3.lengthSquared v) :
    Vec3.lengthSquared (Vec3.normalize env v) = 1 := by
  obtain ⟨hpos, hsq⟩ := length_pos_of_lengthSquared_pos env hsqrt v h
  have hne : Vec3.length env v ≠ 0 := ne_of_gt hpos
  simp only [Vec3.normalize, Vec3.lengthSquared] at hsq ⊢
  field_simp
  linarith

/-- The cross product of a normalized vector with `b` is orthogonal to the vector. -/
theorem normalize_cross_dot (env : Env K) (a b : Vec3 K) :
    ((Vec3.normalize env a).cross b).dot a = 0 := by
  simp only [Vec3.normalize, Vec3.cross, Vec3.dot]
  ring

/-- The dot product with the opposite vector. -/
theorem neg_dot (v w : Vec3 K) : (Vec3.neg v).dot w = -(v.dot w) := by
  simp only [Vec3.neg, Vec3.dot]
  ring

/-- The opposite vector has the same norm. -/
theorem neg_lengthSquared (v : Vec3 K) :
    Vec3.lengthSquared (Vec3.neg v) = Vec3.lengthSquared v := by
  simp only [Vec3.neg, Vec3.lengthSquared]
  ring

/-- Two vectors whose cross product is not null do not sum to the null vector. -/
theorem add_ne_zero_of_cross_ne (p1 p2 : Vec3 K) (h : p1.cross p2 ≠ ⟨0, 0, 0⟩) :
    Vec3.add p1 p2 ≠ ⟨0, 0, 0⟩ := by
  intro hadd
  apply h
  simp only [Vec3.add, Vec3.mk.injEq] at hadd
  obtain ⟨hx, hy, hz⟩ := hadd
  have ex : p2.x = -p1.x := by linarith
  have ey : p2.y = -p1.y := by linarith
  have ez : p2.z = -p1.z := by linarith
  simp only [Vec3.cross, Vec3.mk.injEq, ex, ey, ez]
  refine ⟨by ring, by ring, by ring⟩

end NormalizeLemmas

section CrossingProofs

/-- The crossing point over the reals with the real square root: for vectors `p1`, `p2` that are not
parallel (`p1 x p2` is not null, so that the great circle through them is defined and no
normalisation divides by zero) and a unit normal `n2`, `greatCircleIntersection` returns
a result `r` and a flag `ok`; `ok` is false exactly when the cross product of the normalized
`p1 x p2` with `n2` has a length below `1e-7`; and when `ok` is true, `r` has unit length,
lies on the plane of `n2`, lies on the great circle through `p1` and `p2`, and is on the side
of the midpoint of the arc: `r . (p1 + p2) >= 0`. `interpolateAtCrossingPoint` then returns
`r`. -/
theorem greatCircleIntersection_true_crossing (env : Env ℝ) (p1 p2 n2 : Vec3 ℝ)
    (hn2 : Vec3.lengthSquared n2 = 1) (hp : p1.cross p2 ≠ ⟨0, 0, 0⟩) :
    0 < Vec3.length { env with sqrt := Real.sqrt } (p1.cross p2) ∧
      0 < Vec3.length { env with sqrt := Real.sqrt } (Vec3.add p1 p2) ∧
      ∃ (r : Vec3 ℝ) (ok : Bool),
        greatCircleIntersection { env with sqrt := Real.sqrt } p1 p2 n2 = .ok (r, ok) ∧
        (ok = false ↔
          Vec3.length { env with sqrt := Real.sqrt }
              ((Vec3.normalize { env with sqrt := Real.sqrt } (p1.cross p2)).cross n2)
            < 1 / 10000000) ∧
        (ok = true →
          Vec3.lengthSquared r = 1 ∧ r.dot n2 = 0 ∧ r.dot (p1.cross p2) = 0 ∧
            0 ≤ r.dot (Vec3.add p1 p2) ∧
            interpolateAtCrossingPoint { env with sqrt := Real.sqrt } p1 p2 n2 = .ok r) := by
  have hsqrt : ∀ x, 0 < x →
      0 < ({ env with sqrt := Real.sqrt } : Env ℝ).sqrt x ∧
        ({ env with sqrt := Real.sqrt } : Env ℝ).sqrt x
          * ({ env with sqrt := Real.sqrt } : Env ℝ).sqrt x = x := real_sqrt_pos
  have hsqrt0 : ∀ x, x ≤ 0 → ({ env with sqrt := Real.sqrt } : Env ℝ).sqrt x = 0 :=
    fun x hx => Real.sqrt_eq_zero_of_nonpos hx
  generalize ({ env with sqrt := Real.sqrt } : Env ℝ) = e at hsqrt hsqrt0 ⊢
  have hL1 := length_pos_of_lengthSquared_pos e hsqrt _ (lengthSquared_pos_of_ne _ hp)
  have hL2 := length_pos_of_lengthSquared_pos e hsqrt _
    (lengthSquared_pos_of_ne _ (add_ne_zero_of_cross_ne p1 p2 hp))
  refine ⟨hL1.1, hL2.1, ?_⟩
  have hq : qAssert e (decide (|Vec3.lengthSquared n2 - 1| < 1 / 100000000)) = .ok () := by
    rw [hn2]
    simp [qAssert]
  by_cases hsmall : Vec3.length e ((Vec3.normalize e (p1.cross p2)).cross n2) < 1 / 10000000
  · refine ⟨(Vec3.normalize e (p1.cross p2)).cross n2, false, ?_, ?_, ?_⟩
    · simp only [greatCircleIntersection, hq, bind, Except.bind, hsmall, if_true, pure,
        Except.pure]
    · exact ⟨fun _ => hsmall, fun _ => rfl⟩
    · intro h
      cases h
  · -- the vector `u` is not null
    have hupos : 0 < Vec3.lengthSquared ((Vec3.normalize e (p1.cross p2)).cross n2) := by
      by_contra hnot
      apply hsmall
      have h0 : Vec3.length e ((Vec3.normalize e (p1.cross p2)).cross n2) = 0 :=
        hsqrt0 _ (not_lt.mp hnot)
      rw [h0]
      norm_num
    generalize hu : (Vec3.normalize e (p1.cross p2)).cross n2 = u at hsmall hupos
    have hLu := length_pos_of_lengthSquared_pos e hsqrt u hupos
    have hun2 : u.dot n2 = 0 := by
      rw [← hu]
      exact cross_dot_right _ _
    have hup : u.dot (p1.cross p2) = 0 := by
      rw [← hu]
      exact normalize_cross_dot e _ _
    have hunit := normalize_lengthSquared e hsqrt u hupos
    have hdn2 : (Vec3.normalize e u).dot n2 = 0 := by
      rw [normalize_dot, hun2, zero_div]
    have hdp : (Vec3.normalize e u).dot (p1.cross p2) = 0 := by
      rw [normalize_dot, hup, zero_div]
    have hmid : (Vec3.normalize e (Vec3.add p1 p2)).dot (Vec3.normalize e u)
        = (Vec3.normalize e u).dot (Vec3.add p1 p2) / Vec3.length e (Vec3.add p1 p2) := by
      simp only [Vec3.normalize, Vec3.dot]
      ring
    by_cases hside : (Vec3.normalize e (Vec3.add p1 p2)).dot (Vec3.normalize e u) > 0
    · have hgci : greatCircleIntersection e p1 p2 n2 = .ok (Vec3.normalize e u, true) := by
        simp only [greatCircleIntersection, hq, bind, Except.bind, hu, hsmall, if_false,
          hside, if_true, pure, Except.pure]
      refine ⟨Vec3.normalize e u, true, hgci, ?_, fun _ => ⟨hunit, hdn2, hdp, ?_, ?_⟩⟩
      · exact ⟨fun h => (by cases h), fun h => absurd h hsmall⟩
      · rw [hmid] at hside
        have := (div_pos_iff_of_pos_right hL2.1).mp hside
        exact le_of_lt this
      · simp only [interpolateAtCrossingPoint, hgci, bind, Except.bind, qAssert_true, pure,
          Except.pure]
    · have hgci : greatCircleIntersection e p1 p2 n2
          = .ok (Vec3.neg (Vec3.normalize e u), true) := by
        simp only [greatCircleIntersection, hq, bind, Except.bind, hu, hsmall, if_false,
          hside, pure, Except.pure]
      refine ⟨Vec3.neg (Vec3.normalize e u), true, hgci, ?_, fun _ => ⟨?_, ?_, ?_, ?_, ?_⟩⟩
      · exact ⟨fun h => (by cases h), fun h => absurd h hsmall⟩
      · rw [neg_lengthSquared, hunit]
      · rw [neg_dot, hdn2, neg_zero]
      · rw [neg_dot, hdp, neg_zero]
      · rw [neg_dot]
        rw [hmid] at hside
        have hle : (Vec3.normalize e u).dot (Vec3.add p1 p2) / Vec3.length e (Vec3.add p1 p2)
            ≤ 0 := not_lt.mp hside
        have := (div_nonpos_iff.mp hle)
        rcases this with ⟨_, h2⟩ | ⟨h1, _⟩
        · linarith [hL2.1]
        · linarith
      · simp only [interpolateAtCrossingPoint, hgci, bind, Except.bind, qAssert_true, pure,
          Except.pure]

/-- The great circle through `(1,0,0)` and `(0,1,0)` crosses the plane `x = 0` at
`(0,1,0)`. -/
theorem greatCircleIntersection_sample :
    greatCircleIntersection (mathEnv Real.pi Real.cos Real.sin Real.arccos Real.sqrt)
        ⟨1, 0, 0⟩ ⟨0, 1, 0⟩ ⟨1, 0, 0⟩ = .ok (⟨0, 1, 0⟩, true) := by
  have h2 : (0 : ℝ) < Real.sqrt 2 := Real.sqrt_pos.mpr (by norm_num)
  simp [greatCircleIntersection, mathEnv, qAssert, Vec3.cross, Vec3.normalize, Vec3.length,
    Vec3.lengthSquared, Vec3.add, Vec3.dot, bind, Except.bind, pure, Except.pure]
  norm_num

/-- The great circle through `(1,0,0)` and `(0,1,0)` and the plane `x = 0`: the crossing
point is `(0,1,0)`. -/
theorem greatCircleIntersection_true_crossing_witness :
    (Vec3.lengthSquared (⟨1, 0, 0⟩ : Vec3 ℝ) = 1 ∧
        (⟨1, 0, 0⟩ : Vec3 ℝ).cross ⟨0, 1, 0⟩ ≠ ⟨0, 0, 0⟩) ∧
      greatCircleIntersection (mathEnv Real.pi Real.cos Real.sin Real.arccos Real.sqrt)
          ⟨1, 0, 0⟩ ⟨0, 1, 0⟩ ⟨1, 0, 0⟩ = .ok (⟨0, 1, 0⟩, true) ∧
      Vec3.lengthSquared (⟨0, 1, 0⟩ : Vec3 ℝ) = 1 ∧
      (⟨0, 1, 0⟩ : Vec3 ℝ).dot ⟨1, 0, 0⟩ = 0 ∧
      (⟨0, 1, 0⟩ : Vec3 ℝ).dot ((⟨1, 0, 0⟩ : Vec3 ℝ).cross ⟨0, 1, 0⟩) = 0 ∧
      0 ≤ (⟨0, 1, 0⟩ : Vec3 ℝ).dot (Vec3.add ⟨1, 0, 0⟩ ⟨0, 1, 0⟩) := by
  have h1 : Vec3.lengthSquared (⟨1, 0, 0⟩ : Vec3 ℝ) = 1 := by norm_num [Vec3.lengthSquared]
  have h2 : (⟨1, 0, 0⟩ : Vec3 ℝ).cross ⟨0, 1, 0⟩ ≠ ⟨0, 0, 0⟩ := by simp [Vec3.cross]
  obtain ⟨_, _, r, ok, hr, _, hok⟩ := greatCircleIntersection_true_crossing
    (mathEnv Real.pi Real.cos Real.sin Real.arccos Real.sqrt) ⟨1, 0, 0⟩ ⟨0, 1, 0⟩ ⟨1, 0, 0⟩
    h1 h2
  have hs := greatCircleIntersection_sample
  have hr' : greatCircleIntersection (mathEnv Real.pi Real.cos Real.sin Real.arccos Real.sqrt)
      ⟨1, 0, 0⟩ ⟨0, 1, 0⟩ ⟨1, 0, 0⟩ = .ok (r, ok) := hr
  rw [hs] at hr'
  simp only [Except.ok.injEq, Prod.mk.injEq] at hr'
  obtain ⟨hreq, hokeq⟩ := hr'
  obtain ⟨ha, hb, hc, hd, _⟩ := hok hokeq.symm
  rw [← hreq] at ha hb hc hd
  exact ⟨⟨h1, h2⟩, hs, ha, hb, hc, hd⟩

end CrossingProofs

/-! ## The intersection of the planes of two caps -/

section PlaneLemmas

variable {K : Type} [LinearOrderedField K]

/-- The start point chosen by the `switch` is on both planes when `denom` is not 0. -/
theorem planeIntersectStart_on_planes (maxI : Nat) (a1 b1 c1 d1 a2 b2 c2 d2 : K)
    (h : (planeIntersectStart maxI a1 b1 c1 d1 a2 b2 c2 d2).2 ≠ 0) :
    (planeIntersectStart maxI a1 b1 c1 d1 a2 b2 c2 d2).1.dot ⟨a1, b1, c1⟩ = -d1 ∧
      (planeIntersectStart maxI a1 b1 c1 d1 a2 b2 c2 d2).1.dot ⟨a2, b2, c2⟩ = -d2 := by
  match maxI with
  | 0 =>
    simp only [planeIntersectStart, Vec3.dot] at h ⊢
    constructor <;> (field_simp; ring)
  | 1 =>
    simp only [planeIntersectStart, Vec3.dot] at h ⊢
    constructor <;> (field_simp; ring)
  | n + 2 =>
    simp only [planeIntersectStart, Vec3.dot] at h ⊢
    constructor <;> (field_simp; ring)

/-- The `denom` of the case chosen through `maxI` is not 0: it is, up to the sign, the
coordinate of `n1 ^ n2` of largest absolute value. -/
theorem planeIntersectStart_denom_ne (n1 n2 : Vec3 K) (d1 d2 L : K) (hL : 0 < L)
    (hraw : ¬((n1.cross n2).x = 0 ∧ (n1.cross n2).y = 0 ∧ (n1.cross n2).z = 0)) :
    (planeIntersectStart
      (if |(n1.cross n2).x / L| ≥ |(n1.cross n2).y / L| then
        (if |(n1.cross n2).x / L| ≥ |(n1.cross n2).z / L| then 0 else 2)
      else (if |(n1.cross n2).z / L| > |(n1.cross n2).y / L| then 2 else 1))
      n1.x n1.y n1.z d1 n2.x n2.y n2.z d2).2 ≠ 0 := by
  have habs : ∀ a : K, |a / L| = |a| / L := fun a => by rw [abs_div, abs_of_pos hL]
  simp only [habs, ge_iff_le, gt_iff_lt, div_le_div_iff_of_pos_right hL, div_lt_div_iff_of_pos_right hL]
  simp only [Vec3.cross] at hraw ⊢
  split_ifs with hxy hxz hzy
  · -- the first coordinate is the largest
    simp only [planeIntersectStart]
    intro hden
    apply hraw
    have hx : n1.y * n2.z - n1.z * n2.y = 0 := by linarith
    rw [hx, abs_zero] at hxy hxz
    exact ⟨hx, abs_nonpos_iff.mp hxy, abs_nonpos_iff.mp hxz⟩
  · simp only [planeIntersectStart]
    intro hden
    have hz : n1.x * n2.y - n1.y * n2.x = 0 := by linarith
    rw [hz, abs_zero] at hxz
    exact hxz (abs_nonneg _)
  · simp only [planeIntersectStart]
    intro hden
    have hz : n1.x * n2.y - n1.y * n2.x = 0 := by linarith
    rw [hz, abs_zero] at hzy
    exact absurd hzy (not_lt.mpr (abs_nonneg _))
  · simp only [planeIntersectStart]
    intro hden
    have hy : n1.z * n2.x - n1.x * n2.z = 0 := by linarith
    rw [hy, abs_zero] at hxy
    exact hxy (abs_nonneg _)

/-- A point `p0 + u t` of the line, for a root `t` of `t^2 + b t + c`, is on the unit sphere
and on the two planes. -/
theorem line_point_on_sphere (p0 u n1 n2 : Vec3 K) (t e1 e2 : K)
    (hu : Vec3.lengthSquared u = 1) (hu1 : u.dot n1 = 0) (hu2 : u.dot n2 = 0)
    (h1 : p0.dot n1 = e1) (h2 : p0.dot n2 = e2)
    (ht : t * t + p0.dot u * 2 * t + (Vec3.lengthSquared p0 - 1) = 0) :
    Vec3.lengthSquared (Vec3.add p0 (u.scale t)) = 1 ∧
      (Vec3.add p0 (u.scale t)).dot n1 = e1 ∧ (Vec3.add p0 (u.scale t)).dot n2 = e2 := by
  simp only [Vec3.lengthSquared, Vec3.dot, Vec3.add, Vec3.scale] at *
  refine ⟨?_, ?_, ?_⟩
  · linear_combination ht + t * t * hu
  · linear_combination h1 + t * hu1
  · linear_combination h2 + t * hu2

/-- Two points of the line at different parameters are different. -/
theorem line_points_ne (p0 u : Vec3 K) (t1 t2 : K) (hu : Vec3.lengthSquared u = 1)
    (ht : t1 ≠ t2) : Vec3.add p0 (u.scale t1) ≠ Vec3.add p0 (u.scale t2) := by
  intro h
  simp only [Vec3.add, Vec3.scale, Vec3.mk.injEq] at h
  obtain ⟨hx, hy, hz⟩ := h
  have hd : t1 - t2 ≠ 0 := sub_ne_zero.mpr ht
  have ex : u.x * (t1 - t2) = 0 := by linarith
  have ey : u.y * (t1 - t2) = 0 := by linarith
  have ez : u.z * (t1 - t2) = 0 := by linarith
  have ux : u.x = 0 := (mul_eq_zero.mp ex).resolve_right hd
  have uy : u.y = 0 := (mul_eq_zero.mp ey).resolve_right hd
  have uz : u.z = 0 := (mul_eq_zero.mp ez).resolve_right hd
  simp only [Vec3.lengthSquared, ux, uy, uz] at hu
  norm_num at hu

end PlaneLemmas

section PlaneProofs

/-- The intersection of two planes over the reals with the real square root: for caps `h1`, `h2` with unit normals,
`planeIntersect2` returns, and every division it has executed has a denominator that is not
0. When it returns `true`, `p1` and `p2` are two distinct points of the unit sphere on the
boundary planes of both caps. It returns `false` when the caps do not intersect, when the
cross product of the normals is null, and when the two planes have at most one point of the
unit sphere in common. -/
theorem planeIntersect2_two_points (env : Env ℝ) (h1 h2 : SphericalCap ℝ)
    (hn1 : Vec3.lengthSquared h1.n = 1) (hn2 : Vec3.lengthSquared h2.n = 1) :
    ∃ (res : Option (Vec3 ℝ × Vec3 ℝ)) (dens : List ℝ),
      planeIntersect2 { env with sqrt := Real.sqrt } h1 h2 = .ok (res, dens) ∧
      (∀ x, x ∈ dens → x ≠ 0) ∧
      (∀ p1 p2, res = some (p1, p2) →
        p1 ≠ p2 ∧ Vec3.lengthSquared p1 = 1 ∧ Vec3.lengthSquared p2 = 1 ∧
          p1.dot h1.n = h1.d ∧ p1.dot h2.n = h2.d ∧
          p2.dot h1.n = h1.d ∧ p2.dot h2.n = h2.d) ∧
      (SphericalCap.intersects { env with sqrt := Real.sqrt } h1 h2 = false → res = none) ∧
      (h1.n.cross h2.n = ⟨0, 0, 0⟩ → res = none) ∧
      ((∀ p q : Vec3 ℝ, Vec3.lengthSquared p = 1 → Vec3.lengthSquared q = 1 →
          p.dot h1.n = h1.d → p.dot h2.n = h2.d → q.dot h1.n = h1.d → q.dot h2.n = h2.d →
          p = q) → res = none) := by
  have hsqrt : ∀ x, 0 < x →
      0 < ({ env with sqrt := Real.sqrt } : Env ℝ).sqrt x ∧
        ({ env with sqrt := Real.sqrt } : Env ℝ).sqrt x
          * ({ env with sqrt := Real.sqrt } : Env ℝ).sqrt x = x := real_sqrt_pos
  generalize ({ env with sqrt := Real.sqrt } : Env ℝ) = e at hsqrt ⊢
  -- the last case follows from the description of a `true` return
  suffices hmain : ∃ (res : Option (Vec3 ℝ × Vec3 ℝ)) (dens : List ℝ),
      planeIntersect2 e h1 h2 = .ok (res, dens) ∧
      (∀ x, x ∈ dens → x ≠ 0) ∧
      (∀ p1 p2, res = some (p1, p2) →
        p1 ≠ p2 ∧ Vec3.lengthSquared p1 = 1 ∧ Vec3.lengthSquared p2 = 1 ∧
          p1.dot h1.n = h1.d ∧ p1.dot h2.n = h2.d ∧
          p2.dot h1.n = h1.d ∧ p2.dot h2.n = h2.d) ∧
      (SphericalCap.intersects e h1 h2 = false → res = none) ∧
      (h1.n.cross h2.n = ⟨0, 0, 0⟩ → res = none) by
    obtain ⟨res, dens, hrun, hden, htrue, hcaps, hpar⟩ := hmain
    refine ⟨res, dens, hrun, hden, htrue, hcaps, hpar, fun huniq => ?_⟩
    cases hres : res with
    | none => rfl
    | some pq =>
      obtain ⟨p1, p2⟩ := pq
      obtain ⟨hne, ha, hb, hc, hd, he, hf⟩ := htrue p1 p2 hres
      exact absurd (huniq p1 p2 ha hb hc hd he hf) hne
  have hq1 : qAssert e (decide (|Vec3.lengthSquared h1.n - 1| < 1 / 1000000)) = .ok () := by
    rw [hn1]
    simp [qAssert]
  have hq2 : qAssert e (decide (|Vec3.lengthSquared h2.n - 1| < 1 / 1000000)) = .ok () := by
    rw [hn2]
    simp [qAssert]
  by_cases hint : SphericalCap.intersects e h1 h2 = true
  swap
  · -- the caps do not intersect
    refine ⟨none, [], ?_, fun x hx => (by cases hx), fun p1 p2 h => (by cases h),
      fun _ => rfl, fun _ => rfl⟩
    simp only [planeIntersect2, hint, Bool.not_false, if_true, pure, Except.pure]
  by_cases hraw : (h1.n.cross h2.n).x = 0 ∧ (h1.n.cross h2.n).y = 0 ∧ (h1.n.cross h2.n).z = 0
  · -- the normals are parallel
    refine ⟨none, [], ?_, fun x hx => (by cases hx), fun p1 p2 h => (by cases h),
      fun _ => rfl, fun _ => rfl⟩
    unfold planeIntersect2
    simp only [hint, Bool.not_true, Bool.false_eq_true, if_false, hq1, hq2, bind, Except.bind,
      Vec3.get]
    rw [if_pos hraw]
    rfl
  unfold planeIntersect2
  simp only [hint, Bool.not_true, Bool.false_eq_true, if_false, hq1, hq2, bind, Except.bind,
    Vec3.get]
  rw [if_neg hraw]
  have hrawne : h1.n.cross h2.n ≠ ⟨0, 0, 0⟩ := by
    intro h0
    apply hraw
    rw [h0]
    exact ⟨rfl, rfl, rfl⟩
  have hL := length_pos_of_lengthSquared_pos e hsqrt _ (lengthSquared_pos_of_ne _ hrawne)
  have hu : Vec3.lengthSquared (Vec3.normalize e (h1.n.cross h2.n)) = 1 :=
    normalize_lengthSquared e hsqrt _ (lengthSquared_pos_of_ne _ hrawne)
  have hu1 : (Vec3.normalize e (h1.n.cross h2.n)).dot h1.n = 0 := by
    rw [normalize_dot, cross_dot_left, zero_div]
  have hu2 : (Vec3.normalize e (h1.n.cross h2.n)).dot h2.n = 0 := by
    rw [normalize_dot, cross_dot_right, zero_div]
  have hden := planeIntersectStart_denom_ne h1.n h2.n (-h1.d) (-h2.d)
    (Vec3.length e (h1.n.cross h2.n)) hL.1 hraw
  have hon := planeIntersectStart_on_planes _ _ _ _ _ _ _ _ _ hden
  rw [neg_neg, neg_neg] at hon
  change (planeIntersectStart
      (if |(Vec3.normalize e (h1.n.cross h2.n)).x| ≥ |(Vec3.normalize e (h1.n.cross h2.n)).y|
        then (if |(Vec3.normalize e (h1.n.cross h2.n)).x|
            ≥ |(Vec3.normalize e (h1.n.cross h2.n)).z| then 0 else 2)
        else (if |(Vec3.normalize e (h1.n.cross h2.n)).z|
            > |(Vec3.normalize e (h1.n.cross h2.n)).y| then 2 else 1))
      h1.n.x h1.n.y h1.n.z (-h1.d) h2.n.x h2.n.y h2.n.z (-h2.d)).2 ≠ 0 at hden
  change (planeIntersectStart
      (if |(Vec3.normalize e (h1.n.cross h2.n)).x| ≥ |(Vec3.normalize e (h1.n.cross h2.n)).y|
        then (if |(Vec3.normalize e (h1.n.cross h2.n)).x|
            ≥ |(Vec3.normalize e (h1.n.cross h2.n)).z| then 0 else 2)
        else (if |(Vec3.normalize e (h1.n.cross h2.n)).z|
            > |(Vec3.normalize e (h1.n.cross h2.n)).y| then 2 else 1))
      h1.n.x h1.n.y h1.n.z (-h1.d) h2.n.x h2.n.y h2.n.z (-h2.d)).1.dot h1.n = h1.d ∧
    (planeIntersectStart
      (if |(Vec3.normalize e (h1.n.cross h2.n)).x| ≥ |(Vec3.normalize e (h1.n.cross h2.n)).y|
        then (if |(Vec3.normalize e (h1.n.cross h2.n)).x|
            ≥ |(Vec3.normalize e (h1.n.cross h2.n)).z| then 0 else 2)
        else (if |(Vec3.normalize e (h1.n.cross h2.n)).z|
            > |(Vec3.normalize e (h1.n.cross h2.n)).y| then 2 else 1))
      h1.n.x h1.n.y h1.n.z (-h1.d) h2.n.x h2.n.y h2.n.z (-h2.d)).1.dot h2.n = h2.d at hon
  generalize planeIntersectStart
      (if |(Vec3.normalize e (h1.n.cross h2.n)).x| ≥ |(Vec3.normalize e (h1.n.cross h2.n)).y|
        then (if |(Vec3.normalize e (h1.n.cross h2.n)).x|
            ≥ |(Vec3.normalize e (h1.n.cross h2.n)).z| then 0 else 2)
        else (if |(Vec3.normalize e (h1.n.cross h2.n)).z|
            > |(Vec3.normalize e (h1.n.cross h2.n)).y| then 2 else 1))
      h1.n.x h1.n.y h1.n.z (-h1.d) h2.n.x h2.n.y h2.n.z (-h2.d) = start at hden hon ⊢
  generalize Vec3.normalize e (h1.n.cross h2.n) = u at hu hu1 hu2 ⊢
  generalize Vec3.length e (h1.n.cross h2.n) = L at hL ⊢
  obtain ⟨hon1, hon2⟩ := hon
  by_cases hD : start.1.dot u * 2 * (start.1.dot u * 2) - 4 * (Vec3.lengthSquared start.1 - 1) ≤ 0
  · -- at most one point of the line is on the sphere
    rw [if_pos hD]
    refine ⟨none, [L, start.2, start.2], rfl, ?_, fun p1 p2 h => (by cases h),
      fun _ => rfl, fun _ => rfl⟩
    intro x hx
    simp only [List.mem_cons, List.mem_singleton, List.not_mem_nil, or_false, or_self] at hx
    rcases hx with rfl | rfl
    · exact ne_of_gt hL.1
    · exact hden
  · rw [if_neg hD]
    obtain ⟨hspos, hssq⟩ := hsqrt _ (not_le.mp hD)
    generalize e.sqrt (start.1.dot u * 2 * (start.1.dot u * 2)
      - 4 * (Vec3.lengthSquared start.1 - 1)) = sD at hspos hssq ⊢
    have ht1 : (-(start.1.dot u * 2) + sD) / 2 * ((-(start.1.dot u * 2) + sD) / 2)
        + start.1.dot u * 2 * ((-(start.1.dot u * 2) + sD) / 2)
        + (Vec3.lengthSquared start.1 - 1) = 0 := by
      linear_combination (1 / 4) * hssq
    have ht2 : (-(start.1.dot u * 2) - sD) / 2 * ((-(start.1.dot u * 2) - sD) / 2)
        + start.1.dot u * 2 * ((-(start.1.dot u * 2) - sD) / 2)
        + (Vec3.lengthSquared start.1 - 1) = 0 := by
      linear_combination (1 / 4) * hssq
    have hp1 := line_point_on_sphere start.1 u h1.n h2.n _ h1.d h2.d hu hu1 hu2 hon1 hon2 ht1
    have hp2 := line_point_on_sphere start.1 u h1.n h2.n _ h1.d h2.d hu hu1 hu2 hon1 hon2 ht2
    have hne : Vec3.add start.1 (u.scale ((-(start.1.dot u * 2) + sD) / 2))
        ≠ Vec3.add start.1 (u.scale ((-(start.1.dot u * 2) - sD) / 2)) := by
      apply line_points_ne _ _ _ _ hu
      intro h
      linarith
    have hqa : qAssert e (decide (|(1 : ℝ) - 1| < 1 / 1000000)) = .ok () := by
      simp [qAssert]
    rw [hp1.1, hp2.1]
    simp only [hqa]
    refine ⟨_, _, rfl, ?_, ?_, fun h => ?_, fun h => ?_⟩
    · intro x hx
      simp only [List.mem_cons, List.mem_singleton, List.not_mem_nil, or_false] at hx
      rcases hx with rfl | rfl | rfl | rfl | rfl
      · exact ne_of_gt hL.1
      · exact hden
      · exact hden
      · norm_num
      · norm_num
    · intro p1 p2 h
      simp only [Option.some.injEq, Prod.mk.injEq] at h
      obtain ⟨rfl, rfl⟩ := h
      exact ⟨hne, hp1.1, hp2.1, hp1.2.1, hp1.2.2, hp2.2.1, hp2.2.2⟩
    · cases h
    · exact absurd h hrawne

/-- The planes `x = 0` and `y = 0` meet the unit sphere at the two poles. -/
theorem planeIntersect2_sample :
    planeIntersect2 (mathEnv Real.pi Real.cos Real.sin Real.arccos Real.sqrt)
        ⟨⟨1, 0, 0⟩, 0⟩ ⟨⟨0, 1, 0⟩, 0⟩
      = .ok (some (⟨0, 0, 1⟩, ⟨0, 0, -1⟩), [1, 1, 1, 2, 2]) := by
  have h4 : Real.sqrt 4 = 2 := by
    rw [show (4 : ℝ) = 2 * 2 by norm_num]
    exact Real.sqrt_mul_self (by norm_num)
  have hpi : Real.pi / 2 ≤ Real.pi / 2 + Real.pi / 2 := by linarith [Real.pi_pos]
  simp [planeIntersect2, planeIntersectStart, SphericalCap.intersects, mathEnv, qAssert,
    Vec3.cross, Vec3.normalize, Vec3.length, Vec3.lengthSquared, Vec3.add, Vec3.dot,
    Vec3.scale, Vec3.get, bind, Except.bind, pure, Except.pure, hpi]
  norm_num [h4]
  intro h
  exact absurd h (not_lt.mpr Real.pi_pos.le)

/-- The caps of the half spaces `x >= 0` and `y >= 0`: the two points are the poles. -/
theorem planeIntersect2_two_points_witness :
    (Vec3.lengthSquared (⟨1, 0, 0⟩ : Vec3 ℝ) = 1 ∧
        Vec3.lengthSquared (⟨0, 1, 0⟩ : Vec3 ℝ) = 1) ∧
      planeIntersect2 (mathEnv Real.pi Real.cos Real.sin Real.arccos Real.sqrt)
          ⟨⟨1, 0, 0⟩, 0⟩ ⟨⟨0, 1, 0⟩, 0⟩
        = .ok (some (⟨0, 0, 1⟩, ⟨0, 0, -1⟩), [1, 1, 1, 2, 2]) ∧
      (⟨0, 0, 1⟩ : Vec3 ℝ) ≠ ⟨0, 0, -1⟩ ∧
      (⟨0, 0, 1⟩ : Vec3 ℝ).dot ⟨1, 0, 0⟩ = 0 ∧ (⟨0, 0, 1⟩ : Vec3 ℝ).dot ⟨0, 1, 0⟩ = 0 := by
  have h1 : Vec3.lengthSquared (⟨1, 0, 0⟩ : Vec3 ℝ) = 1 := by norm_num [Vec3.lengthSquared]
  have h2 : Vec3.lengthSquared (⟨0, 1, 0⟩ : Vec3 ℝ) = 1 := by norm_num [Vec3.lengthSquared]
  obtain ⟨res, dens, hrun, _, htrue, _⟩ := planeIntersect2_two_points
    (mathEnv Real.pi Real.cos Real.sin Real.arccos Real.sqrt) ⟨⟨1, 0, 0⟩, 0⟩ ⟨⟨0, 1, 0⟩, 0⟩
    h1 h2
  have hs := planeIntersect2_sample
  have hrun' : planeIntersect2 (mathEnv Real.pi Real.cos Real.sin Real.arccos Real.sqrt)
      ⟨⟨1, 0, 0⟩, 0⟩ ⟨⟨0, 1, 0⟩, 0⟩ = .ok (res, dens) := hrun
  rw [hs] at hrun'
  simp only [Except.ok.injEq, Prod.mk.injEq] at hrun'
  obtain ⟨hres, _⟩ := hrun'
  obtain ⟨hne, _, _, hd1, hd2, _, _⟩ := htrue _ _ hres.symm
  exact ⟨⟨h1, h2⟩, hs, hne, hd1, hd2⟩

end PlaneProofs

/-! ## The contours of a difference -/

section SubtractionProofs

variable {K : Type} [LinearOrderedField K]

/-- The result of `setContours` depends on the tesselator through its output on the
contours and the winding rule given. -/
theorem setContours_congr (env : Env K) (contours : List (List (Vec3 K)))
    (rule : PolyWindingRule)
    (f g : PolyWindingRule → List (List (Vec3 K)) → List (Vec3 K × Bool))
    (h : f rule contours = g rule contours) :
    SphericalPolygon.setContours { env with tesselate := f } contours rule
      = SphericalPolygon.setContours { env with tesselate := g } contours rule := by
  unfold SphericalPolygon.setContours
  simp only [h]
  rfl

/-- A contour list that `getContours` returns is the list of the triangles of the mesh. -/
theorem getContours_eq (env : Env K) (p : SphericalPolygon K) (cs : List (List (Vec3 K)))
    (h : p.getContours env = .ok cs) :
    cs = (List.range (p.triangleVertices.length / 3)).map
      (fun i => (p.triangleVertices.drop (i * 3)).take 3) := by
  unfold SphericalPolygon.getContours at h
  rcases qAssert_cases env (p.triangleVertices.length % 3 == 0) with h1 | h1
  · simp only [h1, bind, Except.bind] at h
    split_ifs at h
    · rcases qAssert_cases env (((List.range (p.triangleVertices.length / 3)).map
          (fun i => (p.triangleVertices.drop (i * 3)).take 3)).all
          (fun l => decide (0 ≤ ((vAt l 1).cross (vAt l 0)).dot (vAt l 2)))) with h2 | h2
      · simp only [h2] at h
        cases h
        rfl
      · simp only [h2] at h
        cases h
    · cases h
      rfl
  · simp only [h1, bind, Except.bind] at h
    cases h

/-- C23: the contour list of a difference. When `getContours` returns `ca` for `A` and `cb`
for `B` (the triangles of their meshes), `A.getSubtraction(B)` is the polygon that
`setContours` builds with the rule `WindingPositive` from `ca` followed by the contours of
`cb`, in their order, each with its vertices reversed, and it depends on the tesselator
through its output on that contour list and that rule alone. Reversing a triangle
`(a, b, c)` to `(c, b, a)` negates its orientation `(b x a) . c`. -/
theorem getSubtraction_contour_list (env : Env K) (a b : SphericalPolygon K) :
    (∀ ca cb, a.getContours env = .ok ca → b.getContours env = .ok cb →
      ca = (List.range (a.triangleVertices.length / 3)).map
          (fun i => (a.triangleVertices.drop (i * 3)).take 3) ∧
        cb = (List.range (b.triangleVertices.length / 3)).map
          (fun i => (b.triangleVertices.drop (i * 3)).take 3) ∧
        a.getSubtraction env b
          = SphericalPolygon.setContours env (ca ++ cb.map List.reverse) .WindingPositive ∧
        ∀ f g : PolyWindingRule → List (List (Vec3 K)) → List (Vec3 K × Bool),
          f .WindingPositive (ca ++ cb.map List.reverse)
              = g .WindingPositive (ca ++ cb.map List.reverse) →
            a.getSubtraction { env with tesselate := f } b
              = a.getSubtraction { env with tesselate := g } b) ∧
      (∀ x y z : Vec3 K,
        [x, y, z].reverse = [z, y, x] ∧
        ((vAt [x, y, z].reverse 1).cross (vAt [x, y, z].reverse 0)).dot
            (vAt [x, y, z].reverse 2)
          = -(((vAt [x, y, z] 1).cross (vAt [x, y, z] 0)).dot (vAt [x, y, z] 2))) := by
  constructor
  · intro ca cb ha hb
    have hsub : ∀ f : PolyWindingRule → List (List (Vec3 K)) → List (Vec3 K × Bool),
        a.getSubtraction { env with tesselate := f } b
          = SphericalPolygon.setContours { env with tesselate := f }
            (ca ++ cb.map List.reverse) .WindingPositive := by
      intro f
      have ha' : a.getContours { env with tesselate := f } = .ok ca := ha
      have hb' : b.getContours { env with tesselate := f } = .ok cb := hb
      unfold SphericalPolygon.getSubtraction
      rw [ha', hb']
      simp only [bind, Except.bind]
      rw [foldl_append_reverse]
      rfl
    refine ⟨getContours_eq env a ca ha, getContours_eq env b cb hb, hsub env.tesselate, ?_⟩
    intro f g hfg
    rw [hsub f, hsub g]
    exact setContours_congr env _ _ f g hfg
  · intro x y z
    refine ⟨rfl, ?_⟩
    show (y.cross z).dot x = -((y.cross x).dot z)
    simp only [Vec3.cross, Vec3.dot]
    ring

end SubtractionProofs

/-! ## The fan of a convex polygon -/

section FanLemmas

variable {K : Type}

/-- The vertices appended by the loop of `getVertexArray`. -/
theorem foldl_fan_vertex (f0 f1 f2 : Nat → Vec3 K) (ks : List Nat) (ar : StelVertexArray K) :
    (ks.foldl
        (fun (ar : StelVertexArray K) k =>
          ⟨ar.vertex ++ [f0 k, f1 k, f2 k], ar.edgeFlags ++ [false, true, false]⟩) ar).vertex
      = ar.vertex ++ ks.flatMap (fun k => [f0 k, f1 k, f2 k]) := by
  induction ks generalizing ar with
  | nil => simp
  | cons k ks ih =>
    rw [List.foldl_cons, ih]
    simp

/-- The fan `(c0, ci, ci+1)` for `i` from 1 to `m + 2`, split as the loop of
`getVertexArray` builds it: the first triangle, the `m` triangles of the loop, the last
triangle. -/
theorem fan_split (f : Nat → List (Vec3 K)) (m : Nat) :
    (List.range (m + 2)).flatMap f
      = f 0 ++ (List.range m).flatMap (fun k => f (k + 1)) ++ f (m + 1) := by
  rw [List.range_succ_eq_map, List.flatMap_cons, List.range_succ, List.map_append,
    List.flatMap_append, List.flatMap_map]
  simp [List.append_assoc, Function.comp_def]

end FanLemmas

section FanProofs

variable {K : Type} [LinearOrderedField K]

/-- C24: `getVertexArray()` is not a fan without repetition for a contour of 3 vertices: it
returns 2 triangles (6 vertices), the triangle `(c0, c1, c2)` twice, where the fan has
`n - 2 = 1` triangle. For a contour of `n >= 4` vertices it returns the fan: the triangles
`(c0, ci, ci+1)` for `i = 1..n-2`, each once, in this order. -/
theorem getVertexArray_triangle_emitted_twice (a b c : Vec3 K) :
    SphericalConvexPolygon.getVertexArray [a, b, c]
        = ⟨[a, b, c, a, b, c], [true, true, false, false, true, true]⟩ ∧
      (SphericalConvexPolygon.getVertexArray [a, b, c]).vertex.length = 6 ∧
      (SphericalConvexPolygon.getVertexArray [a, b, c]).vertex.length
        ≠ 3 * ([a, b, c].length - 2) ∧
      (∀ contour : List (Vec3 K), 4 ≤ contour.length →
        (SphericalConvexPolygon.getVertexArray contour).vertex
            = (List.range (contour.length - 2)).flatMap
              (fun i => [vAt contour 0, vAt contour (i + 1), vAt contour (i + 2)]) ∧
          (SphericalConvexPolygon.getVertexArray contour).vertex.length
            = 3 * (contour.length - 2)) := by
  refine ⟨rfl, rfl, by simp [SphericalConvexPolygon.getVertexArray], ?_⟩
  intro contour hn
  have hfan : (SphericalConvexPolygon.getVertexArray contour).vertex
      = (List.range (contour.length - 2)).flatMap
        (fun i => [vAt contour 0, vAt contour (i + 1), vAt contour (i + 2)]) := by
    have hm : contour.length - 2 = (contour.length - 2 - 2) + 2 := by omega
    rw [hm, fan_split]
    show (_ ++ [_, _, _] : List (Vec3 K)) = _
    rw [foldl_fan_vertex (fun _ => vAt contour 0) (fun k => vAt contour (k + 2))
      (fun k => vAt contour (k + 2 + 1))]
    have e1 : contour.length - 2 - 2 + 2 = contour.length - 2 := by omega
    have e2 : contour.length - 2 - 2 + 1 + 1 = contour.length - 2 := by omega
    have e3 : contour.length - 2 - 2 + 1 + 2 = contour.length - 1 := by omega
    simp only [e1, e2, e3, vLast]
  refine ⟨hfan, ?_⟩
  rw [hfan]
  have hl : ∀ n : Nat, ((List.range n).flatMap
      (fun i => [vAt contour 0, vAt contour (i + 1), vAt contour (i + 2)])).length = 3 * n := by
    intro n
    induction n with
    | zero => rfl
    | succ n ih =>
      rw [List.range_succ, List.flatMap_append, List.length_append, ih]
      simp
      omega
  exact hl _

end FanProofs

/-! ## The vertices kept by `splitContourByPlan` -/

section SplitCountProofs

variable {K : Type} [LinearOrderedField K]

/-- The statement `result[quadrant] << subContour` adds one sub-contour, `subContour`, to
those appended so far. -/
theorem pushResult_count (res : List (SubContour K) × List (SubContour K))
    (n0 n1 : List (SubContour K)) (quadrant : Nat) (s : SubContour K) :
    ∃ n0' n1', pushResult (res.1 ++ n0, res.2 ++ n1) quadrant s = (res.1 ++ n0', res.2 ++ n1') ∧
      (∀ e, List.count e (n0' ++ n1').flatten
        = List.count e (n0 ++ n1).flatten + List.count e s) ∧
      (n0' ++ n1').length = (n0 ++ n1).length + 1 ∧
      ∀ s', s' ∈ n0' ++ n1' → s' ∈ n0 ++ n1 ∨ s' = s := by
  unfold pushResult
  by_cases hq : quadrant = 0
  · refine ⟨n0 ++ [s], n1, by simp [hq], fun e => ?_, ?_, ?_⟩
    · simp only [List.flatten_append, List.count_append, List.flatten_cons, List.flatten_nil,
        List.append_nil]
      omega
    · simp only [List.length_append, List.length_cons, List.length_nil]
      omega
    · intro s' hs'
      simp only [List.mem_append, List.mem_singleton] at hs' ⊢
      tauto
  · refine ⟨n0, n1 ++ [s], by simp [hq], fun e => ?_, ?_, ?_⟩
    · simp only [List.flatten_append, List.count_append, List.flatten_cons, List.flatten_nil,
        List.append_nil]
      omega
    · simp only [List.length_append, List.length_cons, List.length_nil]
      omega
    · intro s' hs'
      simp only [List.mem_append, List.mem_singleton] at hs' ⊢
      tauto

/-- The first loop: either every vertex is on the side of `previousQuadrant` and goes to
`unfinishedSubContour`, or the loop stops at the first vertex `v` of the other side, with a
closing crossing point after the vertices before `v` and an opening one in
`currentSubContour`, and leaves `v` and what follows it to the second loop. -/
theorem splitFirstLoop_spec (env : Env K) (onLine : Nat) (plan : Vec3 K) :
    ∀ (l : List (EdgeVertex K)) (st st' : SplitState K),
      splitFirstLoop env onLine plan l st = .ok st' →
      st'.result = st.result ∧
        ((st'.rest = [] ∧ st'.unfinishedSubContour = st.unfinishedSubContour ++ l ∧
            st'.currentSubContour = st.currentSubContour ∧
            (∀ v, v ∈ l → getSide v.vertex onLine = st.previousQuadrant) ∧
            (l ≠ [] → st'.currentQuadrant = st.previousQuadrant)) ∨
          ∃ (pre : List (EdgeVertex K)) (v : EdgeVertex K) (post : List (EdgeVertex K))
            (tmp : Vec3 K) (f : Bool),
            l = pre ++ v :: post ∧ st'.rest = v :: post ∧
            st'.unfinishedSubContour = st.unfinishedSubContour ++ pre ++ [⟨tmp, false⟩] ∧
            st'.currentSubContour = st.currentSubContour ++ [⟨tmp, f⟩]) := by
  intro l
  induction l with
  | nil =>
    intro st st' h
    simp only [splitFirstLoop, pure, Except.pure, Except.ok.injEq] at h
    subst h
    refine ⟨rfl, Or.inl ⟨rfl, ?_, rfl, ?_, ?_⟩⟩
    · exact (List.append_nil _).symm
    · intro v hv
      cases hv
    · intro h
      exact absurd rfl h
  | cons v rest ih =>
    intro st st' h
    rw [splitFirstLoop] at h
    by_cases hq : getSide v.vertex onLine = st.previousQuadrant
    · simp only [hq, if_true] at h
      obtain ⟨hres, hcase⟩ := ih _ _ h
      refine ⟨hres, ?_⟩
      rcases hcase with ⟨h1, h2, h3, h4, h5⟩ | ⟨pre, w, post, tmp, f, h1, h2, h3, h4⟩
      · left
        refine ⟨h1, by simpa using h2, h3, ?_, fun _ => ?_⟩
        · intro u hu
          rcases List.mem_cons.mp hu with rfl | hu
          · exact hq
          · exact h4 u hu
        · by_cases hrest : rest = []
          · subst hrest
            simp only [splitFirstLoop, pure, Except.pure, Except.ok.injEq] at h
            subst h
            rfl
          · exact h5 hrest
      · right
        refine ⟨v :: pre, w, post, tmp, f, by simp [h1], h2, by simpa using h3, h4⟩
    · simp only [hq, if_false] at h
      cases hi : interpolateAtCrossingPoint env st.previousVertex.vertex v.vertex plan with
      | error err => simp [hi, bind, Except.bind] at h
      | ok tmp =>
        rcases qAssert_cases env st.currentSubContour.isEmpty with ha | ha
        · simp only [hi, ha, bind, Except.bind, pure, Except.pure, Except.ok.injEq] at h
          subst h
          exact ⟨rfl, Or.inr ⟨[], v, rest, tmp, st.previousVertex.edgeFlag, rfl, rfl,
            by simp, rfl⟩⟩
        · simp [hi, ha, bind, Except.bind] at h

/-- The second loop moves every vertex of the input it is given to `currentSubContour` or to
a sub-contour of `result`; at each crossing it closes the current sub-contour with a crossing
point, appends it to `result`, and opens the next one with the same point. -/
theorem splitSecondLoop_spec (env : Env K) (onLine : Nat) (plan : Vec3 K)
    (res : List (SubContour K) × List (SubContour K)) :
    ∀ (l : List (EdgeVertex K)) (st st' : SplitState K) (n0 n1 : List (SubContour K))
      (o : Vec3 K × Bool) (tl : List (EdgeVertex K)),
      st.result = (res.1 ++ n0, res.2 ++ n1) →
      st.currentSubContour = ⟨o.1, o.2⟩ :: tl →
      splitSecondLoop env onLine plan l st = .ok st' →
      st'.unfinishedSubContour = st.unfinishedSubContour ∧
        ∃ (n0' n1' : List (SubContour K)) (cr : List (Vec3 K × Bool)),
          st'.result = (res.1 ++ n0', res.2 ++ n1') ∧
          (∀ e, List.count e (n0' ++ n1').flatten + List.count e st'.currentSubContour
            = List.count e (n0 ++ n1).flatten + List.count e st.currentSubContour
              + List.count e l + List.count e (cr.flatMap crossingPair)) ∧
          (n0' ++ n1').length = (n0 ++ n1).length + cr.length ∧
          (∀ s, s ∈ n0' ++ n1' → s ∈ n0 ++ n1 ∨
            ∃ (o' c : Vec3 K × Bool) (mid : List (EdgeVertex K)),
              (o' = o ∨ o' ∈ cr) ∧ c ∈ cr ∧ s = ⟨o'.1, o'.2⟩ :: (mid ++ [⟨c.1, false⟩])) ∧
          ∃ (o' : Vec3 K × Bool) (tl' : List (EdgeVertex K)),
            (o' = o ∨ o' ∈ cr) ∧ st'.currentSubContour = ⟨o'.1, o'.2⟩ :: tl' := by
  intro l
  induction l with
  | nil =>
    intro st st' n0 n1 o tl hr hcur h
    simp only [splitSecondLoop, pure, Except.pure, Except.ok.injEq] at h
    subst h
    exact ⟨rfl, n0, n1, [], hr, fun e => by simp, by simp, fun s hs => Or.inl hs,
      o, tl, Or.inl rfl, hcur⟩
  | cons v rest ih =>
    intro st st' n0 n1 o tl hr hcur h
    rw [splitSecondLoop] at h
    by_cases hq : getSide v.vertex onLine = st.previousQuadrant
    · simp only [hq, if_true] at h
      have hx := fun hr' hcur' => ih _ _ n0 n1 o (tl ++ [v]) hr' hcur' h
      obtain ⟨hunf, n0', n1', cr, hres, hc, hlen, hshape, hopen⟩ :=
        hx hr (by simp [hcur])
      refine ⟨hunf, n0', n1', cr, hres, fun e => ?_, hlen, hshape, hopen⟩
      have := hc e
      simp only [List.count_append, List.count_cons, List.count_nil] at this ⊢
      omega
    · simp only [hq, if_false] at h
      cases hi : interpolateAtCrossingPoint env st.previousVertex.vertex v.vertex plan with
      | error err => simp [hi, bind, Except.bind] at h
      | ok tmp =>
        simp only [hi, bind, Except.bind] at h
        obtain ⟨m0, m1, hpush, hcount, hplen, hpmem⟩ :=
          pushResult_count res n0 n1 st.previousQuadrant
            (st.currentSubContour ++ [⟨tmp, false⟩])
        rw [hr, hpush] at h
        obtain ⟨hunf, n0', n1', cr, hres, hc, hlen, hshape, hopen⟩ :=
          ih _ _ m0 m1 (tmp, st.previousVertex.edgeFlag) [v] rfl rfl h
        refine ⟨hunf, n0', n1', (tmp, st.previousVertex.edgeFlag) :: cr, hres,
          fun e => ?_, ?_, ?_, ?_⟩
        · have h1 := hc e
          have h2 := hcount e
          simp only [List.count_append, List.count_cons, List.count_nil, crossingPair,
            List.flatMap_cons] at h1 h2 ⊢
          omega
        · rw [hlen, hplen, List.length_cons]
          omega
        · intro s hs
          rcases hshape s hs with hm | ⟨o', c, mid, ho', hc', hs'⟩
          · rcases hpmem s hm with hm' | rfl
            · exact Or.inl hm'
            · right
              refine ⟨o, (tmp, st.previousVertex.edgeFlag), tl, Or.inl rfl,
                List.mem_cons_self _ _, ?_⟩
              rw [hcur]
              rfl
          · right
            refine ⟨o', c, mid, ?_, List.mem_cons_of_mem _ hc', hs'⟩
            rcases ho' with rfl | ho'
            · exact Or.inr (List.mem_cons_self _ _)
            · exact Or.inr (List.mem_cons_of_mem _ ho')
        · obtain ⟨o', tl', ho', hcur'⟩ := hopen
          refine ⟨o', tl', ?_, hcur'⟩
          rcases ho' with rfl | ho'
          · exact Or.inr (List.mem_cons_self _ _)
          · exact Or.inr (List.mem_cons_of_mem _ ho')

/-- With assertions compiled out the first loop runs to its end. -/
theorem splitFirstLoop_release (env : Env K) (onLine : Nat) (plan : Vec3 K) :
    ∀ (l : List (EdgeVertex K)) (st : SplitState K),
      ∃ st', splitFirstLoop { env with assertions := false } onLine plan l st = .ok st' := by
  intro l
  induction l with
  | nil => exact fun st => ⟨_, rfl⟩
  | cons v rest ih =>
    intro st
    rw [splitFirstLoop]
    by_cases hq : getSide v.vertex onLine = st.previousQuadrant
    · simp only [hq, if_true]
      exact ih _
    · simp only [hq, if_false]
      obtain ⟨tmp, hi⟩ := interpolateAtCrossingPoint_release env st.previousVertex.vertex
        v.vertex plan
      simp only [hi, bind, Except.bind]
      exact ⟨_, rfl⟩

/-- With assertions compiled out the second loop runs to its end. -/
theorem splitSecondLoop_release (env : Env K) (onLine : Nat) (plan : Vec3 K) :
    ∀ (l : List (EdgeVertex K)) (st : SplitState K),
      ∃ st', splitSecondLoop { env with assertions := false } onLine plan l st = .ok st' := by
  intro l
  induction l with
  | nil => exact fun st => ⟨_, rfl⟩
  | cons v rest ih =>
    intro st
    rw [splitSecondLoop]
    by_cases hq : getSide v.vertex onLine = st.previousQuadrant
    · simp only [hq, if_true]
      exact ih _
    · simp only [hq, if_false]
      obtain ⟨tmp, hi⟩ := interpolateAtCrossingPoint_release env st.previousVertex.vertex
        v.vertex plan
      simp only [hi, bind, Except.bind]
      exact ih _

end SplitCountProofs

section SplitMainProofs

variable {K : Type} [LinearOrderedField K]

/-- On vertices that are all on the side of `previousQuadrant` the first loop runs to its end
and puts them all in `unfinishedSubContour`. -/
theorem splitFirstLoop_same_side (env : Env K) (onLine : Nat) (plan : Vec3 K) :
    ∀ (l : List (EdgeVertex K)) (st : SplitState K),
      (∀ v, v ∈ l → getSide v.vertex onLine = st.previousQuadrant) →
      ∃ st', splitFirstLoop env onLine plan l st = .ok st' ∧
        st'.rest = [] ∧ st'.unfinishedSubContour = st.unfinishedSubContour ++ l ∧
        st'.currentSubContour = st.currentSubContour ∧ st'.result = st.result ∧
        (l ≠ [] → st'.currentQuadrant = st.previousQuadrant) := by
  intro l
  induction l with
  | nil =>
    intro st _
    exact ⟨_, rfl, rfl, (List.append_nil _).symm, rfl, rfl, fun h => absurd rfl h⟩
  | cons v rest ih =>
    intro st hall
    have hq : getSide v.vertex onLine = st.previousQuadrant := hall v (List.mem_cons_self _ _)
    rw [splitFirstLoop]
    simp only [hq, if_true]
    obtain ⟨st', h, h1, h2, h3, h4, h5⟩ := ih
      { st with
        unfinishedSubContour := st.unfinishedSubContour ++ [v]
        currentQuadrant := st.previousQuadrant
        previousVertex := v }
      (fun u hu => hall u (List.mem_cons_of_mem _ hu))
    refine ⟨st', h, h1, by simpa using h2, h3, h4, fun _ => ?_⟩
    by_cases hrest : rest = []
    · subst hrest
      simp only [splitFirstLoop, pure, Except.pure, Except.ok.injEq] at h
      subst h
      rfl
    · exact h5 hrest

/-- A list of length 1 whose elements are all equal to `s` is `[s]`. -/
theorem eq_singleton_of_length_one {α : Type} (l : List α) (s : α) (hl : l.length = 1)
    (hm : ∀ x, x ∈ l → x = s) : l = [s] := by
  match l, hl with
  | [x], _ => rw [hm x (List.mem_singleton_self x)]

end SplitMainProofs

section SplitClaim

variable {K : Type} [LinearOrderedField K]

/-- C25: `splitContourByPlan` loses and duplicates no vertex. Whenever it returns, it has
appended sub-contours to `result[0]` and `result[1]` whose vertices are, counted with their
multiplicity, the vertices of the input (with their edge flags) and one pair of crossing
points per crossing. With no crossing the one sub-contour appended is the input; otherwise
there are as many sub-contours as crossings, each opened by a crossing point and closed by
a crossing point with the edge flag `false`. With assertions compiled out the function
returns for every non-empty input; and when every vertex of a non-empty input is on the side
`s`, it returns having appended the unchanged input to `result[s]`. -/
theorem splitContourByPlan_keeps_vertices (env : Env K) (onLine : Nat)
    (inputContour : SubContour K) (result : List (SubContour K) × List (SubContour K)) :
    (∀ r, splitContourByPlan env onLine inputContour result = .ok r →
      ∃ (new0 new1 : List (SubContour K)) (cr : List (Vec3 K × Bool)),
        r = (result.1 ++ new0, result.2 ++ new1) ∧
        List.Perm (new0 ++ new1).flatten (inputContour ++ cr.flatMap crossingPair) ∧
        (new0 ++ new1).length = max 1 cr.length ∧
        (cr = [] → new0 ++ new1 = [inputContour]) ∧
        (cr ≠ [] → ∀ s, s ∈ new0 ++ new1 →
          ∃ (o c : Vec3 K × Bool) (mid : List (EdgeVertex K)),
            o ∈ cr ∧ c ∈ cr ∧ s = ⟨o.1, o.2⟩ :: (mid ++ [⟨c.1, false⟩]))) ∧
      (inputContour ≠ [] →
        ∃ r, splitContourByPlan { env with assertions := false } onLine inputContour result
          = .ok r) ∧
      (∀ s, inputContour ≠ [] →
        (∀ v, v ∈ inputContour → getSide v.vertex onLine = s) →
        splitContourByPlan env onLine inputContour result
          = .ok (pushResult result s inputContour)) := by
  refine ⟨?_, ?_, ?_⟩
  · intro r h
    cases inputContour with
    | nil => simp [splitContourByPlan] at h
    | cons first tail =>
      simp only [splitContourByPlan, bind, Except.bind] at h
      generalize hplan : (⟨if onLine = 0 then 1 else 0, if onLine = 1 then 1 else 0,
        if onLine = 2 then 1 else 0⟩ : Vec3 K) = plan at h
      generalize hst0 : SplitState.mk [] [] (getSide first.vertex onLine) 0 first
        (first :: tail) result = st0 at h
      cases h1 : splitFirstLoop env onLine plan (first :: tail) st0 with
      | error err => simp [h1] at h
      | ok st1 =>
        simp only [h1] at h
        obtain ⟨hres1, hcase⟩ := splitFirstLoop_spec env onLine plan _ _ _ h1
        have hst0r : st0.result = result := by rw [← hst0]
        have hst0u : st0.unfinishedSubContour = [] := by rw [← hst0]
        have hst0c : st0.currentSubContour = [] := by rw [← hst0]
        have hst0q : st0.previousQuadrant = getSide first.vertex onLine := by rw [← hst0]
        rcases hcase with ⟨hr1, hu1, hc1, _, hq1⟩ | ⟨pre, v, post, tmp, f, hl, hr1, hu1, hc1⟩
        · -- no crossing at all
          rw [hr1] at h
          simp only [splitSecondLoop, pure, Except.pure] at h
          have hq : getSide first.vertex onLine = st1.currentQuadrant := by
            rw [hq1 (List.cons_ne_nil _ _), hst0q]
          simp only [hq, if_true, Except.ok.injEq] at h
          obtain ⟨n0, n1, hpush, hcount, hlen, hmem⟩ :=
            pushResult_count result [] [] st1.currentQuadrant
              (st1.currentSubContour ++ st1.unfinishedSubContour)
          simp only [List.append_nil, Prod.mk.eta] at hpush
          have hsub : st1.currentSubContour ++ st1.unfinishedSubContour = first :: tail := by
            rw [hc1, hu1, hst0c, hst0u]
            rfl
          rw [hres1, hst0r, hpush] at h
          rw [hsub] at hcount hmem
          have hsingle : n0 ++ n1 = [first :: tail] :=
            eq_singleton_of_length_one _ _ (by simpa using hlen)
              (fun x hx => (hmem x hx).resolve_left (by simp))
          refine ⟨n0, n1, [], h.symm, ?_, by simpa using hlen, fun _ => hsingle,
            fun hne => absurd rfl hne⟩
          rw [List.perm_iff_count]
          intro e
          have := hcount e
          simp only [List.nil_append, List.flatten_nil, List.count_nil, List.flatMap_nil,
            List.append_nil, zero_add] at this ⊢
          exact this
        · -- a first crossing, before the vertex `v`
          rw [hst0u, List.nil_append] at hu1
          rw [hst0c, List.nil_append] at hc1
          rw [hr1] at h
          cases h2 : splitSecondLoop env onLine plan (v :: post) st1 with
          | error err => simp [h2] at h
          | ok st2 =>
            simp only [h2] at h
            obtain ⟨hu2, n0, n1, cr, hres2, hcount2, hlen2, hshape2, o', tl', ho', hcur2⟩ :=
              splitSecondLoop_spec env onLine plan result (v :: post) st1 st2 [] [] (tmp, f) []
                (by rw [hres1, hst0r]; simp) hc1 h2
            rw [hu1] at hu2
            simp only [List.nil_append, List.flatten_nil, List.count_nil, List.length_nil,
              zero_add, List.not_mem_nil, false_or] at hcount2 hlen2 hshape2
            have ho'' : o' ∈ (tmp, f) :: cr := by
              rcases ho' with rfl | ho'
              · exact List.mem_cons_self _ _
              · exact List.mem_cons_of_mem _ ho'
            have hshape : ∀ s, s ∈ n0 ++ n1 →
                ∃ (o c : Vec3 K × Bool) (mid : List (EdgeVertex K)),
                  o ∈ (tmp, f) :: cr ∧ c ∈ cr ∧ s = ⟨o.1, o.2⟩ :: (mid ++ [⟨c.1, false⟩]) := by
              intro s hs
              obtain ⟨o, c, mid, ho, hc, hs'⟩ := hshape2 s hs
              refine ⟨o, c, mid, ?_, hc, hs'⟩
              rcases ho with rfl | ho
              · exact List.mem_cons_self _ _
              · exact List.mem_cons_of_mem _ ho
            by_cases hq : getSide first.vertex onLine = st2.currentQuadrant
            · -- the closing edge does not cross
              simp only [hq, if_true, pure, Except.pure, Except.ok.injEq] at h
              obtain ⟨m0, m1, hpush, hcount, hlen, hmem⟩ :=
                pushResult_count result n0 n1 st2.currentQuadrant
                  (st2.currentSubContour ++ st2.unfinishedSubContour)
              rw [hres2, hpush] at h
              refine ⟨m0, m1, (tmp, f) :: cr, h.symm, ?_, ?_, fun hnil => (by cases hnil),
                fun _ s hs => ?_⟩
              · rw [List.perm_iff_count]
                intro e
                have e1 := hcount e
                have e2 := hcount2 e
                rw [hu2] at e1
                rw [hc1] at e2
                rw [hl]
                simp only [List.count_append, List.count_cons, List.count_nil, crossingPair,
                  List.flatMap_cons] at e1 e2 ⊢
                omega
              · rw [hlen, hlen2, List.length_cons]
                omega
              · rcases hmem s hs with hs' | rfl
                · obtain ⟨o, c, mid, ho, hc, hs''⟩ := hshape s hs'
                  exact ⟨o, c, mid, ho, List.mem_cons_of_mem _ hc, hs''⟩
                · refine ⟨o', (tmp, f), tl' ++ pre, ho'', List.mem_cons_self _ _, ?_⟩
                  rw [hcur2, hu2]
                  simp
            · -- the closing edge crosses
              simp only [hq, if_false] at h
              cases h3 : interpolateAtCrossingPoint env st2.previousVertex.vertex first.vertex
                  plan with
              | error err => simp [h3] at h
              | ok tmp3 =>
                simp only [h3, pure, Except.pure, Except.ok.injEq] at h
                obtain ⟨m0, m1, hpush, hcount, hlen, hmem⟩ :=
                  pushResult_count result n0 n1 st2.currentQuadrant
                    (st2.currentSubContour ++ [⟨tmp3, false⟩])
                obtain ⟨k0, k1, hpush', hcount', hlen', hmem'⟩ :=
                  pushResult_count result m0 m1 (getSide first.vertex onLine)
                    ([⟨tmp3, st2.previousVertex.edgeFlag⟩] ++ st2.unfinishedSubContour)
                rw [hres2, hpush, hpush'] at h
                refine ⟨k0, k1, (tmp, f) :: (cr ++ [(tmp3, st2.previousVertex.edgeFlag)]),
                  h.symm, ?_, ?_, fun hnil => (by cases hnil), fun _ s hs => ?_⟩
                · rw [List.perm_iff_count]
                  intro e
                  have e1 := hcount e
                  have e2 := hcount2 e
                  have e3 := hcount' e
                  rw [hu2] at e3
                  rw [hc1] at e2
                  rw [hl]
                  simp only [List.count_append, List.count_cons, List.count_nil, crossingPair,
                    List.flatMap_cons, List.flatMap_append, List.flatMap_nil,
                    List.append_nil] at e1 e2 e3 ⊢
                  omega
                · rw [hlen', hlen, hlen2, List.length_cons, List.length_append]
                  simp only [List.length_cons, List.length_nil]
                  omega
                · have hlast : (tmp3, st2.previousVertex.edgeFlag)
                      ∈ (tmp, f) :: (cr ++ [(tmp3, st2.previousVertex.edgeFlag)]) := by
                    simp
                  have hmono : ∀ x, x ∈ (tmp, f) :: cr →
                      x ∈ (tmp, f) :: (cr ++ [(tmp3, st2.previousVertex.edgeFlag)]) := by
                    intro x hx
                    rcases List.mem_cons.mp hx with rfl | hx
                    · exact List.mem_cons_self _ _
                    · exact List.mem_cons_of_mem _ (List.mem_append_left _ hx)
                  rcases hmem' s hs with hs' | rfl
                  · rcases hmem s hs' with hs'' | rfl
                    · obtain ⟨o, c, mid, ho, hc, hs3⟩ := hshape s hs''
                      exact ⟨o, c, mid, hmono o ho,
                        hmono c (List.mem_cons_of_mem _ hc), hs3⟩
                    · refine ⟨o', (tmp3, st2.previousVertex.edgeFlag), tl', hmono o' ho'',
                        hlast, ?_⟩
                      rw [hcur2]
                      rfl
                  · refine ⟨(tmp3, st2.previousVertex.edgeFlag), (tmp, f), pre, hlast,
                      List.mem_cons_self _ _, ?_⟩
                    rw [hu2]
                    rfl
  · intro hne
    cases inputContour with
    | nil => exact absurd rfl hne
    | cons first tail =>
      simp only [splitContourByPlan, bind, Except.bind]
      obtain ⟨st1, h1⟩ := splitFirstLoop_release env onLine
        ⟨if onLine = 0 then 1 else 0, if onLine = 1 then 1 else 0, if onLine = 2 then 1 else 0⟩
        (first :: tail)
        (SplitState.mk [] [] (getSide first.vertex onLine) 0 first (first :: tail) result)
      obtain ⟨st2, h2⟩ := splitSecondLoop_release env onLine
        ⟨if onLine = 0 then 1 else 0, if onLine = 1 then 1 else 0, if onLine = 2 then 1 else 0⟩
        st1.rest st1
      obtain ⟨tmp, h3⟩ := interpolateAtCrossingPoint_release env st2.previousVertex.vertex
        first.vertex
        ⟨if onLine = 0 then 1 else 0, if onLine = 1 then 1 else 0, if onLine = 2 then 1 else 0⟩
      simp only [h1, h2, h3]
      split_ifs <;> exact ⟨_, rfl⟩
  · intro s hne hall
    cases inputContour with
    | nil => exact absurd rfl hne
    | cons first tail =>
      have hs : getSide first.vertex onLine = s := hall first (List.mem_cons_self _ _)
      obtain ⟨st1, h1, hr1, hu1, hc1, hres1, hq1⟩ := splitFirstLoop_same_side env onLine
        ⟨if onLine = 0 then 1 else 0, if onLine = 1 then 1 else 0, if onLine = 2 then 1 else 0⟩
        (first :: tail)
        (SplitState.mk [] [] (getSide first.vertex onLine) 0 first (first :: tail) result)
        (fun v hv => by rw [hall v hv, hs])
      simp only [splitContourByPlan, bind, Except.bind, h1, hr1, splitSecondLoop, pure,
        Except.pure]
      have hq := hq1 (List.cons_ne_nil _ _)
      simp only at hq hu1 hc1 hres1
      simp only [hq, if_true, hu1, hc1, hres1, hs, List.nil_append]

end SplitClaim

/-! ## The constructor of `SubContour` -/

section SubContourProofs

variable {K : Type} [LinearOrderedField K]

/-- C26: the contour built by `SubContour(vertices, closed)` has the vertices of the list in
the same order, and every edge flag `true`, whatever `closed` is: the condition
`closed=false` is an assignment, so the branch that clears the flag of the last element is
never taken. For the open contour of the three vertices `(1,0,0), (0,1,0), (0,0,1)` the
last element has the edge flag `true`; had the branch been taken it would be `false`. -/
theorem subContour_open_last_flag_true (vertices : List (Vec3 K)) (closed : Bool) :
    SubContour.ofVertices vertices closed = vertices.map (fun v => ⟨v, true⟩) ∧
      (SubContour.ofVertices vertices closed).map (fun e => e.vertex) = vertices ∧
      (∀ e, e ∈ SubContour.ofVertices vertices closed → e.edgeFlag = true) ∧
      (SubContour.ofVertices [(⟨1, 0, 0⟩ : Vec3 K), ⟨0, 1, 0⟩, ⟨0, 0, 1⟩] false).getLast?
        = some ⟨⟨0, 0, 1⟩, true⟩ ∧
      (SubContour.clearLastEdgeFlag
          ([(⟨1, 0, 0⟩ : Vec3 K), ⟨0, 1, 0⟩, ⟨0, 0, 1⟩].map (fun v => ⟨v, true⟩))).getLast?
        = some ⟨⟨0, 0, 1⟩, false⟩ := by
  have h : SubContour.ofVertices vertices closed = vertices.map (fun v => ⟨v, true⟩) := rfl
  refine ⟨h, ?_, ?_, rfl, rfl⟩
  · rw [h, List.map_map]
    exact List.map_id _
  · intro e he
    rw [h] at he
    obtain ⟨v, _, rfl⟩ := List.mem_map.mp he
    rfl

end SubContourProofs

/-! ## The convex polygon tests in double precision -/

section DoubleContourProofs

set_option maxRecDepth 100000

/-- In doubles as in exact arithmetic, the contour is valid exactly when it has 3 vertices
or more and every edge, the closing one included, has the tested vertices in its half
space. -/
theorem checkValidContour_double_iff (contour : List Vec3d) :
    Ieee.SphericalConvexPolygon.checkValidContour contour = true ↔
      3 ≤ contour.length ∧
      (∀ i, i < contour.length - 1 → ∀ p, p < contour.length - 2 →
        Ieee.sideHalfSpaceContains (Ieee.vAt contour (i + 1)) (Ieee.vAt contour i)
          (Ieee.vAt contour ((p + i + 2) % contour.length)) = true) ∧
      (∀ p, p < contour.length - 2 →
        Ieee.sideHalfSpaceContains (Ieee.vFirst contour) (Ieee.vLast contour)
          (Ieee.vAt contour ((p + contour.length + 1) % contour.length)) = true) := by
  unfold Ieee.SphericalConvexPolygon.checkValidContour
  by_cases h : contour.length < 3
  · simp [h]
  · simp only [h, if_false]
    rw [foldl_andLoop_eq, andLoop_eq]
    simp only [Bool.true_and, Bool.and_eq_true, List.all_eq_true, List.mem_range]
    constructor
    · rintro ⟨h1, h2⟩; exact ⟨by omega, h1, h2⟩
    · rintro ⟨_, h1, h2⟩; exact ⟨h1, h2⟩

/-- In doubles as in exact arithmetic, `contains` is the conjunction of the edge tests. -/
theorem contains_double_iff (contour : List Vec3d) (p : Vec3d) :
    Ieee.SphericalConvexPolygon.contains contour p = true ↔
      (∀ i, i < contour.length - 1 →
        Ieee.sideHalfSpaceContains (Ieee.vAt contour (i + 1)) (Ieee.vAt contour i) p = true) ∧
      Ieee.sideHalfSpaceContains (Ieee.vFirst contour) (Ieee.vLast contour) p = true := by
  unfold Ieee.SphericalConvexPolygon.contains
  by_cases h : (List.range (contour.length - 1)).any
      (fun i => !Ieee.sideHalfSpaceContains (Ieee.vAt contour (i + 1)) (Ieee.vAt contour i) p)
        = true
  · simp only [h, if_true]
    simp only [List.any_eq_true, List.mem_range, Bool.not_eq_true'] at h
    obtain ⟨i, hi, hf⟩ := h
    constructor
    · intro hc; cases hc
    · rintro ⟨h1, _⟩; rw [h1 i hi] at hf; cases hf
  · simp only [h]
    simp only [List.any_eq_true, List.mem_range, Bool.not_eq_true', not_exists, not_and,
      Bool.not_eq_false] at h
    constructor
    · intro hc; exact ⟨h, by simpa using hc⟩
    · rintro ⟨_, h2⟩; simpa using h2

/-- In a contour that `checkValidContour` accepts, a vertex passes the test of every edge it
is not an end point of: these are the tests `checkValidContour` made. -/
theorem checkValidContour_double_other_edges (contour : List Vec3d)
    (hvalid : Ieee.SphericalConvexPolygon.checkValidContour contour = true)
    (k : Nat) (hk : k < contour.length) :
    (∀ i, i < contour.length - 1 → k ≠ i → k ≠ i + 1 →
      Ieee.sideHalfSpaceContains (Ieee.vAt contour (i + 1)) (Ieee.vAt contour i)
        (Ieee.vAt contour k) = true) ∧
      (k ≠ 0 → k ≠ contour.length - 1 →
        Ieee.sideHalfSpaceContains (Ieee.vFirst contour) (Ieee.vLast contour)
          (Ieee.vAt contour k) = true) := by
  obtain ⟨hlen, hedges, hclose⟩ := (checkValidContour_double_iff contour).mp hvalid
  constructor
  · intro i hi hki hki1
    rcases Nat.lt_or_gt_of_ne hki with hlt | hgt
    · have hp : k + contour.length - i - 2 < contour.length - 2 := by omega
      have h := hedges i hi _ hp
      have hidx : (k + contour.length - i - 2 + i + 2) % contour.length = k := by
        have : k + contour.length - i - 2 + i + 2 = k + contour.length := by omega
        rw [this, Nat.add_mod_right, Nat.mod_eq_of_lt hk]
      rwa [hidx] at h
    · have hp : k - i - 2 < contour.length - 2 := by omega
      have h := hedges i hi _ hp
      have hidx : (k - i - 2 + i + 2) % contour.length = k := by
        have : k - i - 2 + i + 2 = k := by omega
        rw [this, Nat.mod_eq_of_lt hk]
      rwa [hidx] at h
  · intro hk0 hkl
    have hp : k - 1 < contour.length - 2 := by omega
    have h := hclose _ hp
    have hidx : (k - 1 + contour.length + 1) % contour.length = k := by
      have : k - 1 + contour.length + 1 = k + contour.length := by omega
      rw [this, Nat.add_mod_right, Nat.mod_eq_of_lt hk]
    rwa [hidx] at h

/-- C8, as stated: closure under membership fails in doubles. The contour
`Ieee.sampleTriangle` is accepted by `checkValidContour`, and `contains` is false for its
second vertex: on the edge from the second to the third vertex the edge test of the second
vertex itself is `(a x b) . b = -2^-54`, a rounding residue of a value that is 0 in exact
arithmetic. -/
theorem checkValidContour_double_counterexample :
    Ieee.SphericalConvexPolygon.checkValidContour Ieee.sampleTriangle = true ∧
      Ieee.SphericalConvexPolygon.contains Ieee.sampleTriangle (Ieee.vAt Ieee.sampleTriangle 1)
        = false ∧
      Ieee.dot
          (Ieee.cross (Ieee.vAt Ieee.sampleTriangle 2) (Ieee.vAt Ieee.sampleTriangle 1))
          (Ieee.vAt Ieee.sampleTriangle 1)
        = .finite true (2 ^ 52) (-106) := by
  decide

/-- C8, amended: in doubles, for a contour that `checkValidContour` accepts, a vertex passes
in `contains` the test of every edge it is not an end point of, so that `contains` is true
for the vertex exactly when it passes the tests of the edges it ends. In exact arithmetic
the value tested there, `(a x b) . a` or `(a x b) . b`, is 0, and `contains` is true for
every vertex of an accepted contour. -/
theorem checkValidContour_contains_vertex_off_its_edges :
    (∀ (contour : List Vec3d) (k : Nat),
      Ieee.SphericalConvexPolygon.checkValidContour contour = true → k < contour.length →
      (∀ i, i < contour.length - 1 → k ≠ i → k ≠ i + 1 →
        Ieee.sideHalfSpaceContains (Ieee.vAt contour (i + 1)) (Ieee.vAt contour i)
          (Ieee.vAt contour k) = true) ∧
      (k ≠ 0 → k ≠ contour.length - 1 →
        Ieee.sideHalfSpaceContains (Ieee.vFirst contour) (Ieee.vLast contour)
          (Ieee.vAt contour k) = true) ∧
      (Ieee.SphericalConvexPolygon.contains contour (Ieee.vAt contour k) = true ↔
        (∀ i, i < contour.length - 1 → (k = i ∨ k = i + 1) →
          Ieee.sideHalfSpaceContains (Ieee.vAt contour (i + 1)) (Ieee.vAt contour i)
            (Ieee.vAt contour k) = true) ∧
        ((k = 0 ∨ k = contour.length - 1) →
          Ieee.sideHalfSpaceContains (Ieee.vFirst contour) (Ieee.vLast contour)
            (Ieee.vAt contour k) = true))) ∧
    (∀ (K : Type) [LinearOrderedCommRing K] (contour : List (Vec3 K)),
      (∀ a b : Vec3 K, (a.cross b).dot a = 0 ∧ (a.cross b).dot b = 0) ∧
      (SphericalConvexPolygon.checkValidContour contour = true →
        ∀ v, v ∈ contour → SphericalConvexPolygon.contains contour v = true)) := by
  constructor
  · intro contour k hvalid hk
    obtain ⟨hedges, hclose⟩ := checkValidContour_double_other_edges contour hvalid k hk
    refine ⟨hedges, hclose, ?_⟩
    rw [contains_double_iff]
    constructor
    · rintro ⟨h1, h2⟩
      exact ⟨fun i hi _ => h1 i hi, fun _ => h2⟩
    · rintro ⟨h1, h2⟩
      constructor
      · intro i hi
        by_cases hinc : k = i ∨ k = i + 1
        · exact h1 i hi hinc
        · exact hedges i hi (fun h => hinc (Or.inl h)) (fun h => hinc (Or.inr h))
      · by_cases hinc : k = 0 ∨ k = contour.length - 1
        · exact h2 hinc
        · exact hclose (fun h => hinc (Or.inl h)) (fun h => hinc (Or.inr h))
  · intro K _ contour
    exact ⟨fun a b => ⟨cross_dot_left a b, cross_dot_right a b⟩,
      fun hvalid => checkValidContour_contains_vertex contour hvalid⟩

end DoubleContourProofs

/-! ## The mesh of a convex polygon in double precision -/

section DoubleFanLemmas

variable {K : Type}

end DoubleFanLemmas

section DoubleFanProofs

set_option maxRecDepth 100000

end DoubleFanProofs

/-! ## The crossing point of two great circles in double precision -/

section DoubleCrossingProofs

set_option maxRecDepth 100000
set_option exponentiation.threshold 10000

/-- The function `greatCircleIntersection` in doubles reads the build configuration of its
environment only. -/
theorem greatCircleIntersection_double_env (normalize : Vec3d → Vec3d) (env : Env Double)
    (p1 p2 n2 : Vec3d) :
    Ieee.greatCircleIntersection normalize env p1 p2 n2
      = Ieee.greatCircleIntersection normalize
        { Ieee.sampleEnv with assertions := env.assertions } p1 p2 n2 := rfl

/-- C21: `greatCircleIntersection` sets `ok = true` on a result that is no crossing point,
in a build with assertions and without, with `normalize()` dividing by the norm or
multiplying by its inverse. For `p1 = (1,0,0)`, `p2 = (1,1e-200,0)`, two vectors of squared
norm 1 in doubles on the two sides `y > 0` and `y <= 0` that `getSide` tells apart, and the
unit normal `n2 = (0,1,0)`: `p1 x p2 = (0,0,1e-200)` is not null and its norm is 0 in
doubles, so its normalisation holds NaN, the test `u.length() < 1e-7` is false on NaN, and
the function returns `ok = true` with the vector `(NaN, NaN, NaN)`, which
`interpolateAtCrossingPoint` returns as the crossing point, its `Q_ASSERT(ok)` passing. The
same happens for the opposite vectors `p1 = (1,0,0)`, `p2 = (-1,0,0)` with `n2 = (1,0,0)`,
and for `p1 = p2 = (1,0,0)` with `n2 = (0,0,1)`, where `p1 x p2` is null. -/
theorem greatCircleIntersection_ok_with_nan (env : Env Double) :
    (Ieee.lengthSquared Ieee.unitX = Double.ofNat 1 ∧
      Ieee.lengthSquared Ieee.nearUnitX = Double.ofNat 1 ∧
      Ieee.lengthSquared Ieee.unitY = Double.ofNat 1 ∧
      Double.lt Double.zero (Ieee.get Ieee.unitX 1) = false ∧
      Double.lt Double.zero (Ieee.get Ieee.nearUnitX 1) = true ∧
      Ieee.cross Ieee.unitX Ieee.nearUnitX = ⟨Double.zero, Double.zero, Ieee.tiny⟩ ∧
      Ieee.length ⟨Double.zero, Double.zero, Ieee.tiny⟩ = Double.zero ∧
      Ieee.greatCircleIntersection Ieee.normalize env Ieee.unitX Ieee.nearUnitX Ieee.unitY
        = .ok (Ieee.nanVec, true) ∧
      Ieee.greatCircleIntersection Ieee.normalizeByInverse env Ieee.unitX Ieee.nearUnitX
          Ieee.unitY
        = .ok (Ieee.nanVec, true) ∧
      Ieee.interpolateAtCrossingPoint Ieee.normalize env Ieee.unitX Ieee.nearUnitX Ieee.unitY
        = .ok Ieee.nanVec ∧
      Ieee.interpolateAtCrossingPoint Ieee.normalizeByInverse env Ieee.unitX Ieee.nearUnitX
          Ieee.unitY
        = .ok Ieee.nanVec) ∧
    (Double.lt Double.zero (Ieee.get Ieee.unitX 0) = true ∧
      Double.lt Double.zero (Ieee.get Ieee.minusUnitX 0) = false ∧
      Ieee.greatCircleIntersection Ieee.normalize env Ieee.unitX Ieee.minusUnitX Ieee.unitX
        = .ok (Ieee.nanVec, true) ∧
      Ieee.greatCircleIntersection Ieee.normalizeByInverse env Ieee.unitX Ieee.minusUnitX
          Ieee.unitX
        = .ok (Ieee.nanVec, true) ∧
      Ieee.interpolateAtCrossingPoint Ieee.normalize env Ieee.unitX Ieee.minusUnitX Ieee.unitX
        = .ok Ieee.nanVec ∧
      Ieee.interpolateAtCrossingPoint Ieee.normalizeByInverse env Ieee.unitX Ieee.minusUnitX
          Ieee.unitX
        = .ok Ieee.nanVec) ∧
    (Ieee.greatCircleIntersection Ieee.normalize env Ieee.unitX Ieee.unitX Ieee.unitZ
        = .ok (Ieee.nanVec, true) ∧
      Ieee.greatCircleIntersection Ieee.normalizeByInverse env Ieee.unitX Ieee.unitX Ieee.unitZ
        = .ok (Ieee.nanVec, true)) := by
  have h : ∀ b : Bool,
      (Ieee.greatCircleIntersection Ieee.normalize { Ieee.sampleEnv with assertions := b }
            Ieee.unitX Ieee.nearUnitX Ieee.unitY = .ok (Ieee.nanVec, true) ∧
        Ieee.greatCircleIntersection Ieee.normalizeByInverse
            { Ieee.sampleEnv with assertions := b } Ieee.unitX Ieee.nearUnitX Ieee.unitY
          = .ok (Ieee.nanVec, true) ∧
        Ieee.interpolateAtCrossingPoint Ieee.normalize { Ieee.sampleEnv with assertions := b }
            Ieee.unitX Ieee.nearUnitX Ieee.unitY = .ok Ieee.nanVec ∧
        Ieee.interpolateAtCrossingPoint Ieee.normalizeByInverse
            { Ieee.sampleEnv with assertions := b } Ieee.unitX Ieee.nearUnitX Ieee.unitY
          = .ok Ieee.nanVec) ∧
      (Ieee.greatCircleIntersection Ieee.normalize { Ieee.sampleEnv with assertions := b }
            Ieee.unitX Ieee.minusUnitX Ieee.unitX = .ok (Ieee.nanVec, true) ∧
        Ieee.greatCircleIntersection Ieee.normalizeByInverse
            { Ieee.sampleEnv with assertions := b } Ieee.unitX Ieee.minusUnitX Ieee.unitX
          = .ok (Ieee.nanVec, true) ∧
        Ieee.interpolateAtCrossingPoint Ieee.normalize { Ieee.sampleEnv with assertions := b }
            Ieee.unitX Ieee.minusUnitX Ieee.unitX = .ok Ieee.nanVec ∧
        Ieee.interpolateAtCrossingPoint Ieee.normalizeByInverse
            { Ieee.sampleEnv with assertions := b } Ieee.unitX Ieee.minusUnitX Ieee.unitX
          = .ok Ieee.nanVec) ∧
      (Ieee.greatCircleIntersection Ieee.normalize { Ieee.sampleEnv with assertions := b }
            Ieee.unitX Ieee.unitX Ieee.unitZ = .ok (Ieee.nanVec, true) ∧
        Ieee.greatCircleIntersection Ieee.normalizeByInverse
            { Ieee.sampleEnv with assertions := b } Ieee.unitX Ieee.unitX Ieee.unitZ
          = .ok (Ieee.nanVec, true)) := by
    intro b
    cases b <;> exact ⟨⟨rfl, rfl, rfl, rfl⟩, ⟨rfl, rfl, rfl, rfl⟩, ⟨rfl, rfl⟩⟩
  obtain ⟨⟨a1, a2, a3, a4⟩, ⟨b1, b2, b3, b4⟩, ⟨c1, c2⟩⟩ := h env.assertions
  exact ⟨⟨by decide, by decide, by decide, by decide, by decide, by decide, by decide,
      a1, a2, a3, a4⟩,
    ⟨by decide, by decide, b1, b2, b3, b4⟩, ⟨c1, c2⟩⟩

end DoubleCrossingProofs

/-! ## The intersection of the planes of two caps in double precision -/

section DoublePlaneProofs

set_option maxRecDepth 100000
set_option exponentiation.threshold 10000

/-- C22: `planeIntersect2` returns `true` with points that are not on the sphere, after
divisions by zero. For the caps of normals `(1,0,0)` and `(1,1e-200,0)`, both of squared norm
1 in doubles, and `d = 0`: when `h1.intersects(h2)` is false the function returns `false`;
when it is true, as it is with `acos(1) = 0` and `acos(0)` the double nearest to `pi/2`, the
cross product of the normals is `(0,0,1e-200)`, which passes the test for parallel planes,
and its norm is 0 in doubles: with assertions compiled out the function returns `true` with
`p1 = p2 = (NaN, NaN, NaN)`, having divided by the norm 0 in `u.normalize()` and twice by
`denom = 0`; with assertions compiled in it stops on its own
`Q_ASSERT(fabs(p1.lengthSquared()-1.)<0.000001)`. This holds with `normalize()` dividing by
the norm or multiplying by its inverse. -/
theorem planeIntersect2_true_with_nan (env : Env Double) :
    Ieee.lengthSquared Ieee.unitX = Double.ofNat 1 ∧
    Ieee.lengthSquared Ieee.nearUnitX = Double.ofNat 1 ∧
    Ieee.cross Ieee.unitX Ieee.nearUnitX = ⟨Double.zero, Double.zero, Ieee.tiny⟩ ∧
    Ieee.length ⟨Double.zero, Double.zero, Ieee.tiny⟩ = Double.zero ∧
    Ieee.capIntersects Ieee.sampleEnv ⟨Ieee.unitX, Double.zero⟩ ⟨Ieee.nearUnitX, Double.zero⟩
      = true ∧
    Ieee.planeIntersect2 Ieee.normalize env ⟨Ieee.unitX, Double.zero⟩
        ⟨Ieee.nearUnitX, Double.zero⟩
      = (if Ieee.capIntersects env ⟨Ieee.unitX, Double.zero⟩ ⟨Ieee.nearUnitX, Double.zero⟩
            = true then
          (if env.assertions = true then .error .assertion
            else .ok (some (Ieee.nanVec, Ieee.nanVec),
              [Double.zero, Double.zero, Double.zero, Double.ofNat 2, Double.ofNat 2]))
        else .ok (none, [])) ∧
    Ieee.planeIntersect2 Ieee.normalizeByInverse env ⟨Ieee.unitX, Double.zero⟩
        ⟨Ieee.nearUnitX, Double.zero⟩
      = (if Ieee.capIntersects env ⟨Ieee.unitX, Double.zero⟩ ⟨Ieee.nearUnitX, Double.zero⟩
            = true then
          (if env.assertions = true then .error .assertion
            else .ok (some (Ieee.nanVec, Ieee.nanVec),
              [Double.zero, Double.zero, Double.zero, Double.ofNat 2, Double.ofNat 2]))
        else .ok (none, [])) := by
  refine ⟨by decide, by decide, by decide, by decide, by decide, ?_, ?_⟩
  · cases hc : Ieee.capIntersects env ⟨Ieee.unitX, Double.zero⟩ ⟨Ieee.nearUnitX, Double.zero⟩
    · simp only [Ieee.planeIntersect2, hc, Bool.not_false, if_true, Bool.false_eq_true,
        if_false]
      rfl
    · cases ha : env.assertions <;>
        simp only [Ieee.planeIntersect2, hc, qAssert, ha, Bool.not_true, Bool.false_eq_true,
          if_false, if_true] <;> rfl
  · cases hc : Ieee.capIntersects env ⟨Ieee.unitX, Double.zero⟩ ⟨Ieee.nearUnitX, Double.zero⟩
    · simp only [Ieee.planeIntersect2, hc, Bool.not_false, if_true, Bool.false_eq_true,
        if_false]
      rfl
    · cases ha : env.assertions <;>
        simp only [Ieee.planeIntersect2, hc, qAssert, ha, Bool.not_true, Bool.false_eq_true,
          if_false, if_true] <;> rfl

end DoublePlaneProofs

/-! ## Self-difference and the winding number -/

section WindingLemmas

variable {K : Type} [LinearOrderedField K]

/-- An edge taken backwards crosses the other way. -/
theorem edgeWinding_swap (a b q : K × K) : edgeWinding b a q = -edgeWinding a b q := by
  have hL : (a.1 - b.1) * (q.2 - b.2) - (q.1 - b.1) * (a.2 - b.2)
      = -((b.1 - a.1) * (q.2 - a.2) - (q.1 - a.1) * (b.2 - a.2)) := by ring
  unfold edgeWinding
  rw [hL]
  simp only [neg_pos, neg_lt_zero]
  by_cases hU : a.2 ≤ q.2 ∧ q.2 < b.2
      ∧ 0 < (b.1 - a.1) * (q.2 - a.2) - (q.1 - a.1) * (b.2 - a.2)
  · have hD : ¬ (b.2 ≤ q.2 ∧ q.2 < a.2
        ∧ (b.1 - a.1) * (q.2 - a.2) - (q.1 - a.1) * (b.2 - a.2) < 0) := by
      rintro ⟨h1, h2, _⟩
      exact absurd (lt_of_le_of_lt hU.1 hU.2.1) (not_lt.mpr (le_of_lt (lt_of_le_of_lt h1 h2)))
    simp only [hU, hD, if_true, if_false, and_self]
  · by_cases hD : b.2 ≤ q.2 ∧ q.2 < a.2
        ∧ (b.1 - a.1) * (q.2 - a.2) - (q.1 - a.1) * (b.2 - a.2) < 0
    · simp only [hU, hD, if_true, if_false, and_self, neg_neg]
    · simp only [hU, hD, if_false, neg_zero]

theorem pathWinding_cons_cons (q a b : K × K) (rest : List (K × K)) :
    pathWinding q (a :: b :: rest) = edgeWinding a b q + pathWinding q (b :: rest) := rfl

/-- A path with one more vertex has one more edge. -/
theorem pathWinding_append_pair (q : K × K) (p : List (K × K)) (a b : K × K) :
    pathWinding q (p ++ [a, b]) = pathWinding q (p ++ [a]) + edgeWinding a b q := by
  induction p with
  | nil => simp [pathWinding]
  | cons x p ih =>
    cases p with
    | nil => simp [pathWinding]
    | cons y p =>
      rw [List.cons_append, List.cons_append, List.cons_append, List.cons_append,
        pathWinding_cons_cons, pathWinding_cons_cons]
      rw [List.cons_append, List.cons_append] at ih
      rw [ih]; ring

/-- A path taken backwards has the opposite crossings. -/
theorem pathWinding_reverse (q : K × K) (p : List (K × K)) :
    pathWinding q p.reverse = -pathWinding q p := by
  induction p with
  | nil => simp [pathWinding]
  | cons a p ih =>
    cases p with
    | nil => simp [pathWinding]
    | cons b rest =>
      have h : (a :: b :: rest).reverse = rest.reverse ++ [b, a] := by simp
      have h2 : (b :: rest).reverse = rest.reverse ++ [b] := by simp
      rw [h, pathWinding_append_pair, ← h2, ih, edgeWinding_swap]
      simp only [pathWinding]
      ring

/-- A contour taken backwards winds the other way around every point. -/
theorem contourWinding_reverse (proj : Vec3 K → K × K) (q : K × K) (c : List (Vec3 K)) :
    contourWinding proj q c.reverse = -contourWinding proj q c := by
  cases c with
  | nil => simp [contourWinding]
  | cons a rest =>
    have hneg : -contourWinding proj q (a :: rest)
        = pathWinding q (proj a :: ((a :: rest).map proj).reverse) := by
      rw [contourWinding, ← pathWinding_reverse]
      simp
    rw [hneg]
    have hrev : (a :: rest).reverse = rest.reverse ++ [a] := by simp
    rw [← List.map_reverse, hrev]
    cases hr : rest.reverse with
    | nil => simp [contourWinding, pathWinding]
    | cons l m =>
      have h1 : contourWinding proj q (l :: m ++ [a])
          = pathWinding q ((proj l :: m.map proj) ++ [proj a, proj l]) := by
        simp [contourWinding]
      have h2 : List.map proj (l :: m ++ [a]) = (proj l :: m.map proj) ++ [proj a] := by simp
      rw [h1, h2, pathWinding_append_pair, List.cons_append, pathWinding_cons_cons]
      ring

/-- Contours followed by the same contours taken backwards have winding number 0 around
every point, in every projection. -/
theorem windingNumber_append_reverse (proj : Vec3 K → K × K) (cs : List (List (Vec3 K)))
    (q : K × K) : windingNumber proj (cs ++ cs.map List.reverse) q = 0 := by
  have h : ∀ l : List (List (Vec3 K)),
      ((l.map List.reverse).map (contourWinding proj q)).sum
        = -(l.map (contourWinding proj q)).sum := by
    intro l
    induction l with
    | nil => simp
    | cons c l ih =>
      simp only [List.map_cons, List.sum_cons, ih, contourWinding_reverse]
      ring
  unfold windingNumber
  rw [List.map_append, List.sum_append, h]
  ring

end WindingLemmas

section SelfDifferenceClaim

variable {K : Type} [LinearOrderedField K]

/-- C17: self-difference. For a polygon `a` whose mesh has the invariant of the data model,
`getContours` returns the triangles `cs` of `a`, and `a.getSubtraction(a)` is what
`setContours` builds with the rule `WindingPositive` from `cs` followed by the same
triangles reversed; it depends on the tesselator through its output on that contour list
alone. The winding number of that contour list is 0 around every point in every projection
(a reversed triangle winds the other way), so with a tesselator that obeys the fill rule
`Positive` the result of `a.getSubtraction(a)`, and so of
`SphericalRegionP::getSubtraction(a, a)`, is a polygon with an empty triangle mesh. -/
theorem getSubtraction_self_empty (env : Env K) (a : SphericalPolygon K)
    (hmesh : meshInvariant a.triangleVertices) :
    ∃ cs, cs = (List.range (a.triangleVertices.length / 3)).map
          (fun i => (a.triangleVertices.drop (i * 3)).take 3) ∧
      a.getContours env = .ok cs ∧
      a.getSubtraction env a
        = SphericalPolygon.setContours env (cs ++ cs.map List.reverse) .WindingPositive ∧
      (∀ f g : PolyWindingRule → List (List (Vec3 K)) → List (Vec3 K × Bool),
        f .WindingPositive (cs ++ cs.map List.reverse)
            = g .WindingPositive (cs ++ cs.map List.reverse) →
          a.getSubtraction { env with tesselate := f } a
            = a.getSubtraction { env with tesselate := g } a) ∧
      (∀ (proj : Vec3 K → K × K) (q : K × K),
        windingNumber proj (cs ++ cs.map List.reverse) q = 0) ∧
      (PositiveFillRule env →
        a.getSubtraction env a = .ok ⟨[], []⟩ ∧
          SphericalRegionP.getSubtraction env (.Polygon a) (.Polygon a)
            = .ok (.Polygon ⟨[], []⟩)) := by
  have hsub : ∀ f : PolyWindingRule → List (List (Vec3 K)) → List (Vec3 K × Bool),
      a.getSubtraction { env with tesselate := f } a
        = SphericalPolygon.setContours { env with tesselate := f }
          ((List.range (a.triangleVertices.length / 3)).map
              (fun i => (a.triangleVertices.drop (i * 3)).take 3)
            ++ ((List.range (a.triangleVertices.length / 3)).map
              (fun i => (a.triangleVertices.drop (i * 3)).take 3)).map List.reverse)
          .WindingPositive := by
    intro f
    have hc := getContours_ok { env with tesselate := f } a hmesh
    unfold SphericalPolygon.getSubtraction
    rw [hc]
    simp only [bind, Except.bind]
    rw [foldl_append_reverse]
    rfl
  refine ⟨_, rfl, getContours_ok env a hmesh, hsub env.tesselate, ?_,
    fun proj q => windingNumber_append_reverse proj _ q, ?_⟩
  · intro f g hfg
    rw [hsub f, hsub g]
    exact setContours_congr env _ _ f g hfg
  · intro hfill
    have hempty : a.getSubtraction env a = .ok ⟨[], []⟩ := by
      rw [show a.getSubtraction env a = _ from hsub env.tesselate]
      exact setContours_of_no_output env _ _
        (hfill _ (fun proj q => windingNumber_append_reverse proj _ q))
    refine ⟨hempty, ?_⟩
    unfold SphericalRegionP.getSubtraction
    simp only [SphericalRegion.toSphericalPolygon, bind, Except.bind, pure, Except.pure,
      hempty]

end SelfDifferenceClaim

section SelfDifferenceWitness

/-- The tesselator `windingTesselate` obeys the fill rule `Positive`. -/
theorem positiveFillRule_windingEnv : PositiveFillRule windingEnv := by
  intro contours h
  show windingTesselate .WindingPositive contours = []
  unfold windingTesselate
  rw [h]
  simp

/-- The triangle `(3/5,4/5,0), (3/5,-4/5,0), (0,0,1)` with the tesselator `windingTesselate`,
which obeys the fill rule and emits the three vertices for the triangle alone: the
difference of the triangle with itself is empty. -/
theorem getSubtraction_self_empty_witness :
    meshInvariant [(⟨3 / 5, 4 / 5, 0⟩ : Vec3 ℚ), ⟨3 / 5, -4 / 5, 0⟩, ⟨0, 0, 1⟩] ∧
      PositiveFillRule windingEnv ∧
      windingEnv.tesselate .WindingPositive
          [[(⟨3 / 5, 4 / 5, 0⟩ : Vec3 ℚ), ⟨3 / 5, -4 / 5, 0⟩, ⟨0, 0, 1⟩]]
        = [(⟨3 / 5, 4 / 5, 0⟩, true), (⟨3 / 5, -4 / 5, 0⟩, true), (⟨0, 0, 1⟩, true)] ∧
      SphericalPolygon.getSubtraction windingEnv
        ⟨[⟨3 / 5, 4 / 5, 0⟩, ⟨3 / 5, -4 / 5, 0⟩, ⟨0, 0, 1⟩], [true, true, true]⟩
        ⟨[⟨3 / 5, 4 / 5, 0⟩, ⟨3 / 5, -4 / 5, 0⟩, ⟨0, 0, 1⟩], [true, true, true]⟩
        = .ok ⟨[], []⟩ := by
  have hm : meshInvariant [(⟨3 / 5, 4 / 5, 0⟩ : Vec3 ℚ), ⟨3 / 5, -4 / 5, 0⟩, ⟨0, 0, 1⟩] :=
    meshInvariant_triangle _ _ _ (by norm_num [Vec3.cross, Vec3.dot])
  refine ⟨hm, positiveFillRule_windingEnv, ?_, ?_⟩
  · show windingTesselate .WindingPositive _ = _
    norm_num [windingTesselate, windingNumber, contourWinding, pathWinding, edgeWinding]
  · obtain ⟨cs, _, _, _, _, _, h⟩ := getSubtraction_self_empty windingEnv
      ⟨[⟨3 / 5, 4 / 5, 0⟩, ⟨3 / 5, -4 / 5, 0⟩, ⟨0, 0, 1⟩], [true, true, true]⟩ hm
    exact (h positiveFillRule_windingEnv).1

end SelfDifferenceWitness

end StelSphereGeometry
